import Mathlib

/-!
# PlasticSourceControlUtils: a shallow embedding

Lean model of `Source/PlasticSourceControl/Private/PlasticSourceControlUtils.cpp`.
An `FString` is modelled by its list of characters, a `TArray` by a list.
The engine string primitives the file calls (`Mid`, `Find`, `ParseIntoArray`,
`Atoi`, `operator==`) are modelled first, then the functions of the file,
each after the engine functions it needs (`Contains`, `operator/`,
`FPaths::GetPath`, `FXmlNode`).
-/

namespace PlasticSourceControlUtils

/-! ## Engine strings -/

/-- The characters of an Unreal `FString`. -/
abbrev FString := List Char

/-- The operator `FString::operator==` : the engine defines it as
`FPlatformString::Stricmp(*Lhs, *Rhs) == 0`, a comparison that ignores the case
of the ASCII letters. -/
def FStringEq (Lhs Rhs : FString) : Bool :=
  Lhs.map Char.toLower == Rhs.map Char.toLower

/-- The operator `FString::operator!=` : the engine defines it as
`FPlatformString::Stricmp(*Lhs, *Rhs) != 0`. -/
def FStringNe (Lhs Rhs : FString) : Bool :=
  !(FStringEq Lhs Rhs)

/-- The function `FString::Mid(Start, Count)` : both ends are clamped to the length. -/
def Mid (Str : FString) (Start Count : Nat) : FString :=
  (Str.drop Start).take Count

/-! ## Engine string search, splitting and number parsing -/

/-- The function `FCString::Strstr(Str, Find)` : the offset of the first occurrence of
`Find` in `Str`, if any. -/
def Strstr (Find : FString) : FString → Option Nat
  | [] => if Find.isPrefixOf [] then some 0 else none
  | c :: Str =>
    if Find.isPrefixOf (c :: Str) then some 0
    else (Strstr Find Str).map (fun Tmp => Tmp + 1)

/-- The function `FString::Find(SubStr, ESearchCase::CaseSensitive, ESearchDir::FromStart,
StartPosition)` : the search starts at `Clamp(StartPosition, 0, Len() - 1)` and
the index returned counts from the start of the string. -/
def FindFromStart (Str SubStr : FString) (StartPosition : Nat) : Option Nat :=
  let Start := min StartPosition (Str.length - 1)
  (Strstr SubStr (Str.drop Start)).map (fun Tmp => Start + Tmp)

/-- The descending loop of `FString::Find(..., ESearchDir::FromEnd)` :
`for (i = ...; i >= 0; i--)`, returning the first `i` at which `SubStr` matches. -/
def FindFromEnd.scan (Str SubStr : FString) : Nat → Option Nat
  | 0 => if SubStr.isPrefixOf (Str.drop 0) then some 0 else none
  | i + 1 =>
    if SubStr.isPrefixOf (Str.drop (i + 1)) then some (i + 1)
    else FindFromEnd.scan Str SubStr i

/-- The function `FString::Find(SubStr, ESearchCase::CaseSensitive, ESearchDir::FromEnd)`
with no start position: the index of the last occurrence, searched downwards
from `Len() - Max(1, Strlen(SubStr))`. -/
def FindFromEnd (Str SubStr : FString) : Option Nat :=
  let SearchStringLength := max 1 SubStr.length
  if SearchStringLength ≤ Str.length then
    FindFromEnd.scan Str SubStr (Str.length - SearchStringLength)
  else none

/-- The function `FString::RemoveAt(Index, Count)`. -/
def RemoveAt (Str : FString) (Index Count : Nat) : FString :=
  Str.take Index ++ Str.drop (Index + Count)

/-- One piece found by `ParseIntoArray` : it is kept unless it is empty and
empty pieces are culled. -/
def ParseIntoArray.emit (InCullEmpty : Bool) (Piece : FString) : List FString :=
  if InCullEmpty && Piece.isEmpty then [] else [Piece]

/-- The `while (At = Strstr(Start, pchDelim))` loop of `FString::ParseIntoArray`,
read one character at a time: `Skip` counts the characters of a delimiter
just matched that are still to be passed, `Piece` is the text since `Start`. -/
def ParseIntoArray.loop (pchDelim : FString) (InCullEmpty : Bool) :
    Nat → FString → FString → List FString
  | _, Piece, [] => ParseIntoArray.emit InCullEmpty Piece
  | Skip + 1, Piece, _ :: Rest => ParseIntoArray.loop pchDelim InCullEmpty Skip Piece Rest
  | 0, Piece, c :: Rest =>
    if pchDelim.isPrefixOf (c :: Rest) then
      ParseIntoArray.emit InCullEmpty Piece ++
        ParseIntoArray.loop pchDelim InCullEmpty (pchDelim.length - 1) [] Rest
    else ParseIntoArray.loop pchDelim InCullEmpty 0 (Piece ++ [c]) Rest

/-- The function `FString::ParseIntoArray(OutArray, pchDelim, InCullEmpty)` : the pieces
between the occurrences of the delimiter, in order; nothing for an empty
string or an empty delimiter. `InCullEmpty` defaults to `true` in the engine,
and no call of this file passes it. -/
def ParseIntoArray (Str pchDelim : FString) (InCullEmpty : Bool) : List FString :=
  if Str.isEmpty || pchDelim.isEmpty then []
  else ParseIntoArray.loop pchDelim InCullEmpty 0 [] Str

/-- The white space that `strtol` skips. -/
def isSpace (c : Char) : Bool :=
  c = ' ' || c = '\t' || c = '\n' || c = '\r' || c = Char.ofNat 11 || c = Char.ofNat 12

/-- The digits read by `strtol` in base 10, accumulated from `Acc`, up to the
first character that is not a digit. -/
def Atoi.digits : Nat → FString → Nat
  | Acc, [] => Acc
  | Acc, c :: Str =>
    if c.isDigit then Atoi.digits (Acc * 10 + (c.toNat - '0'.toNat)) Str else Acc

/-- The number written at the start of the text, as the C library reads it:
white space, an optional sign, then digits; 0 when there is no digit. -/
def Atoi.number (Str : FString) : Int :=
  match Str.dropWhile isSpace with
  | [] => 0
  | c :: Rest =>
    if c = '-' then -((Atoi.digits 0 Rest : Nat) : Int)
    else if c = '+' then ((Atoi.digits 0 Rest : Nat) : Int)
    else ((Atoi.digits 0 (c :: Rest) : Nat) : Int)

/-- The value returned by the C library function that `FCString::Atoi` calls:
`_wtoi` on Windows (`bPlatformWindows`, the macro `PLATFORM_WINDOWS`), which
returns an `int` of 32 bits, and `wcstol(Str, NULL, 10)` on the other
platforms, which returns a `long` of 64 bits. A number above the greatest
value of that type is returned as the greatest value, a number below the
least value as the least value. -/
def Atoi.strtol (bPlatformWindows : Bool) (Str : FString) : Int :=
  let Max : Int := if bPlatformWindows then 2 ^ 31 - 1 else 2 ^ 63 - 1
  let Min : Int := if bPlatformWindows then -2 ^ 31 else -2 ^ 63
  let Number := Atoi.number Str
  if Number > Max then Max else if Number < Min then Min else Number

/-- An integer narrowed to `int32` (two's complement, modulo `2 ^ 32`). -/
def toInt32 (z : Int) : Int :=
  (z + 2 ^ 31) % 2 ^ 32 - 2 ^ 31

/-- The function `FCString::Atoi(Str)` : the decimal integer at the start of the text,
as the C library of the platform returns it, narrowed to the `int32` that
`Atoi` returns. On Windows the narrowing changes nothing; elsewhere a `long`
outside the `int32` range loses its upper 32 bits. -/
def Atoi (bPlatformWindows : Bool) (Str : FString) : Int :=
  toInt32 (Atoi.strtol bPlatformWindows Str)

/-- The constant `PlasticSourceControlConstants::pchDelim` : the line terminator of the
platform. -/
def pchDelim (bPlatformWindows : Bool) : FString :=
  if bPlatformWindows then ['\r', '\n'] else ['\n']

/-! ## Workspace states -/

/-- Modelled from the spec: `EWorkspaceState::Type` is declared in
`PlasticSourceControlState.h`; the thirteen states are those of the data model. -/
inductive EWorkspaceState where
  | Unknown
  | Ignored
  | Controlled
  | CheckedOut
  | Added
  | Moved
  | Copied
  | Replaced
  | Deleted
  | Changed
  | Conflicted
  | LockedByOther
  | Private
  deriving DecidableEq, Repr

/-- Modelled from the spec: the fields of `FPlasticSourceControlState`
(declared in `PlasticSourceControlState.h`) that this file reads or writes. -/
structure FPlasticSourceControlState where
  LocalFilename : FString
  WorkspaceState : EWorkspaceState
  LocalRevisionChangeset : Int
  DepotRevisionChangeset : Int
  LockedBy : FString
  LockedWhere : FString
  PendingMergeBaseFileHash : FString
  TimeStamp : Int
  deriving DecidableEq, Repr

/-! ## Status parser -/

/-- The `if` chain of the constructor `FPlasticStatusParser`, on the text
`FileStatus` it has extracted. Every comparison is `FString::operator==`. -/
def FPlasticStatusParser.ofFileStatus (FileStatus : FString) : EWorkspaceState :=
  if FStringEq FileStatus ['C', 'H'] then EWorkspaceState.Changed
  else if FStringEq FileStatus ['C', 'O'] then EWorkspaceState.CheckedOut
  else if FStringEq FileStatus ['C', 'P'] then EWorkspaceState.Copied
  else if FStringEq FileStatus ['R', 'P'] then EWorkspaceState.Replaced
  else if FStringEq FileStatus ['A', 'D'] then EWorkspaceState.Added
  else if FStringEq FileStatus ['P', 'R'] then EWorkspaceState.Private
  else if FStringEq FileStatus ['I', 'G'] then EWorkspaceState.Ignored
  else if FStringEq FileStatus ['D', 'E'] || FStringEq FileStatus ['L', 'D'] then
    EWorkspaceState.Deleted
  else if FStringEq FileStatus ['M', 'V'] || FStringEq FileStatus ['L', 'M'] then
    EWorkspaceState.Moved
  else if FStringEq FileStatus "conflited".toList then EWorkspaceState.Conflicted
  else EWorkspaceState.Unknown

/-- The member `State` after `FPlasticStatusParser(InResult)` :
`FileStatus = InResult.Mid(1, 2)`, then the `if` chain. -/
def FPlasticStatusParser (InResult : FString) : EWorkspaceState :=
  FPlasticStatusParser.ofFileStatus (Mid InResult 1 2)

/-- The function `ParseStatusResult` : the last line of the results decides, no
line means `Controlled`. The trailing `OutFileState.TimeStamp.Now()` calls the
static `FDateTime::Now()` and drops its value, so no field but `WorkspaceState`
changes. -/
def ParseStatusResult (_InFile : FString) (InResults : List FString)
    (OutFileState : FPlasticSourceControlState) : FPlasticSourceControlState :=
  if 0 < InResults.length then
    match InResults.get? (InResults.length - 1) with
    | some Status => { OutFileState with WorkspaceState := FPlasticStatusParser Status }
    | none => OutFileState
  else
    { OutFileState with WorkspaceState := EWorkspaceState.Controlled }

/-- The status table of the claim: the eleven 2-letter codes and their states. -/
def statusTable : List (FString × EWorkspaceState) :=
  [ (['C', 'H'], EWorkspaceState.Changed),
    (['C', 'O'], EWorkspaceState.CheckedOut),
    (['C', 'P'], EWorkspaceState.Copied),
    (['R', 'P'], EWorkspaceState.Replaced),
    (['A', 'D'], EWorkspaceState.Added),
    (['P', 'R'], EWorkspaceState.Private),
    (['I', 'G'], EWorkspaceState.Ignored),
    (['D', 'E'], EWorkspaceState.Deleted),
    (['L', 'D'], EWorkspaceState.Deleted),
    (['M', 'V'], EWorkspaceState.Moved),
    (['L', 'M'], EWorkspaceState.Moved) ]

/-! ## File-info parser -/

/-- The members of the class `FPlasticFileinfoParser`. -/
structure FPlasticFileinfoParser where
  RevisionChangeset : Int
  RevisionHeadChangeset : Int
  LockedBy : FString
  LockedWhere : FString
  deriving DecidableEq, Repr

/-- The constructor `FPlasticFileinfoParser(InResult)`. The two `int32` members
have no initialiser and are assigned only under `NbElmts >= 2` : `Indeterminate`
stands for the values the object holds where no assignment is made. The
two strings are default-constructed, so empty. -/
def FPlasticFileinfoParser.construct (bPlatformWindows : Bool) (Indeterminate : Int × Int)
    (InResult : FString) : FPlasticFileinfoParser :=
  let Fileinfos := ParseIntoArray InResult [';'] true
  let NbElmts := Fileinfos.length
  if NbElmts ≥ 2 then
    { RevisionChangeset := Atoi bPlatformWindows (Fileinfos.getD 0 [])
      RevisionHeadChangeset := Atoi bPlatformWindows (Fileinfos.getD 1 [])
      LockedBy := if NbElmts ≥ 3 then Fileinfos.getD 2 [] else []
      LockedWhere := if NbElmts ≥ 3 then (if NbElmts ≥ 4 then Fileinfos.getD 3 [] else []) else [] }
  else
    { RevisionChangeset := Indeterminate.1
      RevisionHeadChangeset := Indeterminate.2
      LockedBy := []
      LockedWhere := [] }

/-- The body of the loop of `ParseFileinfoResults` for one result line, on the
state `FileState = InOutStates[IdxResult]`. `GetUserName` and `GetWorkspaceName`
are the values returned by the provider. -/
def ParseFileinfoResults.body (bPlatformWindows : Bool) (GetUserName GetWorkspaceName : FString)
    (Indeterminate : Int × Int) (Fileinfo : FString)
    (FileState : FPlasticSourceControlState) : FPlasticSourceControlState :=
  let FileinfoParser := FPlasticFileinfoParser.construct bPlatformWindows Indeterminate Fileinfo
  let FileState1 : FPlasticSourceControlState :=
    { FileState with
      LocalRevisionChangeset := FileinfoParser.RevisionChangeset
      DepotRevisionChangeset := FileinfoParser.RevisionHeadChangeset
      LockedBy := FileinfoParser.LockedBy
      LockedWhere := FileinfoParser.LockedWhere }
  if (0 < FileState1.LockedBy.length) &&
      (FStringNe FileState1.LockedBy GetUserName ||
        FStringNe FileState1.LockedWhere GetWorkspaceName) then
    { FileState1 with WorkspaceState := EWorkspaceState.LockedByOther }
  else FileState1

/-- The loop `for (IdxResult = 0; IdxResult < InResults.Num(); IdxResult++)` of
`ParseFileinfoResults`, from index `IdxResult` on, over the result lines still
to be read. `none` is an access past the end of `InFiles` or `InOutStates`. -/
def ParseFileinfoResults.loop (bPlatformWindows : Bool) (GetUserName GetWorkspaceName : FString)
    (Indeterminate : Nat → Int × Int) (InFiles : List FString) :
    List FString → Nat → List FPlasticSourceControlState →
      Option (List FPlasticSourceControlState)
  | [], _, InOutStates => some InOutStates
  | Fileinfo :: Rest, IdxResult, InOutStates =>
    match InFiles.get? IdxResult, InOutStates.get? IdxResult with
    | some _, some FileState =>
      ParseFileinfoResults.loop bPlatformWindows GetUserName GetWorkspaceName Indeterminate
        InFiles Rest (IdxResult + 1)
        (InOutStates.set IdxResult
          (ParseFileinfoResults.body bPlatformWindows GetUserName GetWorkspaceName
            (Indeterminate IdxResult) Fileinfo FileState))
    | _, _ => none

/-- The function `ParseFileinfoResults` : line `IdxResult` of the results updates
the state at the same index of `InOutStates`. -/
def ParseFileinfoResults (bPlatformWindows : Bool) (GetUserName GetWorkspaceName : FString)
    (Indeterminate : Nat → Int × Int) (InFiles InResults : List FString)
    (InOutStates : List FPlasticSourceControlState) :
    Option (List FPlasticSourceControlState) :=
  ParseFileinfoResults.loop bPlatformWindows GetUserName GetWorkspaceName Indeterminate
    InFiles InResults 0 InOutStates

/-! ## The command channel -/

/-- The marker text searched for in the output of the shell. -/
def CommandResultMarker : FString :=
  "CommandResult ".toList

/-- What one call of `RunCommandInternal` observes of the `cm shell` process:
whether it runs at the entry check, whether a restart manages to launch it,
the texts returned by the successive `ReadPipe` calls made while it runs
(it is seen stopped once they are used up), and the clock, as the reading
returned by the `k`-th call of `FPlatformTime::Seconds()`. -/
structure FShellEnv where
  bProcRunningAtEntry : Bool
  bRestartLaunches : Bool
  Reads : List FString
  Seconds : Nat → Int

/-- The local variables of the read loop of `RunCommandInternal`. `Ticks` counts
the clock readings taken so far. -/
structure FReadLoop where
  bResult : Bool
  OutResults : FString
  LastActivity : Int
  PreviousLogLen : Nat
  Ticks : Nat

/-- The activity threshold, in the unit of the clock. -/
def Timeout : Int := 60

/-- The search of `RunCommandInternal` for the line holding the result code, in
the output accumulated so far: the last `CommandResult ` marker, then the
first line terminator from 14 characters after it. When both are found it
gives `ResultCode` and `OutResults` with the marker and what follows removed. -/
def RunCommandInternal.findResult (bPlatformWindows : Bool) (OutResults : FString) :
    Option (Int × FString) :=
  match FindFromEnd OutResults CommandResultMarker with
  | some IndexCommandResult =>
    match FindFromStart OutResults (pchDelim bPlatformWindows) (IndexCommandResult + 14) with
    | some IndexEndResult =>
      let Result := Mid OutResults (IndexCommandResult + 14)
        (IndexEndResult - IndexCommandResult - 14)
      let ResultCode := Atoi bPlatformWindows Result
      some (ResultCode,
        RemoveAt OutResults IndexCommandResult (OutResults.length - IndexCommandResult))
    | none => none
  | none => none

/-- The loop `while (FPlatformProcess::IsProcRunning(ShellProcessHandle))` of
`RunCommandInternal`, one iteration per pipe read. -/
def RunCommandInternal.readLoop (bPlatformWindows : Bool) (Seconds : Nat → Int) :
    List FString → FReadLoop → FReadLoop
  | [], L => L
  | Output :: Reads, L =>
    if 0 < Output.length then
      let OutResults := L.OutResults ++ Output
      let L1 : FReadLoop :=
        { L with LastActivity := Seconds L.Ticks, Ticks := L.Ticks + 1, OutResults := OutResults }
      match RunCommandInternal.findResult bPlatformWindows OutResults with
      | some Found => { L1 with bResult := decide (0 = Found.1), OutResults := Found.2 }
      | none => RunCommandInternal.readLoop bPlatformWindows Seconds Reads L1
    else if Seconds L.Ticks - L.LastActivity > Timeout then
      RunCommandInternal.readLoop bPlatformWindows Seconds Reads
        { L with
          PreviousLogLen := L.OutResults.length
          LastActivity := Seconds (L.Ticks + 1)
          Ticks := L.Ticks + 2 }
    else
      RunCommandInternal.readLoop bPlatformWindows Seconds Reads { L with Ticks := L.Ticks + 1 }

/-- The command line built by `RunCommandInternal` : the command, then
`" " + Parameter` for each parameter, then the quoted file for each file,
then the end of line. -/
def RunCommandInternal.FullCommand (InCommand : FString) (InParameters InFiles : List FString) :
    FString :=
  let FullCommand := InParameters.foldl (fun Acc Parameter => Acc ++ [' '] ++ Parameter) InCommand
  let FullCommand := InFiles.foldl (fun Acc File => Acc ++ [' ', '"'] ++ File ++ ['"']) FullCommand
  FullCommand ++ ['\n']

/-- One call of `FPlatformProcess::WritePipe(ShellInputPipeWrite, Message)` : whether
the pipe handle was open, and the message handed over. -/
structure FWritePipe where
  bPipeOpen : Bool
  Message : FString
  deriving DecidableEq, Repr

/-- What `RunCommandInternal` returns and leaves behind: its result, the two out
parameters, the `WritePipe` calls it made, whether it restarted the shell, and
whether `ShellProcessHandle` is valid afterwards. -/
structure FCommandOutcome where
  bResult : Bool
  OutResults : FString
  OutErrors : FString
  Writes : List FWritePipe
  bRestarted : Bool
  bHandleValid : Bool

/-- The function `RunCommandInternal`. `bHandleValid` is `ShellProcessHandle.IsValid()`
at entry; `OutResults` and `OutErrors` are the out parameters as the caller
passes them (every caller in the file passes fresh empty strings). -/
def RunCommandInternal (bPlatformWindows : Bool) (bHandleValid : Bool) (Env : FShellEnv)
    (InCommand : FString) (InParameters InFiles : List FString)
    (OutResults OutErrors : FString) : FCommandOutcome :=
  if bHandleValid then
    let bRestarted := !Env.bProcRunningAtEntry
    let bValid := if bRestarted then Env.bRestartLaunches else true
    let FullCommand := RunCommandInternal.FullCommand InCommand InParameters InFiles
    let Start : FReadLoop :=
      { bResult := false, OutResults := OutResults, LastActivity := Env.Seconds 0
        PreviousLogLen := 0, Ticks := 1 }
    let L := if bValid then
        RunCommandInternal.readLoop bPlatformWindows Env.Seconds Env.Reads Start
      else Start
    if !L.bResult then
      { bResult := false, OutResults := [], OutErrors := L.OutResults
        Writes := [{ bPipeOpen := bValid, Message := FullCommand }]
        bRestarted := bRestarted, bHandleValid := bValid }
    else
      { bResult := true, OutResults := L.OutResults, OutErrors := OutErrors
        Writes := [{ bPipeOpen := bValid, Message := FullCommand }]
        bRestarted := bRestarted, bHandleValid := bValid }
  else
    { bResult := false, OutResults := OutResults
      OutErrors := InCommand ++ ": Plastic SCM shell not running!".toList
      Writes := [], bRestarted := false, bHandleValid := false }

/-- The command line as the protocol describes it: the command, each parameter
preceded by one space, each file preceded by one space and enclosed in
double quotes, one newline. -/
def framedCommandLine (command : FString) (parameters files : List FString) : FString :=
  command ++ (parameters.map (fun p => ' ' :: p)).flatten
    ++ (files.map (fun f => ' ' :: '"' :: (f ++ ['"']))).flatten ++ ['\n']

/-! ## History -/

/-- Modelled from the spec: the fields of `FPlasticSourceControlRevision` (declared in
`PlasticSourceControlRevision.h`) that this file writes. `BranchSource` keeps the
file name and revision number of the revision moved from. -/
structure FPlasticSourceControlRevision where
  ChangesetNumber : Int
  RevisionNumber : Int
  Revision : FString
  Filename : FString
  Description : FString
  UserName : FString
  Action : FString
  Date : FString
  BranchSource : Option (FString × Int)
  deriving DecidableEq, Repr

/-- The variables of the loop of `ParseHistoryResults` : the result flag, the
history built so far, and the state `Shell` of the command shell that the log
commands act on. -/
structure FHistoryLoop (σ : Type) where
  bResult : Bool
  OutHistory : List FPlasticSourceControlRevision
  Shell : σ

/-- The body of the loop of `ParseHistoryResults` for the line `Result`.
`RunLogCommand` is the function of that name, as a function of the shell state:
it returns its result, the revision as it leaves it, and the new shell state.
`New` is a default-constructed `FPlasticSourceControlRevision`. -/
def ParseHistoryResults.body {σ : Type} (bPlatformWindows : Bool)
    (RunLogCommand : σ → FString → FPlasticSourceControlRevision →
      Bool × FPlasticSourceControlRevision × σ)
    (New : FPlasticSourceControlRevision) (Result : FString) (H : FHistoryLoop σ) :
    FHistoryLoop σ :=
  if H.bResult then
    match ParseIntoArray Result [';'] true with
    | [Changeset, RevisionId] =>
      let SourceControlRevision : FPlasticSourceControlRevision :=
        { New with
          ChangesetNumber := Atoi bPlatformWindows Changeset
          RevisionNumber := Atoi bPlatformWindows RevisionId
          Revision := RevisionId }
      let Log := RunLogCommand H.Shell Changeset SourceControlRevision
      { bResult := Log.1, OutHistory := H.OutHistory ++ [Log.2.1], Shell := Log.2.2 }
    | _ => { H with bResult := false }
  else H

/-- The loop `for (Index = InResults.Num() - 1; Index >= 0; Index--)` of
`ParseHistoryResults`, with `Count = Index + 1` lines still to visit. -/
def ParseHistoryResults.loop {σ : Type} (bPlatformWindows : Bool)
    (RunLogCommand : σ → FString → FPlasticSourceControlRevision →
      Bool × FPlasticSourceControlRevision × σ)
    (New : FPlasticSourceControlRevision) (InResults : List FString) :
    Nat → FHistoryLoop σ → FHistoryLoop σ
  | 0, H => H
  | Index + 1, H =>
    match InResults.get? Index with
    | some Result =>
      ParseHistoryResults.loop bPlatformWindows RunLogCommand New InResults Index
        (ParseHistoryResults.body bPlatformWindows RunLogCommand New Result H)
    | none => H

/-- The function `ParseHistoryResults` : the lines are visited from the last to the
first, each revision is appended to `OutHistory`. -/
def ParseHistoryResults {σ : Type} (bPlatformWindows : Bool)
    (RunLogCommand : σ → FString → FPlasticSourceControlRevision →
      Bool × FPlasticSourceControlRevision × σ)
    (New : FPlasticSourceControlRevision) (Shell : σ) (InResults : List FString)
    (OutHistory : List FPlasticSourceControlRevision) : FHistoryLoop σ :=
  ParseHistoryResults.loop bPlatformWindows RunLogCommand New InResults InResults.length
    { bResult := true, OutHistory := OutHistory, Shell := Shell }

/-- The parameter list of the `history` command in `RunGetHistory`. -/
def RunGetHistory.Parameters : List FString :=
  ["--format=\"\x7b1\x7d;\x7b6\x7d\"".toList]

/-- The function `RunGetHistory`. `RunCommand` is the function of that name, as a
function of the shell state: it returns its result, the result lines, the
error lines and the new shell state. -/
def RunGetHistory {σ : Type} (bPlatformWindows : Bool)
    (RunCommand : σ → FString → List FString → List FString →
      Bool × List FString × List FString × σ)
    (RunLogCommand : σ → FString → FPlasticSourceControlRevision →
      Bool × FPlasticSourceControlRevision × σ)
    (New : FPlasticSourceControlRevision) (Shell : σ) (InFile : FString)
    (OutHistory : List FPlasticSourceControlRevision) :
    List FString × FHistoryLoop σ :=
  let Run := RunCommand Shell "history".toList RunGetHistory.Parameters [InFile]
  if Run.1 then
    (Run.2.2.1, ParseHistoryResults bPlatformWindows RunLogCommand New Run.2.2.2 Run.2.1 OutHistory)
  else
    (Run.2.2.1, { bResult := false, OutHistory := OutHistory, Shell := Run.2.2.2 })

/-! ## Workspace root -/

/-- The function `FString::Left(Count)` : the first `Count` characters. -/
def Left (Str : FString) (Count : Nat) : FString :=
  Str.take Count

/-- The function `FString::FindLastChar(InChar, Index)` as a descending scan from
index `i - 1` : the index of the last occurrence of the character, if any. -/
def FindLastChar.scan (Str : FString) (InChar : Char) : Nat → Option Nat
  | 0 => none
  | i + 1 => if Str.get? i = some InChar then some i else FindLastChar.scan Str InChar i

/-- The function `FString::FindLastChar(InChar, Index)`. -/
def FindLastChar (Str : FString) (InChar : Char) : Option Nat :=
  FindLastChar.scan Str InChar Str.length

/-- The operator `FString::operator/` for a non-empty right side: the two texts
with a `/` between them, which is left out when the left side is empty or
ends with `/` or `\`, or the right side starts with `/`. -/
def PathAppend (Lhs Rhs : FString) : FString :=
  match Lhs.getLast?, Rhs.head? with
  | some Last, some First =>
    if Last ≠ '/' ∧ Last ≠ '\\' ∧ First ≠ '/' then Lhs ++ '/' :: Rhs else Lhs ++ Rhs
  | _, _ => Lhs ++ Rhs

/-- The lambda `TrimTrailing` of `FindRootDirectory` : the text without its trailing
characters equal to `Char` (the loop chops one character while the last one
is `Char`). -/
def TrimTrailing (Str : FString) (Char : Char) : FString :=
  (Str.reverse.dropWhile (fun c => c == Char)).reverse

/-- The name of the marker subdirectory. -/
def PlasticSubdirectory : FString :=
  ".plastic".toList

/-- The variables of the loop of `FindRootDirectory`, with the list `Examined` of
the directories tested so far, in the order they were tested. -/
structure FRootSearch where
  bFound : Bool
  OutWorkspaceRoot : FString
  Examined : List FString
  deriving DecidableEq, Repr

/-- The loop `while (!bFound && !OutWorkspaceRoot.IsEmpty())` of `FindRootDirectory`,
entered with `bFound` false, for at most `Fuel` iterations; `none` when they
do not suffice. `DirectoryExists` is the state of the file system. -/
def FindRootDirectory.loop (DirectoryExists : FString → Bool) :
    Nat → FString → List FString → Option FRootSearch
  | 0, _, _ => none
  | Fuel + 1, OutWorkspaceRoot, Examined =>
    if OutWorkspaceRoot.isEmpty then
      some { bFound := false, OutWorkspaceRoot := OutWorkspaceRoot, Examined := Examined }
    else
      let PathToPlasticSubdirectory := PathAppend OutWorkspaceRoot PlasticSubdirectory
      if DirectoryExists PathToPlasticSubdirectory then
        some { bFound := true, OutWorkspaceRoot := OutWorkspaceRoot
               Examined := Examined ++ [OutWorkspaceRoot] }
      else
        match FindLastChar OutWorkspaceRoot '/' with
        | some LastSlashIndex =>
          FindRootDirectory.loop DirectoryExists Fuel (Left OutWorkspaceRoot LastSlashIndex)
            (Examined ++ [OutWorkspaceRoot])
        | none =>
          FindRootDirectory.loop DirectoryExists Fuel [] (Examined ++ [OutWorkspaceRoot])

/-- The function `FindRootDirectory` : the trailing `\` then the trailing `/` are
trimmed, the loop runs (one iteration more than the length of the trimmed
path is allowed), and the input path is returned when nothing is found. -/
def FindRootDirectory (DirectoryExists : FString → Bool) (InPath : FString) :
    Option FRootSearch :=
  let OutWorkspaceRoot := TrimTrailing (TrimTrailing InPath '\\') '/'
  match FindRootDirectory.loop DirectoryExists (OutWorkspaceRoot.length + 1)
      OutWorkspaceRoot [] with
  | some Search =>
    if !Search.bFound then some { Search with OutWorkspaceRoot := InPath } else some Search
  | none => none

/-! ## Redundant errors -/

/-- The function `FCString::Stristr(Str, Find)` : the offset of the first occurrence
of `Find` in `Str`, the case of the ASCII letters ignored. The engine looks for
the upper-cased first character of `Find` among the characters of `Str`, so an
empty `Find` is never found. -/
def Stristr (Str Find : FString) : Option Nat :=
  if Find.isEmpty then none else Strstr (Find.map Char.toUpper) (Str.map Char.toUpper)

/-- The enumeration `ESearchCase::Type` of the engine. -/
inductive ESearchCase where
  | CaseSensitive
  | IgnoreCase
  deriving DecidableEq, Repr

/-- The enumeration `ESearchDir::Type` of the engine. -/
inductive ESearchDir where
  | FromStart
  | FromEnd
  deriving DecidableEq, Repr

/-- The function `FString::Find(SubStr, SearchCase, SearchDir)` with no start
position. From the start it is `Stristr` or `Strstr` ; from the end, ignoring
case, both texts are upper-cased first. -/
def Find (Str SubStr : FString) (SearchCase : ESearchCase) (SearchDir : ESearchDir) :
    Option Nat :=
  match SearchDir, SearchCase with
  | ESearchDir.FromStart, ESearchCase.IgnoreCase => Stristr Str SubStr
  | ESearchDir.FromStart, ESearchCase.CaseSensitive => Strstr SubStr Str
  | ESearchDir.FromEnd, ESearchCase.IgnoreCase =>
    FindFromEnd (Str.map Char.toUpper) (SubStr.map Char.toUpper)
  | ESearchDir.FromEnd, ESearchCase.CaseSensitive => FindFromEnd Str SubStr

/-- The function `FString::Contains(SubStr, SearchCase, SearchDir)` :
`Find(SubStr, SearchCase, SearchDir) != INDEX_NONE`. The engine declares the
defaults `SearchCase = ESearchCase::IgnoreCase` and
`SearchDir = ESearchDir::FromStart`. -/
def Contains (Str SubStr : FString) (SearchCase : ESearchCase) (SearchDir : ESearchDir) :
    Bool :=
  (Find Str SubStr SearchCase SearchDir).isSome

/-- Modelled from the spec: the members of `FPlasticSourceControlCommand` (declared in
`PlasticSourceControlCommand.h`) that `RemoveRedundantErrors` reads or writes. -/
structure FPlasticSourceControlCommand where
  bCommandSuccessful : Bool
  ErrorMessages : List FString
  InfoMessages : List FString
  deriving DecidableEq, Repr

/-- The call operator of the helper `FRemoveRedundantErrors` : `String.Contains(Filter)`,
with the default arguments of `Contains`. -/
def FRemoveRedundantErrors (Filter : FString) (String : FString) : Bool :=
  if Contains String Filter ESearchCase.IgnoreCase ESearchDir.FromStart then true else false

/-- The body of the loop of `RemoveRedundantErrors` over the error messages, on
the pair of `InCommand.InfoMessages` and `bFoundRedundantError`. -/
def RemoveRedundantErrors.body (InFilter : FString) (Acc : List FString × Bool)
    (ErrorMessage : FString) : List FString × Bool :=
  if Contains ErrorMessage InFilter ESearchCase.CaseSensitive ESearchDir.FromEnd then
    (Acc.1 ++ [ErrorMessage], true)
  else Acc

/-- The function `RemoveRedundantErrors`. `RemoveAll` keeps, in order, the messages
for which the predicate is false. -/
def RemoveRedundantErrors (InCommand : FPlasticSourceControlCommand) (InFilter : FString) :
    FPlasticSourceControlCommand :=
  let Loop := InCommand.ErrorMessages.foldl (RemoveRedundantErrors.body InFilter)
    (InCommand.InfoMessages, false)
  let bFoundRedundantError := Loop.2
  let ErrorMessages := InCommand.ErrorMessages.filter
    (fun String => !(FRemoveRedundantErrors InFilter String))
  if bFoundRedundantError && ErrorMessages.length == 0 && !InCommand.bCommandSuccessful then
    { bCommandSuccessful := true, ErrorMessages := ErrorMessages, InfoMessages := Loop.1 }
  else
    { bCommandSuccessful := InCommand.bCommandSuccessful, ErrorMessages := ErrorMessages
      InfoMessages := Loop.1 }

/-! ## State cache -/

/-- Modelled from the spec: the state cache of the provider, a
`TMap<FString, TSharedRef<FPlasticSourceControlState>>`, as the state held under
each key. The map compares its keys with `FString::operator==`, which ignores
case, so a key is given in lower case (see `CacheKey`). -/
abbrev FStateCache := FString → Option FPlasticSourceControlState

/-- The key under which the cache of states holds the state of `Filename`. -/
def CacheKey (Filename : FString) : FString :=
  Filename.map Char.toLower

/-- Modelled from the spec: `FPlasticSourceControlProvider::GetStateInternal(Filename)`
(defined in `PlasticSourceControlProvider.cpp`) returns the cached state of the
file, or else creates a state for the file, adds it to the cache and returns
it. `NewState` is the constructor `FPlasticSourceControlState(Filename)`. The
state returned is shared with the cache: a write to it is a write to the
cache entry. -/
def GetStateInternal (NewState : FString → FPlasticSourceControlState)
    (StateCache : FStateCache) (Filename : FString) :
    FPlasticSourceControlState × FStateCache :=
  match StateCache (CacheKey Filename) with
  | some State => (State, StateCache)
  | none =>
    (NewState Filename, Function.update StateCache (CacheKey Filename) (some (NewState Filename)))

/-- The variables of the loop of `UpdateCachedStates` : the counter and the cache.
The counter is an `int` that counts elements of one array, so it stays below
`2 ^ 31`. -/
structure FCacheUpdate where
  NbStatesUpdated : Nat
  StateCache : FStateCache

/-- The body of the loop of `UpdateCachedStates` for the new state `InState`. -/
def UpdateCachedStates.body (NewState : FString → FPlasticSourceControlState)
    (U : FCacheUpdate) (InState : FPlasticSourceControlState) : FCacheUpdate :=
  let Got := GetStateInternal NewState U.StateCache InState.LocalFilename
  let State := Got.1
  if State.WorkspaceState ≠ InState.WorkspaceState then
    { NbStatesUpdated := U.NbStatesUpdated + 1
      StateCache := Function.update Got.2 (CacheKey InState.LocalFilename)
        (some { State with
          WorkspaceState := InState.WorkspaceState
          PendingMergeBaseFileHash := InState.PendingMergeBaseFileHash
          TimeStamp := InState.TimeStamp }) }
  else { U with StateCache := Got.2 }

/-- The function `UpdateCachedStates` : its result, and the cache it leaves. -/
def UpdateCachedStates (NewState : FString → FPlasticSourceControlState)
    (StateCache : FStateCache) (InStates : List FPlasticSourceControlState) :
    Bool × FStateCache :=
  let U := InStates.foldl (UpdateCachedStates.body NewState)
    { NbStatesUpdated := 0, StateCache := StateCache }
  (decide (U.NbStatesUpdated > 0), U.StateCache)

/-! ## The background shell -/

/-- What the platform answers: whether the `k`-th call of `CreatePipe` (counted
from 0, `CreatePipeWrite` included) succeeds, and whether the `k`-th call of
`CreateProc` launches the process. -/
structure FPlatformProcess where
  bCreatePipe : Nat → Bool
  bCreateProc : Nat → Bool

/-- The static variables of the background shell (a null pipe or an invalid
process handle is `none`, a handle is the number of the call that made it),
with the counts of what was asked of the platform so far. -/
structure FBackgroundShell where
  ShellOutputPipeRead : Option Nat
  ShellOutputPipeWrite : Option Nat
  ShellInputPipeRead : Option Nat
  ShellInputPipeWrite : Option Nat
  ShellProcessHandle : Option Nat
  NbCreatePipe : Nat
  NbClosePipe : Nat
  NbCreateProc : Nat
  NbProcesses : Nat
  deriving DecidableEq, Repr

/-- The function `CleanupBackgroundCommandLineShell` : both pipes are closed and
the four pipe variables are reset. -/
def CleanupBackgroundCommandLineShell (S : FBackgroundShell) : FBackgroundShell :=
  { S with
    NbClosePipe := S.NbClosePipe + 2
    ShellOutputPipeRead := none
    ShellOutputPipeWrite := none
    ShellInputPipeRead := none
    ShellInputPipeWrite := none }

/-- The function `LaunchBackgroundPlasticShell` : its result and the variables
afterwards; `none` when a `verify` of a pipe creation fails, which stops the
program. -/
def LaunchBackgroundPlasticShell (Platform : FPlatformProcess) (S : FBackgroundShell) :
    Option (Bool × FBackgroundShell) :=
  if !S.ShellProcessHandle.isSome then
    if !Platform.bCreatePipe S.NbCreatePipe then none
    else
      let S1 : FBackgroundShell :=
        { S with
          ShellOutputPipeRead := some S.NbCreatePipe
          ShellOutputPipeWrite := some S.NbCreatePipe
          NbCreatePipe := S.NbCreatePipe + 1 }
      if !Platform.bCreatePipe S1.NbCreatePipe then none
      else
        let S2 : FBackgroundShell :=
          { S1 with
            ShellInputPipeRead := some S1.NbCreatePipe
            ShellInputPipeWrite := some S1.NbCreatePipe
            NbCreatePipe := S1.NbCreatePipe + 1 }
        let S3 : FBackgroundShell :=
          if Platform.bCreateProc S2.NbCreateProc then
            { S2 with
              ShellProcessHandle := some S2.NbCreateProc
              NbCreateProc := S2.NbCreateProc + 1
              NbProcesses := S2.NbProcesses + 1 }
          else { S2 with ShellProcessHandle := none, NbCreateProc := S2.NbCreateProc + 1 }
        let S4 := if !S3.ShellProcessHandle.isSome then CleanupBackgroundCommandLineShell S3
          else S3
        some (S4.ShellProcessHandle.isSome, S4)
  else some (S.ShellProcessHandle.isSome, S)

/-! ## Status of files -/

/-- The predicate `UE4Paths_Private::IsSlashOrBackslash` of the engine. -/
def IsSlashOrBackslash (C : Char) : Bool :=
  C = '/' || C = '\\'

/-- The descending scan of `FString::FindLastCharByPredicate` : the greatest index
below the bound whose character satisfies the predicate. -/
def FindLastCharByPredicate.scan (Pred : Char → Bool) (Str : FString) : Nat → Option Nat
  | 0 => none
  | i + 1 =>
    match Str.get? i with
    | some C => if Pred C then some i else FindLastCharByPredicate.scan Pred Str i
    | none => FindLastCharByPredicate.scan Pred Str i

/-- The function `FString::FindLastCharByPredicate(Pred)`. -/
def FindLastCharByPredicate (Str : FString) (Pred : Char → Bool) : Option Nat :=
  FindLastCharByPredicate.scan Pred Str Str.length

/-- The function `FPaths::GetPath(InPath)` : the text before the last slash or
backslash, empty when there is none. -/
def GetPath (InPath : FString) : FString :=
  match FindLastCharByPredicate InPath IsSlashOrBackslash with
  | some Pos => Left InPath Pos
  | none => []

/-- The `Find` then `Add` made by `RunUpdateStatus` on the map `GroupOfFiles`
for one file: the file joins the group whose key equals `Path` (the map
compares keys with `FString::operator==`), or a new group is added after the
others. The map is the list of its pairs in the order they were added, which
is the order in which the engine iterates a map nothing was removed from. -/
def GroupOfFiles.Add (Path File : FString) :
    List (FString × List FString) → List (FString × List FString)
  | [] => [(Path, [File])]
  | Group :: Rest =>
    if FStringEq Group.1 Path then (Group.1, Group.2 ++ [File]) :: Rest
    else Group :: GroupOfFiles.Add Path File Rest

/-- The first loop of `RunUpdateStatus` : the files grouped by `FPaths::GetPath`. -/
def RunUpdateStatus.GroupOfFiles (InFiles : List FString) : List (FString × List FString) :=
  InFiles.foldl (fun Groups File => GroupOfFiles.Add (GetPath File) File Groups) []

/-- The function `RunCommand` as a function of the state `σ` of the command shell:
from the state, the command, the parameters and the files it gives its result,
the result lines, the error lines and the new state. -/
abbrev FRunCommand (σ : Type) :=
  σ → FString → List FString → List FString → Bool × List FString × List FString × σ

/-- The result and the two out parameters of `RunStatus`, `RunFileinfo` and
`RunUpdateStatus`, with the state of the command shell. -/
structure FStatusRun (σ : Type) where
  bResult : Bool
  OutErrorMessages : List FString
  OutStates : List FPlasticSourceControlState
  Shell : σ

/-- The parameter list `Status` of `RunStatus`. -/
def RunStatus.Status : List FString :=
  ["--nostatus".toList, "--noheaders".toList, "--all".toList, "--ignored".toList]

/-- The body of the loop of `RunStatus` for one file. `NewState` is the
constructor `FPlasticSourceControlState(File)`. -/
def RunStatus.body {σ : Type} (RunCommand : FRunCommand σ)
    (NewState : FString → FPlasticSourceControlState)
    (R : FStatusRun σ) (File : FString) : FStatusRun σ :=
  let FileState := NewState File
  if R.bResult then
    let Run := RunCommand R.Shell "status".toList RunStatus.Status [File]
    { bResult := Run.1
      OutErrorMessages := R.OutErrorMessages ++ Run.2.2.1
      OutStates := R.OutStates ++
        [if Run.1 then ParseStatusResult File Run.2.1 FileState else FileState]
      Shell := Run.2.2.2 }
  else { R with OutStates := R.OutStates ++ [FileState] }

/-- The function `RunStatus`. `FileExists` is `FPaths::FileExists`. -/
def RunStatus {σ : Type} (FileExists : FString → Bool) (RunCommand : FRunCommand σ)
    (NewState : FString → FPlasticSourceControlState) (Shell : σ) (InFiles : List FString)
    (OutErrorMessages : List FString) (OutStates : List FPlasticSourceControlState) :
    FStatusRun σ :=
  if 1 == InFiles.length && !(FileExists (InFiles.headD [])) then
    { bResult := false
      OutErrorMessages := OutErrorMessages
      OutStates := OutStates ++
        [{ NewState (InFiles.headD []) with WorkspaceState := EWorkspaceState.Private }]
      Shell := Shell }
  else
    InFiles.foldl (RunStatus.body RunCommand NewState)
      { bResult := true, OutErrorMessages := OutErrorMessages, OutStates := OutStates
        Shell := Shell }

/-- The parameter list of the `fileinfo` command in `RunFileinfo`. -/
def RunFileinfo.Parameters : List FString :=
  [("--format=\"\x7bRevisionChangeset\x7d;\x7bRevisionHeadChangeset\x7d;" ++
    "\x7bLockedBy\x7d;\x7bLockedWhere\x7d\"").toList]

/-- The function `RunFileinfo` ; `none` when `ParseFileinfoResults` reads past the
end of an array. -/
def RunFileinfo {σ : Type} (bPlatformWindows : Bool) (GetUserName GetWorkspaceName : FString)
    (Indeterminate : Nat → Int × Int) (RunCommand : FRunCommand σ) (Shell : σ)
    (InFiles : List FString) (OutErrorMessages : List FString)
    (OutStates : List FPlasticSourceControlState) : Option (FStatusRun σ) :=
  let Run := RunCommand Shell "fileinfo".toList RunFileinfo.Parameters InFiles
  if Run.1 then
    match ParseFileinfoResults bPlatformWindows GetUserName GetWorkspaceName Indeterminate
        InFiles Run.2.1 OutStates with
    | some States =>
      some { bResult := true, OutErrorMessages := OutErrorMessages ++ Run.2.2.1
             OutStates := States, Shell := Run.2.2.2 }
    | none => none
  else
    some { bResult := false, OutErrorMessages := OutErrorMessages ++ Run.2.2.1
           OutStates := OutStates, Shell := Run.2.2.2 }

/-- The second loop of `RunUpdateStatus`, over the groups still to be visited.
`IdxGroup` counts the groups visited; `Indeterminate IdxGroup` stands for the
unassigned values of the file-info parsers of that group. -/
def RunUpdateStatus.loop {σ : Type} (bPlatformWindows : Bool) (FileExists : FString → Bool)
    (RunCommand : FRunCommand σ) (NewState : FString → FPlasticSourceControlState)
    (GetUserName GetWorkspaceName : FString) (Indeterminate : Nat → Nat → Int × Int) :
    List (FString × List FString) → Nat → FStatusRun σ → Option (FStatusRun σ)
  | [], _, U => some U
  | Files :: Rest, IdxGroup, U =>
    let Status := RunStatus FileExists RunCommand NewState U.Shell Files.2
      U.OutErrorMessages U.OutStates
    let bGroupOk := Status.bResult
    if bGroupOk then
      match RunFileinfo bPlatformWindows GetUserName GetWorkspaceName
          (Indeterminate IdxGroup) RunCommand Status.Shell Files.2 Status.OutErrorMessages
          Status.OutStates with
      | some Fileinfo =>
        RunUpdateStatus.loop bPlatformWindows FileExists RunCommand NewState GetUserName
          GetWorkspaceName Indeterminate Rest (IdxGroup + 1)
          { Fileinfo with bResult := U.bResult && Fileinfo.bResult }
      | none => none
    else
      RunUpdateStatus.loop bPlatformWindows FileExists RunCommand NewState GetUserName
        GetWorkspaceName Indeterminate Rest (IdxGroup + 1) { Status with bResult := U.bResult }

/-- The function `RunUpdateStatus` : its result, the error messages and the states
it leaves, and the state of the command shell; `none` when an array is read
past its end. -/
def RunUpdateStatus {σ : Type} (bPlatformWindows : Bool) (FileExists : FString → Bool)
    (RunCommand : FRunCommand σ) (NewState : FString → FPlasticSourceControlState)
    (GetUserName GetWorkspaceName : FString) (Indeterminate : Nat → Nat → Int × Int)
    (Shell : σ) (InFiles : List FString) (OutErrorMessages : List FString)
    (OutStates : List FPlasticSourceControlState) : Option (FStatusRun σ) :=
  RunUpdateStatus.loop bPlatformWindows FileExists RunCommand NewState GetUserName GetWorkspaceName
    Indeterminate (RunUpdateStatus.GroupOfFiles InFiles) 0
    { bResult := true, OutErrorMessages := OutErrorMessages, OutStates := OutStates
      Shell := Shell }

/-- One call of `RunCommand` : the command, its parameters, its files, and the
result it returned. -/
structure FCommandCall where
  InCommand : FString
  InParameters : List FString
  InFiles : List FString
  bResult : Bool
  deriving DecidableEq, Repr

/-- The command runner `RunCommand` with a record kept of the calls made: the
state of the shell is paired with the list of the calls so far, each call is
passed on unchanged and added to the list. -/
def Recorded {σ : Type} (RunCommand : FRunCommand σ) : FRunCommand (σ × List FCommandCall) :=
  fun S InCommand InParameters InFiles =>
    let Run := RunCommand S.1 InCommand InParameters InFiles
    (Run.1, Run.2.1, Run.2.2.1,
      (Run.2.2.2, S.2 ++ [{ InCommand := InCommand, InParameters := InParameters
                            InFiles := InFiles, bResult := Run.1 }]))

/-! ## Changeset log -/

/-- The function `FString::Equals(Other)` : the engine declares the default
`SearchCase = ESearchCase::CaseSensitive`, so the two texts are compared
character by character. -/
def Equals (Str Other : FString) : Bool :=
  decide (Str = Other)

/-- The function `FString::LeftChop(Count)` : the text without its last `Count`
characters. -/
def LeftChop (Str : FString) (Count : Nat) : FString :=
  Left Str (Str.length - Count)

/-- The function `FString::RightChop(Count)` : the text without its first `Count`
characters. -/
def RightChop (Str : FString) (Count : Nat) : FString :=
  Str.drop Count

/-- The function `TranslateAction`. -/
def TranslateAction (InAction : FString) : FString :=
  if Equals InAction "Added".toList then "add".toList
  else if Equals InAction "Moved".toList then "branch".toList
  else if Equals InAction "Deleted".toList then "delete".toList
  else "edit".toList

/-- The class `FXmlNode` of the engine: a tag, a content and the child nodes in
document order. -/
inductive FXmlNode where
  | mk (Tag Content : FString) (Children : List FXmlNode)

/-- The function `FXmlNode::GetTag()`. -/
def FXmlNode.GetTag : FXmlNode → FString
  | FXmlNode.mk Tag _ _ => Tag

/-- The function `FXmlNode::GetContent()`. -/
def FXmlNode.GetContent : FXmlNode → FString
  | FXmlNode.mk _ Content _ => Content

/-- The function `FXmlNode::GetChildrenNodes()`. -/
def FXmlNode.GetChildrenNodes : FXmlNode → List FXmlNode
  | FXmlNode.mk _ _ Children => Children

/-- The function `FXmlNode::FindChildNode(InTag)` : the first child whose tag equals
`InTag` under `FString::operator==`, or the null pointer (`none`). -/
def FXmlNode.FindChildNode (Node : FXmlNode) (InTag : FString) : Option FXmlNode :=
  Node.GetChildrenNodes.find? (fun Child => FStringEq Child.GetTag InTag)

/-- The text `DateIso` that `ParseLogResults` builds from the content of the `Date`
node and hands to `FDateTime::ParseIso8601`. -/
def ParseLogResults.DateIso (Content : FString) : FString :=
  LeftChop Content 10 ++ RightChop Content 27

/-- The body of the loop of `ParseLogResults` over the children of the `Changes`
node, for the child `ItemNode`. The local `RevisionNumber` starts at -1 and
is read from the `RevId` child when there is one. -/
def ParseLogResults.item (bPlatformWindows : Bool) (ItemNode : FXmlNode)
    (OutSourceControlRevision : FPlasticSourceControlRevision) :
    FPlasticSourceControlRevision :=
  let RevisionNumber : Int :=
    match ItemNode.FindChildNode "RevId".toList with
    | some RevIdNode => Atoi bPlatformWindows RevIdNode.GetContent
    | none => -1
  if RevisionNumber = OutSourceControlRevision.RevisionNumber then
    let Revision1 : FPlasticSourceControlRevision :=
      match ItemNode.FindChildNode "DstCmPath".toList with
      | some DstCmPathNode =>
        let Revision0 : FPlasticSourceControlRevision :=
          { OutSourceControlRevision with Filename := DstCmPathNode.GetContent }
        match ItemNode.FindChildNode "ParentRevId".toList,
            ItemNode.FindChildNode "SrcCmPath".toList with
        | some ParentRevIdNode, some SrcCmPathNode =>
          if !(Equals SrcCmPathNode.GetContent DstCmPathNode.GetContent) then
            { Revision0 with
              BranchSource := some (SrcCmPathNode.GetContent,
                Atoi bPlatformWindows ParentRevIdNode.GetContent) }
          else Revision0
        | _, _ => Revision0
      | none => OutSourceControlRevision
    match ItemNode.FindChildNode "Type".toList with
    | some TypeNode => { Revision1 with Action := TranslateAction TypeNode.GetContent }
    | none => Revision1
  else OutSourceControlRevision

/-- The function `ParseLogResults`. `InXmlResult` is the root node of the document
(`none` for a null pointer); `ParseIso8601` is `FDateTime::ParseIso8601`, which
gives the date when the text can be read (dates are kept as the revision
keeps them in this model, as a text) and leaves the date alone otherwise.
The result is `none` when the content of a null node is read. -/
def ParseLogResults (bPlatformWindows : Bool) (ParseIso8601 : FString → Option FString)
    (InXmlResult : Option FXmlNode)
    (OutSourceControlRevision : FPlasticSourceControlRevision) :
    Option FPlasticSourceControlRevision :=
  match InXmlResult with
  | none => some OutSourceControlRevision
  | some LogListNode =>
    if FStringNe LogListNode.GetTag "LogList".toList then some OutSourceControlRevision
    else
      match LogListNode.FindChildNode "Changeset".toList with
      | none => some OutSourceControlRevision
      | some ChangesetNode =>
        let CommentNode := ChangesetNode.FindChildNode "Comment".toList
        let Revision1 : FPlasticSourceControlRevision :=
          match CommentNode with
          | some Node => { OutSourceControlRevision with Description := Node.GetContent }
          | none => OutSourceControlRevision
        let OwnerNode := ChangesetNode.FindChildNode "Owner".toList
        let Revision2 : Option FPlasticSourceControlRevision :=
          if CommentNode.isSome then
            match OwnerNode with
            | some Node => some { Revision1 with UserName := Node.GetContent }
            | none => none
          else some Revision1
        match Revision2 with
        | none => none
        | some Revision2 =>
          let Revision3 : FPlasticSourceControlRevision :=
            match ChangesetNode.FindChildNode "Date".toList with
            | some DateNode =>
              match ParseIso8601 (ParseLogResults.DateIso DateNode.GetContent) with
              | some Date => { Revision2 with Date := Date }
              | none => Revision2
            | none => Revision2
          match ChangesetNode.FindChildNode "Changes".toList with
          | none => some Revision3
          | some ChangesNode =>
            some (ChangesNode.GetChildrenNodes.foldl
              (fun Revision ItemNode =>
                ParseLogResults.item bPlatformWindows ItemNode Revision) Revision3)

/-- The function `RunLogCommand`. `RunCommandInternal` is the function of that name
as a function of the state `σ` of the command shell (it gives its result, the
results text, the errors text and the new state); `LoadFile` is
`FXmlFile::LoadFile` from a buffer, with its result and the root node;
`GetRepositoryName` and `GetServerUrl` are the values held by the provider. -/
def RunLogCommand {σ : Type} (bPlatformWindows : Bool)
    (RunCommandInternal : σ → FString → List FString → List FString →
      Bool × FString × FString × σ)
    (LoadFile : FString → Bool × Option FXmlNode)
    (ParseIso8601 : FString → Option FString)
    (GetRepositoryName GetServerUrl : FString) (Shell : σ) (InChangeset : FString)
    (OutSourceControlRevision : FPlasticSourceControlRevision) :
    Option (Bool × FPlasticSourceControlRevision × σ) :=
  let RepositorySpecification := "cs:".toList ++ InChangeset ++ "@rep:".toList ++
    GetRepositoryName ++ "@repserver:".toList ++ GetServerUrl
  let Run := RunCommandInternal Shell "log".toList
    [RepositorySpecification, "--xml".toList, "--encoding=\"utf-8\"".toList] []
  if Run.1 then
    let XmlFile := LoadFile Run.2.1
    if XmlFile.1 then
      match ParseLogResults bPlatformWindows ParseIso8601 XmlFile.2 OutSourceControlRevision with
      | some Revision => some (true, Revision, Run.2.2.2)
      | none => none
    else some (false, OutSourceControlRevision, Run.2.2.2)
  else some (false, OutSourceControlRevision, Run.2.2.2)

/-! ## Repository specification -/

/-- The function `GetRepositorySpecification` : its result, the two out parameters
and the state of the command shell; `none` when the list of fields is read
past its end. -/
def GetRepositorySpecification {σ : Type} (RunCommand : FRunCommand σ) (Shell : σ)
    (InWorkspaceRoot OutRepositoryName OutServerUrl : FString) :
    Option (Bool × FString × FString × σ) :=
  let Run := RunCommand Shell "status".toList ["--nochanges".toList] [InWorkspaceRoot]
  let bResult := Run.1
  let InfoMessages := Run.2.1
  if bResult && decide (InfoMessages.length > 0) then
    let WorkspaceStatus := InfoMessages.headD []
    let RepositorySpecification := ParseIntoArray WorkspaceStatus ['@'] true
    if 3 ≥ RepositorySpecification.length then
      match RepositorySpecification.get? 1, RepositorySpecification.get? 2 with
      | some Field1, some Field2 =>
        some (bResult, RightChop Field1 "rep:".toList.length,
          RightChop Field2 "repserver:".toList.length, Run.2.2.2)
      | _, _ => none
    else some (false, OutRepositoryName, OutServerUrl, Run.2.2.2)
  else some (bResult, OutRepositoryName, OutServerUrl, Run.2.2.2)

/-! ## Change entries, in the words of the specification -/

/-- The words of the specification, `semicolon-delimited fields` : the texts
between the semicolons of a line, the empty ones included. A line with `k`
semicolons has `k + 1` fields; `16;16;;` has four, the last two empty. -/
def semicolonFields : FString → List FString
  | [] => [[]]
  | c :: Rest =>
    if c = ';' then [] :: semicolonFields Rest
    else
      match semicolonFields Rest with
      | [] => [[c]]
      | Field :: Fields => (c :: Field) :: Fields

/-- The semicolon-delimited fields of a line that are not empty, in order. -/
def nonEmptyFields (Line : FString) : List FString :=
  (semicolonFields Line).filter (fun Field => !Field.isEmpty)

/-! ## Theorems -/

/-! ### Status lines -/

theorem Mid_length_le (Str : FString) (Start Count : Nat) :
    (Mid Str Start Count).length ≤ Count := by
  unfold Mid
  exact List.length_take_le _ _

theorem FStringEq_length {a b : FString} (h : FStringEq a b = true) :
    a.length = b.length := by
  unfold FStringEq at h
  have h2 : a.map Char.toLower = b.map Char.toLower := by simpa using h
  have h3 := congrArg List.length h2
  simpa using h3

/-- C1 (as stated, refuted): the line `CH Content/A.uasset`, made of the code
`CH`, one space and a path, is parsed to `Unknown`, not to `Changed`: the parser
reads the code at offsets 1 and 2, where this line has `H` and a space. -/
theorem C1_counterexample :
    FPlasticStatusParser "CH Content/A.uasset".toList = EWorkspaceState.Unknown ∧
    FPlasticStatusParser "CH Content/A.uasset".toList ≠ EWorkspaceState.Changed := by
  decide

/-- C1 (amended): for every leading character `x`, every path `p` and every
entry `(c, st)` of the status table, the line `x c p` (one character, the code,
one space, the path) is parsed to `st`; and every line whose two characters at
offsets 1 and 2 match no code of the table (compared as the engine compares,
ignoring letter case) is parsed to `Unknown`. -/
theorem C1_status_code_at_offset_one (x : Char) (p : FString) (c : FString)
    (st : EWorkspaceState) (line : FString) (hc : (c, st) ∈ statusTable)
    (hline : ∀ e ∈ statusTable, FStringEq (Mid line 1 2) e.1 = false) :
    FPlasticStatusParser (x :: (c ++ ' ' :: p)) = st ∧
    FPlasticStatusParser line = EWorkspaceState.Unknown := by
  constructor
  · simp only [statusTable, List.mem_cons, Prod.mk.injEq, List.mem_singleton,
      List.not_mem_nil, or_false] at hc
    rcases hc with h | h | h | h | h | h | h | h | h | h | h <;>
      (obtain ⟨rfl, rfl⟩ := h; rfl)
  · have hlen : FStringEq (Mid line 1 2) "conflited".toList = false := by
      cases hq : FStringEq (Mid line 1 2) "conflited".toList with
      | false => rfl
      | true =>
        have h1 := FStringEq_length hq
        have h2 := Mid_length_le line 1 2
        rw [h1] at h2
        exact absurd h2 (by decide)
    have h := fun c st (hm : (c, st) ∈ statusTable) => hline (c, st) hm
    simp only [FPlasticStatusParser, FPlasticStatusParser.ofFileStatus, hlen,
      h _ _ (by simp [statusTable] : ((['C', 'H'] : FString), EWorkspaceState.Changed) ∈ statusTable),
      h _ _ (by simp [statusTable] : ((['C', 'O'] : FString), EWorkspaceState.CheckedOut) ∈ statusTable),
      h _ _ (by simp [statusTable] : ((['C', 'P'] : FString), EWorkspaceState.Copied) ∈ statusTable),
      h _ _ (by simp [statusTable] : ((['R', 'P'] : FString), EWorkspaceState.Replaced) ∈ statusTable),
      h _ _ (by simp [statusTable] : ((['A', 'D'] : FString), EWorkspaceState.Added) ∈ statusTable),
      h _ _ (by simp [statusTable] : ((['P', 'R'] : FString), EWorkspaceState.Private) ∈ statusTable),
      h _ _ (by simp [statusTable] : ((['I', 'G'] : FString), EWorkspaceState.Ignored) ∈ statusTable),
      h _ _ (by simp [statusTable] : ((['D', 'E'] : FString), EWorkspaceState.Deleted) ∈ statusTable),
      h _ _ (by simp [statusTable] : ((['L', 'D'] : FString), EWorkspaceState.Deleted) ∈ statusTable),
      h _ _ (by simp [statusTable] : ((['M', 'V'] : FString), EWorkspaceState.Moved) ∈ statusTable),
      h _ _ (by simp [statusTable] : ((['L', 'M'] : FString), EWorkspaceState.Moved) ∈ statusTable)]
    simp

/-- Witness of C1 (amended): the line ` CH Content/A.uasset` is parsed to
`Changed`, the line ` ?? x` to `Unknown`. -/
theorem C1_status_code_at_offset_one_witness :
    FPlasticStatusParser (' ' :: (['C', 'H'] ++ ' ' :: "Content/A.uasset".toList))
        = EWorkspaceState.Changed ∧
    FPlasticStatusParser " ?? x".toList = EWorkspaceState.Unknown :=
  C1_status_code_at_offset_one ' ' "Content/A.uasset".toList ['C', 'H']
    EWorkspaceState.Changed " ?? x".toList (by decide) (by decide)

/-- C2: for a non-empty list of status lines, whatever the earlier lines are,
`ParseStatusResult` sets the workspace state to the status parser's result on
the last line alone; for the empty list it sets it to `Controlled`. -/
theorem C2_last_status_line_wins (InFile : FString) (earlier : List FString)
    (last : FString) (OutFileState : FPlasticSourceControlState) :
    (ParseStatusResult InFile (earlier ++ [last]) OutFileState).WorkspaceState
        = FPlasticStatusParser last ∧
    (ParseStatusResult InFile [] OutFileState).WorkspaceState
        = EWorkspaceState.Controlled := by
  constructor
  · unfold ParseStatusResult
    have h1 : 0 < (earlier ++ [last]).length := by simp
    have h2 : (earlier ++ [last]).get? ((earlier ++ [last]).length - 1) = some last := by
      simp
    rw [if_pos h1, h2]
  · simp [ParseStatusResult]

/-! ### Searching the accumulated output -/

theorem FindFromEnd.scan_eq_none (Str SubStr : FString) (k : Nat)
    (h : ∀ j, j ≤ k → SubStr.isPrefixOf (Str.drop j) = false) :
    FindFromEnd.scan Str SubStr k = none := by
  induction k with
  | zero =>
    rw [FindFromEnd.scan, h 0 (Nat.le_refl 0)]
    rfl
  | succ k ih =>
    rw [FindFromEnd.scan, h (k + 1) (Nat.le_refl _)]
    exact ih (fun j hj => h j (Nat.le_succ_of_le hj))

theorem FindFromEnd.scan_eq_some (Str SubStr : FString) (i k : Nat) (hik : i ≤ k)
    (hi : SubStr.isPrefixOf (Str.drop i) = true)
    (hlast : ∀ j, i < j → j ≤ k → SubStr.isPrefixOf (Str.drop j) = false) :
    FindFromEnd.scan Str SubStr k = some i := by
  induction k with
  | zero =>
    have h0 : i = 0 := Nat.le_zero.mp hik
    subst h0
    rw [FindFromEnd.scan, hi]
    rfl
  | succ k ih =>
    by_cases hk : i = k + 1
    · subst hk
      rw [FindFromEnd.scan, hi]
      rfl
    · have hle : i ≤ k := by omega
      rw [FindFromEnd.scan, hlast (k + 1) (by omega) (Nat.le_refl _)]
      exact ih hle (fun j h1 h2 => hlast j h1 (Nat.le_succ_of_le h2))

theorem CommandResultMarker_eq :
    CommandResultMarker = 'C' :: "ommandResult ".toList := rfl

theorem CommandResultMarker_length : CommandResultMarker.length = 14 := rfl

theorem CommandResultMarker_not_prefix (l : FString) (h : 'C' ∉ l) :
    CommandResultMarker.isPrefixOf l = false := by
  cases l with
  | nil => rfl
  | cons c t =>
    have hc : ¬ ('C' = c) := fun e => h (by rw [e]; exact List.mem_cons_self _ _)
    rw [CommandResultMarker_eq]
    simp [List.isPrefixOf, hc]

/-- The last occurrence of the marker in `X ++ marker ++ R` is at the length of `X`
when `R` has no `C`. -/
theorem FindFromEnd_marker (X R : FString) (hR : 'C' ∉ R) :
    FindFromEnd (X ++ CommandResultMarker ++ R) CommandResultMarker = some X.length := by
  unfold FindFromEnd
  have hlen : (X ++ CommandResultMarker ++ R).length = X.length + 14 + R.length := by
    rw [List.length_append, List.length_append, CommandResultMarker_length]
  have hmax : max 1 CommandResultMarker.length = 14 := rfl
  rw [hmax, hlen, if_pos (by omega)]
  apply FindFromEnd.scan_eq_some
  · omega
  · rw [List.append_assoc, List.drop_left]
    exact List.isPrefixOf_iff_prefix.mpr (List.prefix_append _ _)
  · intro j h1 _
    apply CommandResultMarker_not_prefix
    intro hmem
    have hj : j = X.length + ((j - X.length - 1) + 1) := by omega
    rw [List.append_assoc, hj, List.drop_append, CommandResultMarker_eq, List.cons_append,
      List.drop_succ_cons] at hmem
    have hmem2 := List.mem_of_mem_drop hmem
    rcases List.mem_append.mp hmem2 with h | h
    · exact absurd h (by decide)
    · exact hR h

theorem Strstr_cons_none (Find : FString) (c : Char) (Str : FString)
    (h : Strstr Find (c :: Str) = none) : Strstr Find Str = none := by
  rw [Strstr] at h
  split_ifs at h
  cases hs : Strstr Find Str with
  | none => rfl
  | some v => rw [hs] at h; simp at h

theorem Strstr_after (d : Char) (ds N Rest : FString) (hN : d ∉ N) :
    Strstr (d :: ds) (N ++ (d :: ds) ++ Rest) = some N.length := by
  induction N with
  | nil =>
    have hp : (d :: ds).isPrefixOf (d :: (ds ++ Rest)) = true :=
      List.isPrefixOf_iff_prefix.mpr ⟨Rest, rfl⟩
    show Strstr (d :: ds) (d :: (ds ++ Rest)) = some 0
    rw [Strstr, hp]
    rfl
  | cons c N ih =>
    have hc : ¬ (d = c) := fun e => hN (by rw [e]; exact List.mem_cons_self _ _)
    have hN2 : d ∉ N := fun e => hN (List.mem_cons_of_mem _ e)
    have hp : (d :: ds).isPrefixOf (c :: (N ++ (d :: ds) ++ Rest)) = false := by
      simp [List.isPrefixOf, hc]
    rw [List.cons_append, List.cons_append, Strstr, hp, ih hN2]
    rfl

theorem FindFromStart_after_marker (X N Rest : FString) (d : Char) (ds : FString)
    (hN : d ∉ N) :
    FindFromStart (X ++ CommandResultMarker ++ (N ++ (d :: ds) ++ Rest)) (d :: ds)
        (X.length + 14)
      = some (X.length + 14 + N.length) := by
  unfold FindFromStart
  have hlen : (X ++ CommandResultMarker ++ (N ++ (d :: ds) ++ Rest)).length
      = X.length + 14 + (N.length + (ds.length + 1) + Rest.length) := by
    simp only [List.length_append, List.length_cons, CommandResultMarker_length]
  have hmin : min (X.length + 14)
      ((X ++ CommandResultMarker ++ (N ++ (d :: ds) ++ Rest)).length - 1) = X.length + 14 := by
    rw [hlen]; omega
  have hdrop : List.drop (X.length + 14) (X ++ CommandResultMarker ++ (N ++ (d :: ds) ++ Rest))
      = N ++ (d :: ds) ++ Rest := by
    have h14 : X.length + 14 = (X ++ CommandResultMarker).length := by
      simp [CommandResultMarker_length]
    rw [h14, List.drop_left]
  simp only [hmin, hdrop, Strstr_after d ds N Rest hN, Option.map_some']

theorem FindFromStart_none_after_marker (X Z Delim : FString)
    (hZ : Strstr Delim (' ' :: Z) = none) :
    FindFromStart (X ++ CommandResultMarker ++ Z) Delim (X.length + 14) = none := by
  unfold FindFromStart
  cases Z with
  | nil =>
    have hmin : min (X.length + 14) ((X ++ CommandResultMarker ++ []).length - 1)
        = X.length + 13 := by
      simp [CommandResultMarker_length]
    have hdrop : List.drop (X.length + 13) (X ++ CommandResultMarker ++ []) = [' '] := by
      rw [List.append_nil, List.drop_append]
      rfl
    simp only [hmin, hdrop, hZ, Option.map_none']
  | cons z zs =>
    have hmin : min (X.length + 14) ((X ++ CommandResultMarker ++ (z :: zs)).length - 1)
        = X.length + 14 := by
      simp only [List.length_append, List.length_cons, CommandResultMarker_length]
      omega
    have hdrop : List.drop (X.length + 14) (X ++ CommandResultMarker ++ (z :: zs))
        = z :: zs := by
      have h14 : X.length + 14 = (X ++ CommandResultMarker).length := by
        simp [CommandResultMarker_length]
      rw [h14, List.drop_left]
    simp only [hmin, hdrop, Strstr_cons_none _ _ _ hZ, Option.map_none']

theorem pchDelim_cases (bPlatformWindows : Bool) :
    ∃ d ds, pchDelim bPlatformWindows = d :: ds ∧ (d = '\r' ∨ d = '\n') ∧
      'C' ∉ pchDelim bPlatformWindows := by
  cases bPlatformWindows with
  | false => exact ⟨'\n', [], rfl, Or.inr rfl, by decide⟩
  | true => exact ⟨'\r', ['\n'], rfl, Or.inl rfl, by decide⟩

/-- On `X ++ marker ++ N ++ terminator`, where the text `N` has no `C` and no
line terminator character, the search gives the code `Atoi N` and the output `X`. -/
theorem RunCommandInternal.findResult_terminated (bPlatformWindows : Bool) (X N : FString)
    (hC : 'C' ∉ N) (hr : '\r' ∉ N) (hn : '\n' ∉ N) :
    RunCommandInternal.findResult bPlatformWindows
        (X ++ CommandResultMarker ++ (N ++ pchDelim bPlatformWindows))
      = some (Atoi bPlatformWindows N, X) := by
  obtain ⟨d, ds, hD, hd, hCD⟩ := pchDelim_cases bPlatformWindows
  have hdN : d ∉ N := by
    rcases hd with rfl | rfl
    · exact hr
    · exact hn
  have hCR : 'C' ∉ N ++ pchDelim bPlatformWindows := by
    intro h
    rcases List.mem_append.mp h with h | h
    · exact hC h
    · exact hCD h
  have hstart := FindFromStart_after_marker X N [] d ds hdN
  rw [List.append_nil, ← hD] at hstart
  unfold RunCommandInternal.findResult
  rw [FindFromEnd_marker X _ hCR]
  simp only [hD] at hstart ⊢
  rw [hstart]
  have hmid : Mid (X ++ CommandResultMarker ++ (N ++ d :: ds)) (X.length + 14)
      (X.length + 14 + N.length - X.length - 14) = N := by
    unfold Mid
    have h14 : X.length + 14 = (X ++ CommandResultMarker).length := by
      simp [CommandResultMarker_length]
    have hcount : X.length + 14 + N.length - X.length - 14 = N.length := by omega
    rw [hcount, h14, List.drop_left, List.take_left]
  have hrem : RemoveAt (X ++ CommandResultMarker ++ (N ++ d :: ds)) X.length
      ((X ++ CommandResultMarker ++ (N ++ d :: ds)).length - X.length) = X := by
    unfold RemoveAt
    have hall : X.length + ((X ++ CommandResultMarker ++ (N ++ d :: ds)).length - X.length)
        = (X ++ CommandResultMarker ++ (N ++ d :: ds)).length := by
      simp only [List.length_append]
      omega
    rw [hall, List.drop_length, List.append_nil, List.append_assoc, List.take_left]
  simp only [hmid, hrem]

/-- An occurrence of the marker in `X ++ marker ++ R` that starts inside `X` lies
inside `X` : the marker has a single `C`, so it cannot overlap itself. -/
theorem CommandResultMarker_occurrence (A B X R : FString)
    (h : A ++ CommandResultMarker ++ B = X ++ CommandResultMarker ++ R)
    (hlt : A.length < X.length) : ∃ a2, X = A ++ CommandResultMarker ++ a2 := by
  rw [List.append_assoc, List.append_assoc] at h
  rcases List.append_eq_append_iff.mp h with ⟨a1, hX, hM⟩ | ⟨c1, hA, _⟩
  · rcases List.append_eq_append_iff.mp hM with ⟨a2, ha, _⟩ | ⟨c2, hM2, hB⟩
    · exact ⟨a2, by rw [hX, ha, List.append_assoc]⟩
    · cases c2 with
      | nil =>
        rw [List.append_nil] at hM2
        exact ⟨[], by rw [hX, hM2, List.append_nil]⟩
      | cons c c2 =>
        exfalso
        cases a1 with
        | nil =>
          rw [hX] at hlt
          simp at hlt
        | cons x a1 =>
          have hc : 'C' = c := by
            rw [CommandResultMarker_eq] at hB
            simp only [List.cons_append, List.cons.injEq] at hB
            exact hB.1
          have hmem : 'C' ∈ "ommandResult ".toList := by
            rw [CommandResultMarker_eq, ← hc] at hM2
            simp only [List.cons_append, List.cons.injEq] at hM2
            rw [hM2.2]
            simp
          exact absurd hmem (by decide)
  · have := congrArg List.length hA
    simp at this
    omega

theorem FindFromEnd.scan_sound (Str SubStr : FString) (i : Nat) :
    ∀ k, FindFromEnd.scan Str SubStr k = some i → SubStr <+: Str.drop i := by
  intro k
  induction k with
  | zero =>
    intro h
    rw [FindFromEnd.scan] at h
    split_ifs at h with hp
    have e : i = 0 := by simpa using h.symm
    rw [e]
    exact List.isPrefixOf_iff_prefix.mp hp
  | succ k ih =>
    intro h
    rw [FindFromEnd.scan] at h
    split_ifs at h with hp
    · have e : i = k + 1 := by simpa using h.symm
      rw [e]
      exact List.isPrefixOf_iff_prefix.mp hp
    · exact ih h

theorem FindFromEnd_sound (Str SubStr : FString) (i : Nat)
    (h : FindFromEnd Str SubStr = some i) : SubStr <+: Str.drop i := by
  unfold FindFromEnd at h
  dsimp only at h
  split_ifs at h
  exact FindFromEnd.scan_sound Str SubStr i _ h

theorem Strstr_sound (Find : FString) :
    ∀ (Str : FString) (k : Nat), Strstr Find Str = some k → Find <:+: Str := by
  intro Str
  induction Str with
  | nil =>
    intro k h
    rw [Strstr] at h
    split_ifs at h with hp
    exact (List.isPrefixOf_iff_prefix.mp hp).isInfix
  | cons c Str ih =>
    intro k h
    rw [Strstr] at h
    split_ifs at h with hp
    · exact (List.isPrefixOf_iff_prefix.mp hp).isInfix
    · cases hs : Strstr Find Str with
      | none => rw [hs] at h; simp at h
      | some v =>
        obtain ⟨u, w, huw⟩ := ih v hs
        exact ⟨c :: u, w, by rw [← huw]; simp⟩

theorem Strstr_eq_none (Find Str : FString) (h : ¬ Find <:+: Str) :
    Strstr Find Str = none := by
  cases hs : Strstr Find Str with
  | none => rfl
  | some k => exact absurd (Strstr_sound Find Str k hs) h

theorem pchDelim_chars (bPlatformWindows : Bool) :
    (∀ c ∈ pchDelim bPlatformWindows, c ∉ CommandResultMarker) ∧
      pchDelim bPlatformWindows ≠ [] ∧ ' ' ∉ pchDelim bPlatformWindows := by
  cases bPlatformWindows <;> decide

/-- A line terminator found in `a2 ++ marker ++ Q` that ends before the end of the
marker lies inside `a2` : the terminator and the marker share no character. -/
theorem pchDelim_before_marker (bPlatformWindows : Bool) (r1 r2 a2 Q : FString)
    (h : r1 ++ pchDelim bPlatformWindows ++ r2 = a2 ++ CommandResultMarker ++ Q)
    (hlen : r1.length + (pchDelim bPlatformWindows).length < a2.length + 14) :
    pchDelim bPlatformWindows <:+: a2 := by
  obtain ⟨hchars, hne, _⟩ := pchDelim_chars bPlatformWindows
  rw [List.append_assoc a2] at h
  rcases List.append_eq_append_iff.mp h with ⟨a1, ha2, _⟩ | ⟨c1, hrD, hMQ⟩
  · exact ⟨r1, a1, ha2.symm⟩
  · rcases List.append_eq_append_iff.mp hrD with ⟨a3, ha2, hD⟩ | ⟨c3, hr1, hc1⟩
    · cases c1 with
      | nil =>
        rw [List.append_nil] at hD
        exact ⟨r1, [], by rw [ha2, hD, List.append_nil]⟩
      | cons x c1 =>
        exfalso
        have hx : x = 'C' := by
          rw [CommandResultMarker_eq] at hMQ
          simp only [List.cons_append, List.cons.injEq] at hMQ
          exact hMQ.1.symm
        have hmem : x ∈ pchDelim bPlatformWindows := by
          rw [hD]
          simp
        have := hchars x hmem
        rw [hx] at this
        exact this (by decide)
    · exfalso
      have hl1 := congrArg List.length hr1
      simp only [List.length_append] at hl1
      have hshort : (c3 ++ pchDelim bPlatformWindows).length < 14 := by
        simp only [List.length_append]
        omega
      rw [hc1] at hMQ
      rcases List.append_eq_append_iff.mp hMQ with ⟨a4, hcD, _⟩ | ⟨c4, hM, _⟩
      · have := congrArg List.length hcD
        simp only [List.length_append, CommandResultMarker_length] at this hshort
        omega
      · cases hd : pchDelim bPlatformWindows with
        | nil => exact hne hd
        | cons d ds =>
          have hmem : d ∈ CommandResultMarker := by
            rw [hM, hd]
            simp
          exact hchars d (by rw [hd]; simp) hmem

theorem pchDelim_proper_prefix (bPlatformWindows : Bool) (Z S : FString)
    (h : Z ++ S = '0' :: pchDelim bPlatformWindows) (hS : S ≠ []) :
    Strstr (pchDelim bPlatformWindows) (' ' :: Z) = none ∧ 'C' ∉ Z := by
  have hlen := congrArg List.length h
  cases bPlatformWindows with
  | false =>
    rcases Z with _ | ⟨z1, _ | ⟨z2, zs⟩⟩
    · exact ⟨by decide, by simp⟩
    · simp only [pchDelim, List.cons_append, List.cons.injEq] at h
      obtain ⟨rfl, _⟩ := h
      exact ⟨by decide, by decide⟩
    · exfalso
      cases S with
      | nil => exact hS rfl
      | cons s1 S =>
        simp [pchDelim] at hlen
  | true =>
    rcases Z with _ | ⟨z1, _ | ⟨z2, _ | ⟨z3, zs⟩⟩⟩
    · exact ⟨by decide, by simp⟩
    · simp only [pchDelim, List.cons_append, List.cons.injEq] at h
      obtain ⟨rfl, _⟩ := h
      exact ⟨by decide, by decide⟩
    · simp only [pchDelim, List.cons_append, List.cons.injEq] at h
      obtain ⟨rfl, rfl, _⟩ := h
      exact ⟨by decide, by decide⟩
    · exfalso
      cases S with
      | nil => exact hS rfl
      | cons s1 S =>
        simp [pchDelim] at hlen

/-- While the text read so far is a proper part of `X ++ marker ++ "0" ++ terminator`
and no marker inside `X` has a line terminator after it, the search finds no
complete result line. -/
theorem RunCommandInternal.findResult_proper_prefix (bPlatformWindows : Bool)
    (X P S : FString)
    (hX : ∀ t ∈ X.tails, CommandResultMarker <+: t →
      ¬ pchDelim bPlatformWindows <:+: t.drop 14)
    (h : P ++ S = X ++ CommandResultMarker ++ ('0' :: pchDelim bPlatformWindows))
    (hS : S ≠ []) :
    RunCommandInternal.findResult bPlatformWindows P = none := by
  by_cases hP : P.length < X.length + 14
  · cases hfind : FindFromEnd P CommandResultMarker with
    | none =>
      unfold RunCommandInternal.findResult
      rw [hfind]
    | some i =>
      obtain ⟨rest, hrest⟩ := FindFromEnd_sound P CommandResultMarker i hfind
      have hPeq : P = P.take i ++ CommandResultMarker ++ rest := by
        rw [List.append_assoc, hrest, List.take_append_drop]
      have hlenP : (P.take i).length + 14 + rest.length = P.length := by
        have := congrArg List.length hPeq
        simp only [List.length_append, CommandResultMarker_length] at this
        omega
      have hi : (P.take i).length = i := by
        have hle : i ≤ P.length := by
          by_contra hgt
          have hnil : P.drop i = [] := List.drop_eq_nil_of_le (by omega)
          rw [hnil] at hrest
          have := congrArg List.length hrest
          simp [CommandResultMarker_length] at this
        simp [List.length_take, hle]
      have hT : P.take i ++ CommandResultMarker ++ (rest ++ S)
          = X ++ CommandResultMarker ++ ('0' :: pchDelim bPlatformWindows) := by
        rw [← h]
        conv_rhs => rw [hPeq]
        simp only [List.append_assoc]
      obtain ⟨a2, ha2⟩ := CommandResultMarker_occurrence (P.take i) (rest ++ S) X
        ('0' :: pchDelim bPlatformWindows) hT (by omega)
      have hlenX : X.length = (P.take i).length + 14 + a2.length := by
        have := congrArg List.length ha2
        simp only [List.length_append, CommandResultMarker_length] at this
        omega
      have hno : ¬ pchDelim bPlatformWindows <:+: a2 := by
        have hmem : CommandResultMarker ++ a2 ∈ X.tails := by
          rw [List.mem_tails]
          exact ⟨P.take i, by rw [ha2, List.append_assoc]⟩
        have := hX _ hmem (List.prefix_append _ _)
        have hdrop : List.drop 14 (CommandResultMarker ++ a2) = a2 := by
          rw [← CommandResultMarker_length, List.drop_left]
        rw [hdrop] at this
        exact this
      have hrestS : rest ++ S = a2 ++ CommandResultMarker
          ++ ('0' :: pchDelim bPlatformWindows) := by
        rw [ha2] at hT
        simp only [List.append_assoc] at hT
        have h1 := List.append_cancel_left hT
        have h2 := List.append_cancel_left h1
        rw [h2]
        simp only [List.append_assoc]
      have hnorest : ¬ pchDelim bPlatformWindows <:+: rest := by
        rintro ⟨r1, r2, hr⟩
        apply hno
        apply pchDelim_before_marker bPlatformWindows r1 (r2 ++ S) a2
          ('0' :: pchDelim bPlatformWindows)
        · rw [← hrestS, ← hr]
          simp only [List.append_assoc]
        · have := congrArg List.length hr
          simp only [List.length_append] at this
          omega
      obtain ⟨_, _, hsp⟩ := pchDelim_chars bPlatformWindows
      have hZ : Strstr (pchDelim bPlatformWindows) (' ' :: rest) = none := by
        apply Strstr_eq_none
        rintro ⟨u, w, huw⟩
        cases u with
        | nil =>
          cases hd : pchDelim bPlatformWindows with
          | nil =>
            apply hnorest
            rw [hd]
            exact ⟨[], rest, rfl⟩
          | cons d ds =>
            rw [hd] at huw
            simp only [List.nil_append, List.cons_append, List.cons.injEq] at huw
            apply hsp
            rw [hd, huw.1]
            simp
        | cons x u =>
          simp only [List.cons_append, List.cons.injEq] at huw
          exact hnorest ⟨u, w, huw.2⟩
      have hfs := FindFromStart_none_after_marker (P.take i) rest _ hZ
      rw [← hPeq, hi] at hfs
      unfold RunCommandInternal.findResult
      rw [hfind]
      dsimp only
      rw [hfs]
  · rcases List.append_eq_append_iff.mp h with ⟨a1, hXM, _⟩ | ⟨c1, hP2, hD⟩
    · have ha1 : a1 = [] := by
        have := congrArg List.length hXM
        simp only [List.length_append, CommandResultMarker_length] at this
        exact List.length_eq_zero.mp (by omega)
      subst ha1
      rw [List.append_nil] at hXM
      obtain ⟨hZ, hC⟩ := pchDelim_proper_prefix bPlatformWindows []
        ('0' :: pchDelim bPlatformWindows) rfl (by simp)
      have e : P = X ++ CommandResultMarker ++ [] := by rw [List.append_nil, hXM]
      unfold RunCommandInternal.findResult
      simp only [e, FindFromEnd_marker X [] hC, FindFromStart_none_after_marker X [] _ hZ]
    · obtain ⟨hZ, hC⟩ := pchDelim_proper_prefix bPlatformWindows c1 S hD.symm hS
      unfold RunCommandInternal.findResult
      simp only [hP2, FindFromEnd_marker X c1 hC, FindFromStart_none_after_marker X c1 _ hZ]

/-! ### Decimal texts -/

theorem digitChar_spec (m : Nat) (hm : m < 10) :
    (Nat.digitChar m).isDigit = true ∧ (Nat.digitChar m).toNat - '0'.toNat = m ∧
      isSpace (Nat.digitChar m) = false ∧ Nat.digitChar m ≠ '-' ∧ Nat.digitChar m ≠ '+' ∧
      Nat.digitChar m ≠ 'C' ∧ Nat.digitChar m ≠ '\r' ∧ Nat.digitChar m ≠ '\n' ∧
      Nat.digitChar m ≠ ';' := by
  interval_cases m <;> decide

theorem Atoi.digits_digitChar (Acc m : Nat) (hm : m < 10) (Str : FString) :
    Atoi.digits Acc (Nat.digitChar m :: Str) = Atoi.digits (Acc * 10 + m) Str := by
  obtain ⟨h1, h2, _⟩ := digitChar_spec m hm
  rw [Atoi.digits, if_pos h1, h2]

theorem toDigitsCore_spec : ∀ (fuel n : Nat) (ds : List Char), n < fuel →
    ∃ l : List Char, Nat.toDigitsCore 10 fuel n ds = l ++ ds ∧ l ≠ [] ∧
      (∀ c ∈ l, ∃ m, m < 10 ∧ c = Nat.digitChar m) ∧
      (∀ Acc Str, Atoi.digits Acc (l ++ Str) = Atoi.digits (Acc * 10 ^ l.length + n) Str) := by
  intro fuel
  induction fuel with
  | zero => intro n ds h; omega
  | succ fuel ih =>
    intro n ds hn
    by_cases h0 : n / 10 = 0
    · refine ⟨[Nat.digitChar (n % 10)], ?_, by simp, ?_, ?_⟩
      · simp [Nat.toDigitsCore, h0]
      · intro c hc
        exact ⟨n % 10, Nat.mod_lt _ (by decide), by simpa using hc⟩
      · intro Acc Str
        have hn10 : n % 10 = n := by omega
        rw [List.singleton_append, Atoi.digits_digitChar _ _ (Nat.mod_lt _ (by decide)), hn10]
        simp
    · have hlt : n / 10 < fuel := by omega
      obtain ⟨l, hl, _, hdig, hval⟩ := ih (n / 10) (Nat.digitChar (n % 10) :: ds) hlt
      refine ⟨l ++ [Nat.digitChar (n % 10)], ?_, by simp, ?_, ?_⟩
      · simp [Nat.toDigitsCore, h0, hl]
      · intro c hc
        rcases List.mem_append.mp hc with h | h
        · exact hdig c h
        · exact ⟨n % 10, Nat.mod_lt _ (by decide), by simpa using h⟩
      · intro Acc Str
        have hn10 : n / 10 * 10 + n % 10 = n := by omega
        rw [List.append_assoc, List.singleton_append, hval,
          Atoi.digits_digitChar _ _ (Nat.mod_lt _ (by decide))]
        congr 1
        rw [List.length_append, List.length_singleton, pow_succ]
        calc (Acc * 10 ^ l.length + n / 10) * 10 + n % 10
            = Acc * (10 ^ l.length * 10) + (n / 10 * 10 + n % 10) := by ring
          _ = Acc * (10 ^ l.length * 10) + n := by rw [hn10]

theorem Nat_toString_spec (n : Nat) :
    ∃ l : List Char, (toString n).toList = l ∧ l ≠ [] ∧
      (∀ c ∈ l, ∃ m, m < 10 ∧ c = Nat.digitChar m) ∧
      (∀ Str, Atoi.digits 0 (l ++ Str) = Atoi.digits n Str) := by
  obtain ⟨l, hl, hne, hdig, hval⟩ := toDigitsCore_spec (n + 1) n [] (Nat.lt_succ_self n)
  refine ⟨l, ?_, hne, hdig, ?_⟩
  · rw [List.append_nil] at hl
    exact hl
  · intro Str
    rw [hval]
    simp

theorem toInt32_of_range (z : Int) (h1 : -2 ^ 31 ≤ z) (h2 : z < 2 ^ 31) : toInt32 z = z := by
  unfold toInt32
  rw [Int.emod_eq_of_lt (by omega) (by omega)]
  omega

/-- The characters of the decimal text of an integer: digits and the minus sign,
so no `C` and no line terminator character. -/
theorem Int_toString_chars (n : Int) :
    'C' ∉ (toString n).toList ∧ '\r' ∉ (toString n).toList ∧ '\n' ∉ (toString n).toList := by
  have hnat : ∀ m : Nat, 'C' ∉ (toString m).toList ∧ '\r' ∉ (toString m).toList ∧
      '\n' ∉ (toString m).toList := by
    intro m
    obtain ⟨l, hl, _, hdig, _⟩ := Nat_toString_spec m
    rw [hl]
    refine ⟨?_, ?_, ?_⟩ <;>
    · intro hc
      obtain ⟨k, hk, hck⟩ := hdig _ hc
      obtain ⟨_, _, _, _, _, h6, h7, h8, _⟩ := digitChar_spec k hk
      first
        | exact h6 hck.symm
        | exact h7 hck.symm
        | exact h8 hck.symm
  cases n with
  | ofNat m => exact hnat m
  | negSucc m =>
    have e : (toString (Int.negSucc m)).toList = '-' :: (toString (m + 1)).toList := rfl
    rw [e]
    obtain ⟨h1, h2, h3⟩ := hnat (m + 1)
    refine ⟨?_, ?_, ?_⟩
    · simp only [List.mem_cons, not_or]; exact ⟨by decide, h1⟩
    · simp only [List.mem_cons, not_or]; exact ⟨by decide, h2⟩
    · simp only [List.mem_cons, not_or]; exact ⟨by decide, h3⟩

/-- The number read from the decimal text of an integer is that integer. -/
theorem Atoi.number_toString (n : Int) : Atoi.number (toString n).toList = n := by
  have hnat : ∀ m : Nat, Atoi.number (toString m).toList = (m : Int) := by
    intro m
    obtain ⟨l, hl, hne, hdig, hval⟩ := Nat_toString_spec m
    rw [hl]
    cases l with
    | nil => exact absurd rfl hne
    | cons c t =>
      obtain ⟨k, hk, hck⟩ := hdig c (List.mem_cons_self _ _)
      obtain ⟨_, _, hsp, hminus, hplus, _⟩ := digitChar_spec k hk
      rw [← hck] at hsp hminus hplus
      have hv := hval []
      rw [List.append_nil] at hv
      unfold Atoi.number
      rw [List.dropWhile_cons_of_neg (by simp [hsp])]
      simp only [if_neg hminus, if_neg hplus, hv]
      rfl
  cases n with
  | ofNat m =>
    have e : (toString (Int.ofNat m)).toList = (toString m).toList := rfl
    rw [e, hnat m]
    rfl
  | negSucc m =>
    have e : (toString (Int.negSucc m)).toList = '-' :: (toString (m + 1)).toList := rfl
    obtain ⟨l, hl, _, _, hval⟩ := Nat_toString_spec (m + 1)
    have hv := hval []
    rw [List.append_nil] at hv
    have hs : Atoi.number ('-' :: (toString (m + 1)).toList) = -((m + 1 : Nat) : Int) := by
      unfold Atoi.number
      rw [List.dropWhile_cons_of_neg (by decide)]
      simp only [if_true, hl, hv]
      rfl
    rw [e, hs]
    rfl

/-- A number of the `int32` range is returned as it is by the C library of either
platform. -/
theorem Atoi.strtol_of_range (bPlatformWindows : Bool) (Str : FString)
    (h1 : -2 ^ 31 ≤ Atoi.number Str) (h2 : Atoi.number Str < 2 ^ 31) :
    Atoi.strtol bPlatformWindows Str = Atoi.number Str := by
  unfold Atoi.strtol
  dsimp only
  cases bPlatformWindows
  · rw [if_neg (by simp only [Bool.false_eq_true, if_false]; omega),
      if_neg (by simp only [Bool.false_eq_true, if_false]; omega)]
  · rw [if_neg (by simp only [if_true]; omega), if_neg (by simp only [if_true]; omega)]

/-- The function `Atoi` reads back the decimal text of an integer of the `int32` range. -/
theorem Atoi_toString (bPlatformWindows : Bool) (n : Int) (h1 : -2 ^ 31 ≤ n) (h2 : n < 2 ^ 31) :
    Atoi bPlatformWindows (toString n).toList = n := by
  have hn := Atoi.number_toString n
  unfold Atoi
  rw [Atoi.strtol_of_range bPlatformWindows _ (by rw [hn]; exact h1) (by rw [hn]; exact h2), hn]
  exact toInt32_of_range _ h1 h2

/-! ### The read loop -/

theorem RunCommandInternal.readLoop_chunks (bPlatformWindows : Bool) (Seconds : Nat → Int)
    (X : FString)
    (hX : ∀ t ∈ X.tails, CommandResultMarker <+: t →
      ¬ pchDelim bPlatformWindows <:+: t.drop 14) :
    ∀ (Chunks : List FString) (L : FReadLoop), Chunks ≠ [] → (∀ c ∈ Chunks, c ≠ []) →
      L.OutResults ++ Chunks.flatten
        = X ++ CommandResultMarker ++ ('0' :: pchDelim bPlatformWindows) →
      (RunCommandInternal.readLoop bPlatformWindows Seconds Chunks L).bResult = true ∧
      (RunCommandInternal.readLoop bPlatformWindows Seconds Chunks L).OutResults = X := by
  intro Chunks
  induction Chunks with
  | nil => intro L h; exact absurd rfl h
  | cons c rest ih =>
    intro L _ hne hcut
    have hc : 0 < c.length := List.length_pos.mpr (hne c (List.mem_cons_self _ _))
    rw [RunCommandInternal.readLoop, if_pos hc]
    cases rest with
    | nil =>
      have hT : L.OutResults ++ c
          = X ++ CommandResultMarker ++ (['0'] ++ pchDelim bPlatformWindows) := by
        have e : [c].flatten = c := by simp
        rw [e] at hcut
        exact hcut
      have hfind := RunCommandInternal.findResult_terminated bPlatformWindows X ['0']
        (by decide) (by decide) (by decide)
      rw [hT]
      dsimp only
      rw [hfind]
      constructor
      · show decide (0 = Atoi bPlatformWindows ['0']) = true
        have hzero : Atoi bPlatformWindows ['0'] = 0 := by
          cases bPlatformWindows <;> rfl
        rw [hzero]
        rfl
      · rfl
    | cons r rest =>
      have hr : r ≠ [] := hne r (List.mem_cons_of_mem _ (List.mem_cons_self _ _))
      have hS : (r :: rest).flatten ≠ [] := by
        cases r with
        | nil => exact absurd rfl hr
        | cons a t => simp
      have hcut2 : (L.OutResults ++ c) ++ (r :: rest).flatten
          = X ++ CommandResultMarker ++ ('0' :: pchDelim bPlatformWindows) := by
        rw [← hcut]
        simp only [List.flatten_cons, List.append_assoc]
      have hnone := RunCommandInternal.findResult_proper_prefix bPlatformWindows X
        (L.OutResults ++ c) ((r :: rest).flatten) hX hcut2 hS
      simp only [hnone]
      exact ih _ (by simp) (fun c2 h2 => hne c2 (List.mem_cons_of_mem _ h2)) hcut2

/-- C3 (as stated, refuted): the text `CommandResult 1`, newline, `CommandResult 0`,
newline is the output `X` = `CommandResult 1` + newline followed by
`CommandResult 0` and the terminator. Read in one chunk it gives success with
stdout `X`; read in the two chunks that end at each newline it gives failure:
the result depends on the chunk boundaries. -/
theorem C3_counterexample :
    ["CommandResult 1\n".toList, "CommandResult 0\n".toList].flatten
      = "CommandResult 1\n".toList ++ CommandResultMarker ++ ['0'] ++ pchDelim false ∧
    (RunCommandInternal false true
      { bProcRunningAtEntry := true, bRestartLaunches := true
        Reads := ["CommandResult 1\n".toList, "CommandResult 0\n".toList]
        Seconds := fun _ => 0 }
      "status".toList [] [] [] []).bResult = false ∧
    (RunCommandInternal false true
      { bProcRunningAtEntry := true, bRestartLaunches := true
        Reads := ["CommandResult 1\nCommandResult 0\n".toList]
        Seconds := fun _ => 0 }
      "status".toList [] [] [] []).bResult = true ∧
    (RunCommandInternal false true
      { bProcRunningAtEntry := true, bRestartLaunches := true
        Reads := ["CommandResult 1\nCommandResult 0\n".toList]
        Seconds := fun _ => 0 }
      "status".toList [] [] [] []).OutResults = "CommandResult 1\n".toList := by
  refine ⟨?_, ?_, ?_, ?_⟩ <;> rfl

/-- C3 (amended): for every output text `X` in which no occurrence of the marker
`CommandResult ` has a line terminator after it (no tail of `X` starts with the
marker and holds a terminator past it), and every way of cutting
`X` + `CommandResult 0` + line terminator into non-empty chunks returned by
successive pipe reads of a running shell, `RunCommandInternal` returns success
with stdout exactly `X` and an empty error text, whatever the chunk
boundaries and the clock. -/
theorem C3_chunking_independent (bPlatformWindows bRestartLaunches : Bool)
    (Seconds : Nat → Int) (InCommand : FString) (InParameters InFiles : List FString)
    (X : FString) (Chunks : List FString)
    (hX : ∀ t ∈ X.tails, CommandResultMarker <+: t →
      ¬ pchDelim bPlatformWindows <:+: t.drop 14)
    (hne : ∀ c ∈ Chunks, c ≠ [])
    (hcut : Chunks.flatten = X ++ CommandResultMarker ++ ['0'] ++ pchDelim bPlatformWindows) :
    RunCommandInternal bPlatformWindows true
        { bProcRunningAtEntry := true, bRestartLaunches := bRestartLaunches
          Reads := Chunks, Seconds := Seconds }
        InCommand InParameters InFiles [] []
      = { bResult := true, OutResults := X, OutErrors := []
          Writes := [{ bPipeOpen := true
                       Message := RunCommandInternal.FullCommand InCommand InParameters InFiles }]
          bRestarted := false, bHandleValid := true } := by
  have hChunks : Chunks ≠ [] := by
    intro h
    rw [h] at hcut
    have := congrArg List.length hcut
    simp [CommandResultMarker_length] at this
    omega
  have hcut2 : ([] : FString) ++ Chunks.flatten
      = X ++ CommandResultMarker ++ ('0' :: pchDelim bPlatformWindows) := by
    rw [List.nil_append, hcut]
    simp
  obtain ⟨h1, h2⟩ := RunCommandInternal.readLoop_chunks bPlatformWindows Seconds X hX Chunks
    { bResult := false, OutResults := [], LastActivity := Seconds 0
      PreviousLogLen := 0, Ticks := 1 } hChunks hne hcut2
  unfold RunCommandInternal
  simp only [if_true, Bool.not_true, Bool.false_eq_true, if_false, h1, h2]

/-- Witness of C3 (amended): the output `CommandResult pending`, which holds the
marker but no line terminator, and the result line, cut inside the second
marker. -/
theorem C3_chunking_independent_witness :
    RunCommandInternal false true
        { bProcRunningAtEntry := true, bRestartLaunches := false
          Reads := ["CommandResult pendingComm".toList, "andResult 0\n".toList]
          Seconds := fun _ => 0 }
        "status".toList [] ["a.uasset".toList] [] []
      = { bResult := true, OutResults := "CommandResult pending".toList, OutErrors := []
          Writes := [{ bPipeOpen := true
                       Message := RunCommandInternal.FullCommand "status".toList []
                         ["a.uasset".toList] }]
          bRestarted := false, bHandleValid := true } :=
  C3_chunking_independent false false (fun _ => 0) "status".toList [] ["a.uasset".toList]
    "CommandResult pending".toList
    ["CommandResult pendingComm".toList, "andResult 0\n".toList]
    (by decide) (by decide) (by decide)

/-- C4 (as stated, refuted): the response `done`, newline, `CommandResult 4294967296`,
newline, read in one chunk from a running shell on a platform other than
Windows. The integer `n = 4294967296` is not 0, it fits the 64-bit `long` that
`wcstol` returns, and `ResultCode`, an `int32`, receives its lower 32 bits,
which are 0: `RunCommandInternal` returns success, with the stdout `done` +
newline and an empty error text. -/
theorem C4_counterexample :
    (4294967296 : Int) ≠ 0 ∧
    (toString (4294967296 : Int)).toList = "4294967296".toList ∧
    Atoi.strtol false "4294967296".toList = 4294967296 ∧
    Atoi false "4294967296".toList = 0 ∧
    "done\n".toList ++ CommandResultMarker ++ (toString (4294967296 : Int)).toList
        ++ pchDelim false = "done\nCommandResult 4294967296\n".toList ∧
    (RunCommandInternal false true
      { bProcRunningAtEntry := true, bRestartLaunches := false
        Reads := ["done\nCommandResult 4294967296\n".toList]
        Seconds := fun _ => 0 }
      "status".toList [] [] [] []).bResult = true ∧
    (RunCommandInternal false true
      { bProcRunningAtEntry := true, bRestartLaunches := false
        Reads := ["done\nCommandResult 4294967296\n".toList]
        Seconds := fun _ => 0 }
      "status".toList [] [] [] []).OutResults = "done\n".toList ∧
    (RunCommandInternal false true
      { bProcRunningAtEntry := true, bRestartLaunches := false
        Reads := ["done\nCommandResult 4294967296\n".toList]
        Seconds := fun _ => 0 }
      "status".toList [] [] [] []).OutErrors = [] := by
  refine ⟨?_, ?_, ?_, ?_, ?_, ?_, ?_, ?_⟩
  · decide
  · rfl
  · rfl
  · rfl
  · rfl
  · rfl
  · rfl
  · rfl

/-- C4 (amended): for a response made of an output text `X`, the marker
`CommandResult `, the decimal text of an integer `n` of the `int32` range
(`-2 ^ 31 ≤ n < 2 ^ 31`, the type of `ResultCode`) and the line terminator,
read in one chunk from a running shell, `RunCommandInternal` returns success
exactly when `n = 0`; when `n` is not 0 the stdout returned is empty and the
error text is exactly `X`; when `n = 0` the stdout is `X` and the error text
is empty. -/
theorem C4_result_code_decides (bPlatformWindows bRestartLaunches : Bool)
    (Seconds : Nat → Int) (InCommand : FString) (InParameters InFiles : List FString)
    (X : FString) (n : Int) (hlo : -2 ^ 31 ≤ n) (hhi : n < 2 ^ 31) :
    RunCommandInternal bPlatformWindows true
        { bProcRunningAtEntry := true, bRestartLaunches := bRestartLaunches
          Reads := [X ++ CommandResultMarker ++ (toString n).toList
            ++ pchDelim bPlatformWindows]
          Seconds := Seconds }
        InCommand InParameters InFiles [] []
      = { bResult := decide (n = 0)
          OutResults := if n = 0 then X else []
          OutErrors := if n = 0 then [] else X
          Writes := [{ bPipeOpen := true
                       Message := RunCommandInternal.FullCommand InCommand InParameters InFiles }]
          bRestarted := false, bHandleValid := true } := by
  obtain ⟨hC, hr, hn⟩ := Int_toString_chars n
  have hfind := RunCommandInternal.findResult_terminated bPlatformWindows X
    (toString n).toList hC hr hn
  rw [Atoi_toString bPlatformWindows n hlo hhi] at hfind
  have hpos : 0 < (X ++ CommandResultMarker ++ (toString n).toList
      ++ pchDelim bPlatformWindows).length := by
    simp [CommandResultMarker_length]
  unfold RunCommandInternal
  simp only [if_true, Bool.not_true, Bool.false_eq_true, if_false]
  rw [RunCommandInternal.readLoop, if_pos hpos]
  simp only [List.nil_append, List.append_assoc] at hfind ⊢
  simp only [hfind]
  by_cases h0 : n = 0
  · subst h0
    simp
  · have h0b : ¬ (0 = n) := fun e => h0 e.symm
    simp [h0, h0b]

/-- Witness of C4 (amended): the error text `no workspace` with the result code 3. -/
theorem C4_result_code_decides_witness :
    (RunCommandInternal false true
        { bProcRunningAtEntry := true, bRestartLaunches := false
          Reads := ["no workspace\n".toList ++ CommandResultMarker ++ (toString (3 : Int)).toList
            ++ pchDelim false]
          Seconds := fun _ => 0 }
        "status".toList [] [] [] []).bResult = false ∧
    (RunCommandInternal false true
        { bProcRunningAtEntry := true, bRestartLaunches := false
          Reads := ["no workspace\n".toList ++ CommandResultMarker ++ (toString (3 : Int)).toList
            ++ pchDelim false]
          Seconds := fun _ => 0 }
        "status".toList [] [] [] []).OutErrors = "no workspace\n".toList := by
  rw [C4_result_code_decides false false (fun _ => 0) "status".toList [] []
    "no workspace\n".toList 3 (by decide) (by decide)]
  exact ⟨rfl, rfl⟩

/-! ### The command line -/

theorem FullCommand_foldl_parameters (Acc : FString) (InParameters : List FString) :
    InParameters.foldl (fun Acc Parameter => Acc ++ [' '] ++ Parameter) Acc
      = Acc ++ (InParameters.map (fun p => ' ' :: p)).flatten := by
  induction InParameters generalizing Acc with
  | nil => simp
  | cons P Ps ih =>
    rw [List.foldl_cons, ih]
    simp

theorem FullCommand_foldl_files (Acc : FString) (InFiles : List FString) :
    InFiles.foldl (fun Acc File => Acc ++ [' ', '"'] ++ File ++ ['"']) Acc
      = Acc ++ (InFiles.map (fun f => ' ' :: '"' :: (f ++ ['"']))).flatten := by
  induction InFiles generalizing Acc with
  | nil => simp
  | cons F Fs ih =>
    rw [List.foldl_cons, ih]
    simp

/-- C5: the text `RunCommandInternal` hands to `WritePipe` is the command, each
parameter preceded by one space, each file preceded by one space and enclosed
in double quotes, then one newline; it makes exactly one such call when the
shell handle is valid at entry, and none otherwise. -/
theorem C5_command_line_framing (bPlatformWindows bHandleValid : Bool) (Env : FShellEnv)
    (InCommand : FString) (InParameters InFiles : List FString)
    (OutResults OutErrors : FString) :
    (RunCommandInternal bPlatformWindows bHandleValid Env InCommand InParameters InFiles
        OutResults OutErrors).Writes.map FWritePipe.Message
      = if bHandleValid then [framedCommandLine InCommand InParameters InFiles] else [] := by
  have h : RunCommandInternal.FullCommand InCommand InParameters InFiles
      = framedCommandLine InCommand InParameters InFiles := by
    unfold RunCommandInternal.FullCommand framedCommandLine
    simp only [FullCommand_foldl_parameters, FullCommand_foldl_files]
  unfold RunCommandInternal
  cases bHandleValid with
  | false => simp
  | true =>
    simp only [if_true, h]
    split_ifs <;> rfl

/-! ### File-info lines -/

/-- C6 (failing input): on the line `16;16;;Workspace_2`, whose lock owner field is
empty and whose lock location field is `Workspace_2`, the file-info parser
yields lock owner `Workspace_2` and an empty lock location: `ParseIntoArray`
drops the empty field, so the location is read as the owner. On the lines
`16;16;;` and `17;17;srombauts;Workspace_2` the fields are read as the claim
says. -/
theorem C6_empty_owner_shifts_location (bPlatformWindows : Bool) (Indeterminate : Int × Int) :
    FPlasticFileinfoParser.construct bPlatformWindows Indeterminate "16;16;;Workspace_2".toList
      = { RevisionChangeset := 16, RevisionHeadChangeset := 16
          LockedBy := "Workspace_2".toList, LockedWhere := [] } ∧
    FPlasticFileinfoParser.construct bPlatformWindows Indeterminate "16;16;;".toList
      = { RevisionChangeset := 16, RevisionHeadChangeset := 16
          LockedBy := [], LockedWhere := [] } ∧
    FPlasticFileinfoParser.construct bPlatformWindows Indeterminate
        "17;17;srombauts;Workspace_2".toList
      = { RevisionChangeset := 17, RevisionHeadChangeset := 17
          LockedBy := "srombauts".toList, LockedWhere := "Workspace_2".toList } := by
  cases bPlatformWindows <;> exact ⟨rfl, rfl, rfl⟩

/-- C7 (failing input): on the line `16`, which has one field, and on the empty
line, the parser assigns neither changeset member: each keeps the
indeterminate value the object was created with, which need not be 0. The
lock owner and lock location are empty. -/
theorem C7_changesets_left_unassigned (bPlatformWindows : Bool) (Indeterminate : Int × Int) :
    FPlasticFileinfoParser.construct bPlatformWindows Indeterminate "16".toList
      = { RevisionChangeset := Indeterminate.1, RevisionHeadChangeset := Indeterminate.2
          LockedBy := [], LockedWhere := [] } ∧
    FPlasticFileinfoParser.construct bPlatformWindows Indeterminate []
      = { RevisionChangeset := Indeterminate.1, RevisionHeadChangeset := Indeterminate.2
          LockedBy := [], LockedWhere := [] } ∧
    (FPlasticFileinfoParser.construct bPlatformWindows (7, 9)
        "16".toList).RevisionChangeset ≠ 0 := by
  refine ⟨?_, ?_, ?_⟩
  · rfl
  · rfl
  · cases bPlatformWindows <;> decide

/-- C8 (as stated, refuted): the file-info line `17;17;Bob;Workspace_2` is parsed
to the lock owner `Bob`; with the current user `bob` and the current workspace
`Workspace_2` the pair (`Bob`, `Workspace_2`) differs from (`bob`, `Workspace_2`),
yet the state stays `CheckedOut` : the code compares with the engine's
`operator!=`, which ignores letter case. -/
theorem C8_counterexample :
    ParseFileinfoResults false "bob".toList "Workspace_2".toList (fun _ => (0, 0))
        ["Content/A.uasset".toList] ["17;17;Bob;Workspace_2".toList]
        [{ LocalFilename := "Content/A.uasset".toList
           WorkspaceState := EWorkspaceState.CheckedOut
           LocalRevisionChangeset := 0, DepotRevisionChangeset := 0
           LockedBy := [], LockedWhere := []
           PendingMergeBaseFileHash := [], TimeStamp := 0 }]
      = some [{ LocalFilename := "Content/A.uasset".toList
                WorkspaceState := EWorkspaceState.CheckedOut
                LocalRevisionChangeset := 17, DepotRevisionChangeset := 17
                LockedBy := "Bob".toList, LockedWhere := "Workspace_2".toList
                PendingMergeBaseFileHash := [], TimeStamp := 0 }] ∧
    ("Bob".toList, "Workspace_2".toList) ≠ ("bob".toList, "Workspace_2".toList) := by
  constructor
  · rfl
  · decide

/-- C8 (amended): after `ParseFileinfoResults` on one file, the workspace state is
`LockedByOther` when the parsed lock owner is non-empty and the lock owner or
the lock location differs, letter case ignored, from the current user or the
current workspace; in every other case it is the state the status step left. -/
theorem C8_lock_promotion_ignores_case (bPlatformWindows : Bool)
    (GetUserName GetWorkspaceName : FString)
    (Indeterminate : Nat → Int × Int) (File Fileinfo : FString)
    (FileState : FPlasticSourceControlState) :
    ∃ Out : FPlasticSourceControlState,
      ParseFileinfoResults bPlatformWindows GetUserName GetWorkspaceName Indeterminate
          [File] [Fileinfo]
          [FileState] = some [Out] ∧
      Out.WorkspaceState =
        if (FPlasticFileinfoParser.construct bPlatformWindows (Indeterminate 0)
            Fileinfo).LockedBy ≠ [] ∧
            ((FPlasticFileinfoParser.construct bPlatformWindows (Indeterminate 0)
                Fileinfo).LockedBy.map
                Char.toLower ≠ GetUserName.map Char.toLower ∨
              (FPlasticFileinfoParser.construct bPlatformWindows (Indeterminate 0)
                  Fileinfo).LockedWhere.map
                Char.toLower ≠ GetWorkspaceName.map Char.toLower)
        then EWorkspaceState.LockedByOther
        else FileState.WorkspaceState := by
  refine ⟨ParseFileinfoResults.body bPlatformWindows GetUserName GetWorkspaceName
      (Indeterminate 0) Fileinfo
    FileState, ?_, ?_⟩
  · simp [ParseFileinfoResults, ParseFileinfoResults.loop]
  · unfold ParseFileinfoResults.body
    simp only [FStringNe, FStringEq]
    generalize FPlasticFileinfoParser.construct bPlatformWindows (Indeterminate 0) Fileinfo = P
    by_cases h1 : P.LockedBy = []
    · simp [h1]
    · have h2 : 0 < P.LockedBy.length := List.length_pos.mpr h1
      by_cases h3 : P.LockedBy.map Char.toLower = GetUserName.map Char.toLower
      · by_cases h4 : P.LockedWhere.map Char.toLower = GetWorkspaceName.map Char.toLower
        · simp [h1, h2, h3, h4]
        · simp [h1, h2, h3, h4]
      · simp [h1, h2, h3]

/-! ### History -/

theorem ParseHistoryResults.loop_eq_foldl {σ : Type} (bPlatformWindows : Bool)
    (RunLogCommand : σ → FString → FPlasticSourceControlRevision →
      Bool × FPlasticSourceControlRevision × σ)
    (New : FPlasticSourceControlRevision) (InResults : List FString) :
    ∀ (Count : Nat) (H : FHistoryLoop σ), Count ≤ InResults.length →
      ParseHistoryResults.loop bPlatformWindows RunLogCommand New InResults Count H
        = (InResults.take Count).reverse.foldl
            (fun H Result => ParseHistoryResults.body bPlatformWindows RunLogCommand New
                Result H) H := by
  intro Count
  induction Count with
  | zero => intro H _; simp [ParseHistoryResults.loop]
  | succ k ih =>
    intro H hk
    have hlt : k < InResults.length := hk
    have hget : InResults.get? k = some (InResults.get ⟨k, hlt⟩) := List.get?_eq_get hlt
    have htake : InResults.take (k + 1) = InResults.take k ++ [InResults.get ⟨k, hlt⟩] := by
      rw [List.take_succ, List.getElem?_eq_getElem hlt]
      rfl
    rw [ParseHistoryResults.loop, hget, htake, List.reverse_append]
    simp only [List.reverse_cons, List.reverse_nil, List.nil_append, List.singleton_append,
      List.foldl_cons]
    exact ih _ (Nat.le_of_lt hlt)

theorem ParseHistoryResults_eq_foldl {σ : Type} (bPlatformWindows : Bool)
    (RunLogCommand : σ → FString → FPlasticSourceControlRevision →
      Bool × FPlasticSourceControlRevision × σ)
    (New : FPlasticSourceControlRevision) (Shell : σ) (InResults : List FString)
    (OutHistory : List FPlasticSourceControlRevision) :
    ParseHistoryResults bPlatformWindows RunLogCommand New Shell InResults OutHistory
      = InResults.reverse.foldl
          (fun H Result => ParseHistoryResults.body bPlatformWindows RunLogCommand New Result H)
          { bResult := true, OutHistory := OutHistory, Shell := Shell } := by
  unfold ParseHistoryResults
  rw [ParseHistoryResults.loop_eq_foldl bPlatformWindows _ _ _ _ _
      (Nat.le_refl _), List.take_length]

theorem ParseHistoryResults.body_of_failed {σ : Type} (bPlatformWindows : Bool)
    (RunLogCommand : σ → FString → FPlasticSourceControlRevision →
      Bool × FPlasticSourceControlRevision × σ)
    (New : FPlasticSourceControlRevision) (Result : FString) (H : FHistoryLoop σ)
    (h : H.bResult = false) :
    ParseHistoryResults.body bPlatformWindows RunLogCommand New Result H = H := by
  simp [ParseHistoryResults.body, h]

theorem ParseHistoryResults.foldl_of_failed {σ : Type} (bPlatformWindows : Bool)
    (RunLogCommand : σ → FString → FPlasticSourceControlRevision →
      Bool × FPlasticSourceControlRevision × σ)
    (New : FPlasticSourceControlRevision) (Lines : List FString) (H : FHistoryLoop σ)
    (h : H.bResult = false) :
    Lines.foldl (fun H Result => ParseHistoryResults.body bPlatformWindows RunLogCommand
        New Result H) H
      = H := by
  induction Lines with
  | nil => rfl
  | cons r rs ih =>
    rw [List.foldl_cons, ParseHistoryResults.body_of_failed bPlatformWindows _ _ _ _ h, ih]

theorem ParseHistoryResults.body_history_prefix {σ : Type} (bPlatformWindows : Bool)
    (RunLogCommand : σ → FString → FPlasticSourceControlRevision →
      Bool × FPlasticSourceControlRevision × σ)
    (New : FPlasticSourceControlRevision) (Result : FString) (H : FHistoryLoop σ) :
    H.OutHistory <+: (ParseHistoryResults.body bPlatformWindows RunLogCommand New Result
        H).OutHistory := by
  unfold ParseHistoryResults.body
  split_ifs with hb
  · split
    · exact List.prefix_append _ _
    · exact List.prefix_refl _
  · exact List.prefix_refl _

theorem ParseHistoryResults.foldl_history_prefix {σ : Type} (bPlatformWindows : Bool)
    (RunLogCommand : σ → FString → FPlasticSourceControlRevision →
      Bool × FPlasticSourceControlRevision × σ)
    (New : FPlasticSourceControlRevision) (Lines : List FString) (H : FHistoryLoop σ) :
    H.OutHistory <+:
      (Lines.foldl (fun H Result => ParseHistoryResults.body bPlatformWindows RunLogCommand
          New Result H)
        H).OutHistory := by
  induction Lines generalizing H with
  | nil => exact List.prefix_refl _
  | cons r rs ih =>
    rw [List.foldl_cons]
    exact (ParseHistoryResults.body_history_prefix bPlatformWindows RunLogCommand New r
        H).trans (ih _)

theorem ParseHistoryResults.foldl_malformed {σ : Type} (bPlatformWindows : Bool)
    (RunLogCommand : σ → FString → FPlasticSourceControlRevision →
      Bool × FPlasticSourceControlRevision × σ)
    (New : FPlasticSourceControlRevision) (Lines : List FString) (H : FHistoryLoop σ)
    (h : H.bResult = false ∨ ∃ Line ∈ Lines, (ParseIntoArray Line [';'] true).length ≠ 2) :
    (Lines.foldl (fun H Result => ParseHistoryResults.body bPlatformWindows RunLogCommand
        New Result H)
      H).bResult = false := by
  induction Lines generalizing H with
  | nil =>
    rcases h with h | ⟨l, hl, _⟩
    · exact h
    · simp at hl
  | cons r rs ih =>
    rw [List.foldl_cons]
    apply ih
    rcases h with h | ⟨l, hl, hbad⟩
    · left
      rw [ParseHistoryResults.body_of_failed bPlatformWindows _ _ _ _ h]
      exact h
    · rcases List.mem_cons.mp hl with rfl | hl
      · left
        unfold ParseHistoryResults.body
        split_ifs with hb
        · split
          · rename_i heq
            rw [heq] at hbad
            simp at hbad
          · rfl
        · simpa using hb
      · by_cases hb : (ParseHistoryResults.body bPlatformWindows RunLogCommand New r
          H).bResult = false
        · exact Or.inl hb
        · exact Or.inr ⟨l, hl, hbad⟩

theorem ParseHistoryResults.body_of_two_fields {σ : Type} (bPlatformWindows : Bool)
    (RunLogCommand : σ → FString → FPlasticSourceControlRevision →
      Bool × FPlasticSourceControlRevision × σ)
    (New : FPlasticSourceControlRevision) (Result Changeset RevisionId : FString)
    (H : FHistoryLoop σ) (hb : H.bResult = true)
    (hsplit : ParseIntoArray Result [';'] true = [Changeset, RevisionId]) :
    ParseHistoryResults.body bPlatformWindows RunLogCommand New Result H
      = { bResult := (RunLogCommand H.Shell Changeset
            { New with
              ChangesetNumber := Atoi bPlatformWindows Changeset
              RevisionNumber := Atoi bPlatformWindows RevisionId
              Revision := RevisionId }).1
          OutHistory := H.OutHistory ++ [(RunLogCommand H.Shell Changeset
            { New with
              ChangesetNumber := Atoi bPlatformWindows Changeset
              RevisionNumber := Atoi bPlatformWindows RevisionId
              Revision := RevisionId }).2.1]
          Shell := (RunLogCommand H.Shell Changeset
            { New with
              ChangesetNumber := Atoi bPlatformWindows Changeset
              RevisionNumber := Atoi bPlatformWindows RevisionId
              Revision := RevisionId }).2.2 } := by
  unfold ParseHistoryResults.body
  rw [if_pos hb, hsplit]

theorem ParseIntoArray.loop_semicolon : ∀ (Str Piece : FString),
    ParseIntoArray.loop [';'] true 0 Piece Str
      = (match semicolonFields Str with
          | [] => [Piece]
          | Field :: Fields => (Piece ++ Field) :: Fields).filter
            (fun Field => !Field.isEmpty) := by
  intro Str
  induction Str with
  | nil =>
    intro Piece
    cases Piece <;> simp [ParseIntoArray.loop, ParseIntoArray.emit, semicolonFields]
  | cons c Rest ih =>
    intro Piece
    rw [ParseIntoArray.loop]
    by_cases hc : c = ';'
    · subst hc
      have hp : ([';'] : FString).isPrefixOf (';' :: Rest) = true := by
        simp [List.isPrefixOf]
      rw [if_pos hp, semicolonFields, if_pos rfl]
      have hl : ([';'] : FString).length - 1 = 0 := rfl
      rw [hl, ih []]
      cases hs : semicolonFields Rest with
      | nil => cases Piece <;> simp [ParseIntoArray.emit]
      | cons F Fs => cases Piece <;> simp [ParseIntoArray.emit]
    · have hp : ¬ (([';'] : FString).isPrefixOf (c :: Rest) = true) := by
        simp [List.isPrefixOf]
        exact fun e => hc e.symm
      rw [if_neg hp, semicolonFields, if_neg hc, ih (Piece ++ [c])]
      cases hs : semicolonFields Rest with
      | nil => simp
      | cons F Fs => simp

/-- The pieces that `ParseIntoArray` gives for the delimiter `;` with its default
`InCullEmpty = true` are the semicolon-delimited fields of the text that are
not empty. -/
theorem ParseIntoArray_semicolon (Str : FString) :
    ParseIntoArray Str [';'] true = nonEmptyFields Str := by
  unfold ParseIntoArray nonEmptyFields
  cases Str with
  | nil => rfl
  | cons c Rest =>
    have h : ((c :: Rest).isEmpty || ([';'] : FString).isEmpty) = false := rfl
    rw [h]
    simp only [Bool.false_eq_true, if_false]
    rw [ParseIntoArray.loop_semicolon]
    cases hs : semicolonFields (c :: Rest) with
    | nil =>
      exfalso
      rw [semicolonFields] at hs
      split_ifs at hs
      split at hs <;> simp at hs
    | cons F Fs => simp

/-- C9 (as stated, refuted): on the lines `14;176`, `17;220`, `18;223`, with a log
lookup that always succeeds and leaves the revision as it is, the history has
the changeset numbers 18, 17, 14 in this order, not 14, 17, 18. -/
theorem C9_counterexample :
    (ParseHistoryResults false (fun (s : Unit) _ r => (true, r, s))
        { ChangesetNumber := 0, RevisionNumber := 0, Revision := [], Filename := []
          Description := [], UserName := [], Action := [], Date := [], BranchSource := none }
        () ["14;176".toList, "17;220".toList, "18;223".toList] []).OutHistory.map
          FPlasticSourceControlRevision.ChangesetNumber = [18, 17, 14] ∧
    (ParseHistoryResults false (fun (s : Unit) _ r => (true, r, s))
        { ChangesetNumber := 0, RevisionNumber := 0, Revision := [], Filename := []
          Description := [], UserName := [], Action := [], Date := [], BranchSource := none }
        () ["14;176".toList, "17;220".toList, "18;223".toList] []).OutHistory.map
          FPlasticSourceControlRevision.ChangesetNumber ≠ [14, 17, 18] := by
  constructor
  · rfl
  · decide

/-- C9 (amended): on the lines `14;176`, `17;220`, `18;223` given in that order,
with every log lookup succeeding (and leaving the changeset number of the
revision as it is), `ParseHistoryResults` returns success and a history of
three revisions whose changeset numbers are, in order, 18, 17, 14: the
reverse of the input order, most recent first. -/
theorem C9_history_most_recent_first {σ : Type} (bPlatformWindows : Bool)
    (RunLogCommand : σ → FString → FPlasticSourceControlRevision →
      Bool × FPlasticSourceControlRevision × σ)
    (New : FPlasticSourceControlRevision) (Shell : σ)
    (hsucc : ∀ s c r, (RunLogCommand s c r).1 = true)
    (hkeep : ∀ s c r, (RunLogCommand s c r).2.1.ChangesetNumber = r.ChangesetNumber) :
    (ParseHistoryResults bPlatformWindows RunLogCommand New Shell
        ["14;176".toList, "17;220".toList, "18;223".toList] []).bResult = true ∧
    (ParseHistoryResults bPlatformWindows RunLogCommand New Shell
        ["14;176".toList, "17;220".toList, "18;223".toList] []).OutHistory.map
          FPlasticSourceControlRevision.ChangesetNumber = [18, 17, 14] := by
  have p1 : ParseIntoArray "14;176".toList [';'] true = ["14".toList, "176".toList] := rfl
  have p2 : ParseIntoArray "17;220".toList [';'] true = ["17".toList, "220".toList] := rfl
  have p3 : ParseIntoArray "18;223".toList [';'] true = ["18".toList, "223".toList] := rfl
  have a1 : Atoi bPlatformWindows "14".toList = 14 := by
    cases bPlatformWindows <;> rfl
  have a2 : Atoi bPlatformWindows "17".toList = 17 := by
    cases bPlatformWindows <;> rfl
  have a3 : Atoi bPlatformWindows "18".toList = 18 := by
    cases bPlatformWindows <;> rfl
  rw [ParseHistoryResults_eq_foldl]
  simp only [List.reverse_cons, List.reverse_nil, List.nil_append, List.cons_append,
    List.foldl_cons, List.foldl_nil]
  rw [ParseHistoryResults.body_of_two_fields bPlatformWindows _ _ _ _ _ _ rfl p3]
  rw [ParseHistoryResults.body_of_two_fields bPlatformWindows _ _ _ _ _ _ (hsucc _ _ _) p2]
  rw [ParseHistoryResults.body_of_two_fields bPlatformWindows _ _ _ _ _ _ (hsucc _ _ _) p1]
  refine ⟨hsucc _ _ _, ?_⟩
  simp only [List.nil_append, List.cons_append, List.map_cons, List.map_nil, hkeep, a1, a2, a3]

/-- Witness of C9 (amended): a log lookup that succeeds and fills in the
description only. -/
theorem C9_history_most_recent_first_witness :
    (ParseHistoryResults false
        (fun (s : Nat) _ r => (true, { r with Description := "log".toList }, s + 1))
        { ChangesetNumber := 0, RevisionNumber := 0, Revision := [], Filename := []
          Description := [], UserName := [], Action := [], Date := [], BranchSource := none }
        0 ["14;176".toList, "17;220".toList, "18;223".toList] []).bResult = true ∧
    (ParseHistoryResults false
        (fun (s : Nat) _ r => (true, { r with Description := "log".toList }, s + 1))
        { ChangesetNumber := 0, RevisionNumber := 0, Revision := [], Filename := []
          Description := [], UserName := [], Action := [], Date := [], BranchSource := none }
        0 ["14;176".toList, "17;220".toList, "18;223".toList] []).OutHistory.map
          FPlasticSourceControlRevision.ChangesetNumber = [18, 17, 14] :=
  C9_history_most_recent_first false
    (fun (s : Nat) _ r => (true, { r with Description := "log".toList }, s + 1))
    { ChangesetNumber := 0, RevisionNumber := 0, Revision := [], Filename := []
      Description := [], UserName := [], Action := [], Date := [], BranchSource := none }
    0 (fun _ _ _ => rfl) (fun _ _ _ => rfl)

/-- C10 (as stated, refuted): each of the lines `14;;176`, `17;220;` and `;18;223`
has 3 semicolon-delimited fields, one of them empty, so none splits into
exactly 2 fields. With a log lookup that always succeeds, `RunGetHistory`
returns success after 3 lookups, with 3 revisions in the history: the empty
fields are dropped before the fields are counted. -/
theorem C10_counterexample :
    semicolonFields "14;;176".toList = ["14".toList, [], "176".toList] ∧
    semicolonFields "17;220;".toList = ["17".toList, "220".toList, []] ∧
    semicolonFields ";18;223".toList = [[], "18".toList, "223".toList] ∧
    (RunGetHistory false
      (fun (s : Nat) _ _ _ =>
        (true, ["14;;176".toList, "17;220;".toList, ";18;223".toList], [], s))
      (fun (s : Nat) _ r => (true, r, s + 1))
      { ChangesetNumber := 0, RevisionNumber := 0, Revision := [], Filename := []
        Description := [], UserName := [], Action := [], Date := [], BranchSource := none }
      0 "Content/A.uasset".toList []).2.bResult = true ∧
    (RunGetHistory false
      (fun (s : Nat) _ _ _ =>
        (true, ["14;;176".toList, "17;220;".toList, ";18;223".toList], [], s))
      (fun (s : Nat) _ r => (true, r, s + 1))
      { ChangesetNumber := 0, RevisionNumber := 0, Revision := [], Filename := []
        Description := [], UserName := [], Action := [], Date := [], BranchSource := none }
      0 "Content/A.uasset".toList []).2.Shell = 3 ∧
    (RunGetHistory false
      (fun (s : Nat) _ _ _ =>
        (true, ["14;;176".toList, "17;220;".toList, ";18;223".toList], [], s))
      (fun (s : Nat) _ r => (true, r, s + 1))
      { ChangesetNumber := 0, RevisionNumber := 0, Revision := [], Filename := []
        Description := [], UserName := [], Action := [], Date := [], BranchSource := none }
      0 "Content/A.uasset".toList []).2.OutHistory.map
        (fun r => (r.ChangesetNumber, r.RevisionNumber, r.Revision))
      = [(18, 223, "223".toList), (17, 220, "220".toList), (14, 176, "176".toList)] := by
  refine ⟨?_, ?_, ?_, ?_, ?_, ?_⟩ <;> rfl

/-- C10 (amended): fields are counted after the empty ones are dropped. When the
history command returned the lines `earlier ++ Line :: later`, the lines after
`Line` were all processed with success, and `Line` fails (its non-empty
semicolon-delimited fields are not exactly 2, or they are 2 and its log lookup
fails), then `RunGetHistory` returns failure, and what it returns is exactly
the state reached right after `Line` : the lines processed after the failure
(`earlier`) cause no lookup (the shell state is untouched) and append nothing,
and every revision appended before is still in the history, in order.
Moreover any list of lines containing a line whose non-empty fields are not
exactly 2 makes `ParseHistoryResults` return failure. -/
theorem C10_history_fails_and_stops {σ : Type} (bPlatformWindows : Bool)
    (RunCommand : σ → FString → List FString → List FString →
      Bool × List FString × List FString × σ)
    (RunLogCommand : σ → FString → FPlasticSourceControlRevision →
      Bool × FPlasticSourceControlRevision × σ)
    (New : FPlasticSourceControlRevision) (Shell0 Shell : σ) (InFile : FString)
    (OutHistory : List FPlasticSourceControlRevision) (Errors : List FString)
    (earlier later : List FString) (Line : FString)
    (hrun : RunCommand Shell0 "history".toList RunGetHistory.Parameters [InFile]
      = (true, earlier ++ Line :: later, Errors, Shell))
    (hlater : (ParseHistoryResults bPlatformWindows RunLogCommand New Shell later
      OutHistory).bResult = true)
    (hfail : (nonEmptyFields Line).length ≠ 2 ∨
      ∃ Changeset RevisionId, nonEmptyFields Line = [Changeset, RevisionId] ∧
        (RunLogCommand
          (ParseHistoryResults bPlatformWindows RunLogCommand New Shell later OutHistory).Shell
          Changeset
          { New with
            ChangesetNumber := Atoi bPlatformWindows Changeset
            RevisionNumber := Atoi bPlatformWindows RevisionId
            Revision := RevisionId }).1 = false) :
    (RunGetHistory bPlatformWindows RunCommand RunLogCommand New Shell0 InFile
      OutHistory).2.bResult = false ∧
    (RunGetHistory bPlatformWindows RunCommand RunLogCommand New Shell0 InFile OutHistory).2
      = ParseHistoryResults.body bPlatformWindows RunLogCommand New Line
          (ParseHistoryResults bPlatformWindows RunLogCommand New Shell later OutHistory) ∧
    (ParseHistoryResults bPlatformWindows RunLogCommand New Shell later OutHistory).OutHistory
      <+: (RunGetHistory bPlatformWindows RunCommand RunLogCommand New Shell0 InFile
        OutHistory).2.OutHistory ∧
    OutHistory <+:
      (ParseHistoryResults bPlatformWindows RunLogCommand New Shell later
        OutHistory).OutHistory ∧
    (∀ (Lines : List FString) (Sh : σ) (H0 : List FPlasticSourceControlRevision),
      (∃ l ∈ Lines, (nonEmptyFields l).length ≠ 2) →
      (ParseHistoryResults bPlatformWindows RunLogCommand New Sh Lines H0).bResult = false) := by
  simp only [← ParseIntoArray_semicolon] at hfail
  have hbody : (ParseHistoryResults.body bPlatformWindows RunLogCommand New Line
      (ParseHistoryResults bPlatformWindows RunLogCommand New Shell later
        OutHistory)).bResult = false := by
    rcases hfail with hbad | ⟨c, r, hsplit, hlog⟩
    · unfold ParseHistoryResults.body
      rw [if_pos hlater]
      split
      · rename_i heq
        rw [heq] at hbad
        simp at hbad
      · rfl
    · rw [ParseHistoryResults.body_of_two_fields bPlatformWindows _ _ _ _ _ _ hlater hsplit]
      exact hlog
  have hout : (RunGetHistory bPlatformWindows RunCommand RunLogCommand New Shell0 InFile
      OutHistory).2
      = ParseHistoryResults.body bPlatformWindows RunLogCommand New Line
          (ParseHistoryResults bPlatformWindows RunLogCommand New Shell later OutHistory) := by
    unfold RunGetHistory
    simp only [hrun, if_true]
    rw [ParseHistoryResults_eq_foldl, ParseHistoryResults_eq_foldl]
    simp only [List.reverse_append, List.reverse_cons, List.foldl_append, List.foldl_cons,
      List.foldl_nil, List.append_assoc, List.singleton_append]
    rw [ParseHistoryResults_eq_foldl] at hbody
    exact ParseHistoryResults.foldl_of_failed bPlatformWindows _ _ _ _ hbody
  refine ⟨?_, hout, ?_, ?_, ?_⟩
  · rw [hout]
    exact hbody
  · rw [hout]
    exact ParseHistoryResults.body_history_prefix bPlatformWindows _ _ _ _
  · rw [ParseHistoryResults_eq_foldl]
    exact ParseHistoryResults.foldl_history_prefix bPlatformWindows RunLogCommand New
      later.reverse { bResult := true, OutHistory := OutHistory, Shell := Shell }
  · intro Lines Sh H0 ⟨l, hl, hbad⟩
    rw [← ParseIntoArray_semicolon] at hbad
    rw [ParseHistoryResults_eq_foldl]
    exact ParseHistoryResults.foldl_malformed bPlatformWindows _ _ _ _
      (Or.inr ⟨l, List.mem_reverse.mpr hl, hbad⟩)

/-- Witness of C10 (amended): the lines `14;176`, `17;220`, `18;223` with a log
lookup that fails on changeset 17; the shell state counts the lookups. The
fetch fails after two lookups, with the revisions of the changesets 18 and 17
in the history: the line `14;176`, visited after the failure, is neither looked
up nor appended. -/
theorem C10_history_fails_and_stops_witness :
    (RunGetHistory false
      (fun (s : Nat) _ _ _ =>
        (true, ["14;176".toList, "17;220".toList, "18;223".toList], [], s))
      (fun (s : Nat) c r => (!(c == "17".toList), r, s + 1))
      { ChangesetNumber := 0, RevisionNumber := 0, Revision := [], Filename := []
        Description := [], UserName := [], Action := [], Date := [], BranchSource := none }
      0 "Content/A.uasset".toList []).2.bResult = false ∧
    (RunGetHistory false
      (fun (s : Nat) _ _ _ =>
        (true, ["14;176".toList, "17;220".toList, "18;223".toList], [], s))
      (fun (s : Nat) c r => (!(c == "17".toList), r, s + 1))
      { ChangesetNumber := 0, RevisionNumber := 0, Revision := [], Filename := []
        Description := [], UserName := [], Action := [], Date := [], BranchSource := none }
      0 "Content/A.uasset".toList []).2.Shell = 2 ∧
    (RunGetHistory false
      (fun (s : Nat) _ _ _ =>
        (true, ["14;176".toList, "17;220".toList, "18;223".toList], [], s))
      (fun (s : Nat) c r => (!(c == "17".toList), r, s + 1))
      { ChangesetNumber := 0, RevisionNumber := 0, Revision := [], Filename := []
        Description := [], UserName := [], Action := [], Date := [], BranchSource := none }
      0 "Content/A.uasset".toList []).2.OutHistory.map
        FPlasticSourceControlRevision.ChangesetNumber = [18, 17] := by
  have h := C10_history_fails_and_stops false
    (fun (s : Nat) _ _ _ =>
      (true, ["14;176".toList, "17;220".toList, "18;223".toList], [], s))
    (fun (s : Nat) c r => (!(c == "17".toList), r, s + 1))
    { ChangesetNumber := 0, RevisionNumber := 0, Revision := [], Filename := []
      Description := [], UserName := [], Action := [], Date := [], BranchSource := none }
    0 0 "Content/A.uasset".toList [] [] ["14;176".toList] ["18;223".toList] "17;220".toList
    rfl rfl (Or.inr ⟨"17".toList, "220".toList, rfl, rfl⟩)
  refine ⟨h.1, ?_, ?_⟩
  · rw [h.2.1]
    rfl
  · rw [h.2.1]
    rfl

/-! ### Workspace root -/

theorem FindLastChar.scan_lt (Str : FString) (InChar : Char) (i : Nat) :
    ∀ n, FindLastChar.scan Str InChar n = some i → i < n := by
  intro n
  induction n with
  | zero => intro h; simp [FindLastChar.scan] at h
  | succ n ih =>
    intro h
    rw [FindLastChar.scan] at h
    split_ifs at h
    · have e : n = i := by simpa using h
      omega
    · exact Nat.lt_succ_of_lt (ih h)

theorem FindRootDirectory.loop_examined (DirectoryExists : FString → Bool) :
    ∀ (Fuel : Nat) (Root : FString) (Examined : List FString),
      FindRootDirectory.loop DirectoryExists Fuel Root Examined
        = (FindRootDirectory.loop DirectoryExists Fuel Root []).map
            (fun R => { R with Examined := Examined ++ R.Examined }) := by
  intro Fuel
  induction Fuel with
  | zero => intro Root Examined; rfl
  | succ Fuel ih =>
    intro Root Examined
    simp only [FindRootDirectory.loop]
    split_ifs
    · simp
    · simp
    · split
      · rw [ih _ (Examined ++ [Root]), ih _ ([] ++ [Root])]
        cases FindRootDirectory.loop DirectoryExists Fuel _ [] <;> simp
      · rw [ih _ (Examined ++ [Root]), ih _ ([] ++ [Root])]
        cases FindRootDirectory.loop DirectoryExists Fuel _ [] <;> simp

/-- The loop of `FindRootDirectory` ends within the fuel given, tests directories
of strictly decreasing length, and finds exactly when one of them holds the
marker subdirectory. -/
theorem FindRootDirectory.loop_spec (DirectoryExists : FString → Bool) :
    ∀ (Fuel : Nat) (Root : FString), Root.length < Fuel →
      ∃ R, FindRootDirectory.loop DirectoryExists Fuel Root [] = some R ∧
        (∀ d ∈ R.Examined, d.length ≤ Root.length) ∧
        R.Examined.Pairwise (fun a b => b.length < a.length) ∧
        (R.bFound = true ↔
          ∃ d ∈ R.Examined, DirectoryExists (PathAppend d PlasticSubdirectory) = true) ∧
        (R.bFound = true → R.OutWorkspaceRoot ∈ R.Examined ∧
          DirectoryExists (PathAppend R.OutWorkspaceRoot PlasticSubdirectory) = true) := by
  intro Fuel
  induction Fuel with
  | zero => intro Root h; omega
  | succ Fuel ih =>
    intro Root hlen
    by_cases hempty : Root.isEmpty = true
    · refine ⟨{ bFound := false, OutWorkspaceRoot := Root, Examined := [] }, ?_, ?_, ?_, ?_, ?_⟩
      · simp [FindRootDirectory.loop, hempty]
      · simp
      · simp
      · simp
      · simp
    · by_cases hdir : DirectoryExists (PathAppend Root PlasticSubdirectory) = true
      · refine ⟨{ bFound := true, OutWorkspaceRoot := Root, Examined := [Root] },
          ?_, ?_, ?_, ?_, ?_⟩
        · simp [FindRootDirectory.loop, hempty, hdir]
        · simp
        · simp
        · simp [hdir]
        · simp [hdir]
      · have hpos : 0 < Root.length := by
          cases Root with
          | nil => simp at hempty
          | cons c t => simp
        have hnext : ∃ Next : FString, Next.length < Root.length ∧
            FindRootDirectory.loop DirectoryExists (Fuel + 1) Root []
              = FindRootDirectory.loop DirectoryExists Fuel Next [Root] := by
          cases hslash : FindLastChar Root '/' with
          | none =>
            exact ⟨[], hpos, by simp [FindRootDirectory.loop, hempty, hdir, hslash]⟩
          | some idx =>
            have hidx : idx < Root.length := FindLastChar.scan_lt Root '/' idx _ hslash
            refine ⟨Left Root idx, ?_, by simp [FindRootDirectory.loop, hempty, hdir, hslash]⟩
            simp only [Left, List.length_take]
            omega
        obtain ⟨Next, hNext, hloop⟩ := hnext
        obtain ⟨R, hR, hle, hpair, hiff, hfound⟩ := ih Next (by omega)
        refine ⟨{ R with Examined := [Root] ++ R.Examined }, ?_, ?_, ?_, ?_, ?_⟩
        · rw [hloop, FindRootDirectory.loop_examined, hR]
          rfl
        · intro d hd
          rcases List.mem_append.mp hd with h | h
          · have e : d = Root := by simpa using h
            rw [e]
          · exact Nat.le_of_lt (Nat.lt_of_le_of_lt (hle d h) hNext)
        · show ([Root] ++ R.Examined).Pairwise (fun a b => b.length < a.length)
          rw [List.singleton_append, List.pairwise_cons]
          exact ⟨fun b hb => Nat.lt_of_le_of_lt (hle b hb) hNext, hpair⟩
        · show R.bFound = true ↔
            ∃ d ∈ [Root] ++ R.Examined, DirectoryExists (PathAppend d PlasticSubdirectory) = true
          rw [hiff]
          constructor
          · rintro ⟨d, hd, hD⟩
            exact ⟨d, List.mem_append_right _ hd, hD⟩
          · rintro ⟨d, hd, hD⟩
            rcases List.mem_append.mp hd with h | h
            · have e : d = Root := by simpa using h
              rw [e] at hD
              exact absurd hD hdir
            · exact ⟨d, h, hD⟩
        · intro hb
          obtain ⟨h1, h2⟩ := hfound hb
          exact ⟨List.mem_append_right _ h1, h2⟩

/-- C11 (failing input): for the start path `/Game`, when the file system holds
`/.plastic` and no other directory, the start directory does not contain the
marker and its ancestor `/` does; `FindRootDirectory` tests `/Game` only,
reports not found and returns `/Game` : the path left of the slash at index 0
is empty, which ends the loop before the root directory is tested. -/
theorem C11_root_directory_not_examined :
    FindRootDirectory (fun p => p == "/.plastic".toList) "/Game".toList
      = some { bFound := false, OutWorkspaceRoot := "/Game".toList
               Examined := ["/Game".toList] } ∧
    (fun p => p == "/.plastic".toList) (PathAppend "/Game".toList PlasticSubdirectory) = false ∧
    (fun p => p == "/.plastic".toList) (PathAppend "/".toList PlasticSubdirectory) = true := by
  refine ⟨?_, ?_, ?_⟩ <;> rfl

/-- C12: for every start path and every state of the file system, the upward
search of `FindRootDirectory` ends (the iterations allowed suffice), each
directory it tests is strictly shorter than the one tested before, and when
none of the tested directories contains the marker subdirectory it reports
not found and returns exactly the input path. -/
theorem C12_root_search_terminates (DirectoryExists : FString → Bool) (InPath : FString) :
    ∃ R, FindRootDirectory DirectoryExists InPath = some R ∧
      R.Examined.Chain' (fun a b => b.length < a.length) ∧
      ((∀ d ∈ R.Examined, DirectoryExists (PathAppend d PlasticSubdirectory) = false) →
        R.bFound = false ∧ R.OutWorkspaceRoot = InPath) := by
  obtain ⟨R, hR, _, hpair, hiff, _⟩ := FindRootDirectory.loop_spec DirectoryExists
    ((TrimTrailing (TrimTrailing InPath '\\') '/').length + 1)
    (TrimTrailing (TrimTrailing InPath '\\') '/') (Nat.lt_succ_self _)
  by_cases hb : R.bFound = true
  · refine ⟨R, ?_, hpair.chain', ?_⟩
    · simp [FindRootDirectory, hR, hb]
    · intro hnone
      obtain ⟨d, hd, hD⟩ := hiff.mp hb
      rw [hnone d hd] at hD
      exact absurd hD (by decide)
  · have hb2 : R.bFound = false := by simpa using hb
    refine ⟨{ R with OutWorkspaceRoot := InPath }, ?_, hpair.chain', ?_⟩
    · simp [FindRootDirectory, hR, hb2]
    · intro _
      exact ⟨hb2, rfl⟩

/-! ### Redundant errors -/

theorem FindFromEnd.scan_isSome (Str SubStr : FString) (i : Nat)
    (hi : SubStr.isPrefixOf (Str.drop i) = true) :
    ∀ k, i ≤ k → (FindFromEnd.scan Str SubStr k).isSome = true := by
  intro k
  induction k with
  | zero =>
    intro hik
    have h0 : i = 0 := Nat.le_zero.mp hik
    subst h0
    rw [FindFromEnd.scan, hi]
    rfl
  | succ k ih =>
    intro hik
    rw [FindFromEnd.scan]
    split_ifs with hp
    · rfl
    · have hne : i ≠ k + 1 := fun e => hp (e ▸ hi)
      exact ih (by omega)

theorem FindFromEnd_complete (Str SubStr : FString) (hne : SubStr ≠ [])
    (h : SubStr <:+: Str) : (FindFromEnd Str SubStr).isSome = true := by
  obtain ⟨s, t, hst⟩ := h
  have hpos : 0 < SubStr.length := List.length_pos.mpr hne
  have hlen : Str.length = s.length + SubStr.length + t.length := by
    rw [← hst]
    simp only [List.length_append]
  have hmax : max 1 SubStr.length = SubStr.length := Nat.max_eq_right hpos
  unfold FindFromEnd
  dsimp only
  rw [hmax, if_pos (by omega)]
  apply FindFromEnd.scan_isSome Str SubStr s.length
  · rw [List.isPrefixOf_iff_prefix, ← hst, List.append_assoc, List.drop_left]
    exact List.prefix_append _ _
  · omega

theorem Strstr_complete (Find : FString) :
    ∀ (s Str t : FString), s ++ Find ++ t = Str → (Strstr Find Str).isSome = true := by
  intro s
  induction s with
  | nil =>
    intro Str t h
    have hp : Find.isPrefixOf Str = true := by
      rw [List.isPrefixOf_iff_prefix, ← h]
      exact List.prefix_append _ _
    cases Str with
    | nil => rw [Strstr, if_pos hp]; rfl
    | cons c Str => rw [Strstr, if_pos hp]; rfl
  | cons c s ih =>
    intro Str t h
    cases Str with
    | nil => simp at h
    | cons d Str =>
      have hrest : s ++ Find ++ t = Str := by
        simp only [List.cons_append] at h
        exact (List.cons.inj h).2
      rw [Strstr]
      split_ifs
      · rfl
      · have := ih Str t hrest
        cases hs : Strstr Find Str with
        | none => rw [hs] at this; simp at this
        | some v => rfl

theorem Contains_of_occurrence (Str SubStr : FString) (hne : SubStr ≠ []) (h : SubStr <:+: Str) :
    Contains Str SubStr ESearchCase.CaseSensitive ESearchDir.FromEnd = true ∧
      Contains Str SubStr ESearchCase.IgnoreCase ESearchDir.FromStart = true := by
  constructor
  · exact FindFromEnd_complete Str SubStr hne h
  · obtain ⟨s, t, hst⟩ := h
    have hempty : SubStr.isEmpty = false := by
      cases SubStr with
      | nil => exact absurd rfl hne
      | cons c l => rfl
    show (Stristr Str SubStr).isSome = true
    unfold Stristr
    rw [hempty]
    exact Strstr_complete _ (s.map Char.toUpper) _ (t.map Char.toUpper)
      (by rw [← hst]; simp)

theorem RemoveRedundantErrors.foldl_all (InFilter : FString) :
    ∀ (Messages : List FString) (Acc : List FString × Bool),
      (∀ m ∈ Messages,
        Contains m InFilter ESearchCase.CaseSensitive ESearchDir.FromEnd = true) →
      Messages.foldl (RemoveRedundantErrors.body InFilter) Acc
        = (Acc.1 ++ Messages, Acc.2 || !Messages.isEmpty) := by
  intro Messages
  induction Messages with
  | nil => intro Acc _; simp
  | cons m rest ih =>
    intro Acc h
    have hm := h m (List.mem_cons_self _ _)
    rw [List.foldl_cons, RemoveRedundantErrors.body, if_pos hm,
      ih _ (fun x hx => h x (List.mem_cons_of_mem _ hx))]
    simp

/-- C13 (as stated, refuted): a failed command without any error message. Every
error message contains the filter, there being none, and after
`RemoveRedundantErrors` the error list is empty, yet the success flag is still
false: the flag is only set when a redundant error was found. -/
theorem C13_counterexample :
    (∀ m ∈ ({ bCommandSuccessful := false, ErrorMessages := [], InfoMessages := [] } :
        FPlasticSourceControlCommand).ErrorMessages, "error".toList <:+: m) ∧
    RemoveRedundantErrors
        { bCommandSuccessful := false, ErrorMessages := [], InfoMessages := [] }
        "error".toList
      = { bCommandSuccessful := false, ErrorMessages := [], InfoMessages := [] } := by
  constructor
  · intro m hm
    simp at hm
  · rfl

/-- C13 (amended): for every command that has at least one error message and
every non-empty filter such that the filter occurs, letter case included, in
every error message of the command, `RemoveRedundantErrors` leaves the error
list empty and the success flag true, and the info list is the previous one
followed by the error messages in their order. -/
theorem C13_all_errors_redundant (InCommand : FPlasticSourceControlCommand)
    (InFilter : FString) (hsome : InCommand.ErrorMessages ≠ []) (hfilter : InFilter ≠ [])
    (hall : ∀ m ∈ InCommand.ErrorMessages, InFilter <:+: m) :
    (RemoveRedundantErrors InCommand InFilter).ErrorMessages = [] ∧
    (RemoveRedundantErrors InCommand InFilter).bCommandSuccessful = true ∧
    (RemoveRedundantErrors InCommand InFilter).InfoMessages
      = InCommand.InfoMessages ++ InCommand.ErrorMessages := by
  have hloop := RemoveRedundantErrors.foldl_all InFilter InCommand.ErrorMessages
    (InCommand.InfoMessages, false)
    (fun m hm => (Contains_of_occurrence m InFilter hfilter (hall m hm)).1)
  have hfilt : InCommand.ErrorMessages.filter
      (fun String => !(FRemoveRedundantErrors InFilter String)) = [] := by
    rw [List.filter_eq_nil_iff]
    intro m hm
    simp [FRemoveRedundantErrors, (Contains_of_occurrence m InFilter hfilter (hall m hm)).2]
  have hnonempty : InCommand.ErrorMessages.isEmpty = false := by
    cases h : InCommand.ErrorMessages with
    | nil => exact absurd h hsome
    | cons c l => rfl
  unfold RemoveRedundantErrors
  simp only [hloop, hfilt, hnonempty]
  cases hb : InCommand.bCommandSuccessful <;> simp

/-- Witness of C13 (amended): two error messages that both contain the filter. -/
theorem C13_all_errors_redundant_witness :
    (RemoveRedundantErrors
      { bCommandSuccessful := false
        ErrorMessages := ["file is not in a workspace".toList,
          "a.txt is not in a workspace.".toList]
        InfoMessages := ["note".toList] }
      "is not in a workspace".toList).ErrorMessages = [] ∧
    (RemoveRedundantErrors
      { bCommandSuccessful := false
        ErrorMessages := ["file is not in a workspace".toList,
          "a.txt is not in a workspace.".toList]
        InfoMessages := ["note".toList] }
      "is not in a workspace".toList).bCommandSuccessful = true ∧
    (RemoveRedundantErrors
      { bCommandSuccessful := false
        ErrorMessages := ["file is not in a workspace".toList,
          "a.txt is not in a workspace.".toList]
        InfoMessages := ["note".toList] }
      "is not in a workspace".toList).InfoMessages
      = ["note".toList] ++ ["file is not in a workspace".toList,
          "a.txt is not in a workspace.".toList] :=
  C13_all_errors_redundant
    { bCommandSuccessful := false
      ErrorMessages := ["file is not in a workspace".toList,
        "a.txt is not in a workspace.".toList]
      InfoMessages := ["note".toList] }
    "is not in a workspace".toList (by decide) (by decide)
    (by
      intro m hm
      simp only [List.mem_cons, List.mem_singleton, List.not_mem_nil, or_false] at hm
      rcases hm with rfl | rfl
      · exact ⟨"file ".toList, [], rfl⟩
      · exact ⟨"a.txt ".toList, ".".toList, rfl⟩)

/-- C14 (failing input): the error messages `fatal ERROR` and `other problem`,
the info message `note`, the filter `error`. The second message does not
contain the filter. After `RemoveRedundantErrors` the error list holds
`other problem` only and the info list holds `note` only: the message
`fatal ERROR` is removed from the errors by the search that ignores case, and
is not added to the infos by the search that respects case, so it is in
neither list. -/
theorem C14_message_in_neither_list :
    RemoveRedundantErrors
        { bCommandSuccessful := false
          ErrorMessages := ["fatal ERROR".toList, "other problem".toList]
          InfoMessages := ["note".toList] }
        "error".toList
      = { bCommandSuccessful := false
          ErrorMessages := ["other problem".toList]
          InfoMessages := ["note".toList] } ∧
    Contains "other problem".toList "error".toList
      ESearchCase.IgnoreCase ESearchDir.FromStart = false ∧
    Contains "other problem".toList "error".toList
      ESearchCase.CaseSensitive ESearchDir.FromEnd = false ∧
    Contains "fatal ERROR".toList "error".toList
      ESearchCase.IgnoreCase ESearchDir.FromStart = true ∧
    Contains "fatal ERROR".toList "error".toList
      ESearchCase.CaseSensitive ESearchDir.FromEnd = false := by
  refine ⟨?_, ?_, ?_, ?_, ?_⟩ <;> rfl

/-! ### State cache -/

theorem UpdateCachedStates.body_count (NewState : FString → FPlasticSourceControlState)
    (U : FCacheUpdate) (InState : FPlasticSourceControlState) :
    (UpdateCachedStates.body NewState U InState).NbStatesUpdated
      = U.NbStatesUpdated +
        (if (GetStateInternal NewState U.StateCache InState.LocalFilename).1.WorkspaceState
            ≠ InState.WorkspaceState then 1 else 0) := by
  unfold UpdateCachedStates.body
  dsimp only
  split_ifs <;> rfl

theorem UpdateCachedStates.body_cache_of_same
    (NewState : FString → FPlasticSourceControlState)
    (U : FCacheUpdate) (InState : FPlasticSourceControlState)
    (h : (GetStateInternal NewState U.StateCache InState.LocalFilename).1.WorkspaceState
      = InState.WorkspaceState) :
    (UpdateCachedStates.body NewState U InState).StateCache
      = (GetStateInternal NewState U.StateCache InState.LocalFilename).2 := by
  unfold UpdateCachedStates.body
  dsimp only
  rw [if_neg (not_not.mpr h)]

theorem UpdateCachedStates.body_cache_of_differs
    (NewState : FString → FPlasticSourceControlState)
    (U : FCacheUpdate) (InState : FPlasticSourceControlState)
    (h : (GetStateInternal NewState U.StateCache InState.LocalFilename).1.WorkspaceState
      ≠ InState.WorkspaceState) :
    (UpdateCachedStates.body NewState U InState).StateCache
      = Function.update (GetStateInternal NewState U.StateCache InState.LocalFilename).2
          (CacheKey InState.LocalFilename)
          (some { (GetStateInternal NewState U.StateCache InState.LocalFilename).1 with
            WorkspaceState := InState.WorkspaceState
            PendingMergeBaseFileHash := InState.PendingMergeBaseFileHash
            TimeStamp := InState.TimeStamp }) := by
  unfold UpdateCachedStates.body
  dsimp only
  rw [if_pos h]

theorem UpdateCachedStates.foldl_count_le (NewState : FString → FPlasticSourceControlState) :
    ∀ (InStates : List FPlasticSourceControlState) (U : FCacheUpdate),
      U.NbStatesUpdated
        ≤ (InStates.foldl (UpdateCachedStates.body NewState) U).NbStatesUpdated := by
  intro InStates
  induction InStates with
  | nil => intro U; exact Nat.le_refl _
  | cons x rest ih =>
    intro U
    rw [List.foldl_cons]
    refine Nat.le_trans ?_ (ih _)
    rw [UpdateCachedStates.body_count]
    exact Nat.le_add_right _ _

/-- The counter of `UpdateCachedStates` grows exactly when some visit finds a
cached workspace state that differs from the new one. -/
theorem UpdateCachedStates.foldl_count (NewState : FString → FPlasticSourceControlState) :
    ∀ (InStates : List FPlasticSourceControlState) (U : FCacheUpdate),
      U.NbStatesUpdated
          < (InStates.foldl (UpdateCachedStates.body NewState) U).NbStatesUpdated ↔
        ∃ Pre InState Post, InStates = Pre ++ InState :: Post ∧
          (GetStateInternal NewState
              (Pre.foldl (UpdateCachedStates.body NewState) U).StateCache
              InState.LocalFilename).1.WorkspaceState ≠ InState.WorkspaceState := by
  intro InStates
  induction InStates with
  | nil =>
    intro U
    constructor
    · intro h
      exact absurd h (Nat.lt_irrefl _)
    · rintro ⟨Pre, x, Post, h, _⟩
      cases Pre <;> simp at h
  | cons x rest ih =>
    intro U
    rw [List.foldl_cons]
    constructor
    · intro h
      by_cases hd : (GetStateInternal NewState U.StateCache
          x.LocalFilename).1.WorkspaceState ≠ x.WorkspaceState
      · exact ⟨[], x, rest, rfl, hd⟩
      · have hsame : (UpdateCachedStates.body NewState U x).NbStatesUpdated
            = U.NbStatesUpdated := by
          rw [UpdateCachedStates.body_count, if_neg hd]
          rfl
        rw [← hsame] at h
        obtain ⟨Pre, y, Post, hsplit, hy⟩ := (ih _).mp h
        exact ⟨x :: Pre, y, Post, by rw [hsplit]; rfl, hy⟩
    · rintro ⟨Pre, y, Post, hsplit, hy⟩
      cases Pre with
      | nil =>
        have hx : x = y := (List.cons.inj hsplit).1
        subst hx
        have hy2 : (GetStateInternal NewState U.StateCache
            x.LocalFilename).1.WorkspaceState ≠ x.WorkspaceState := hy
        have hstep : (UpdateCachedStates.body NewState U x).NbStatesUpdated
            = U.NbStatesUpdated + 1 := by
          rw [UpdateCachedStates.body_count, if_pos hy2]
        have := UpdateCachedStates.foldl_count_le NewState rest
          (UpdateCachedStates.body NewState U x)
        omega
      | cons z Pre =>
        have hz : x = z := (List.cons.inj hsplit).1
        have hrest : rest = Pre ++ y :: Post := (List.cons.inj hsplit).2
        subst hz
        have h1 := (ih (UpdateCachedStates.body NewState U x)).mpr ⟨Pre, y, Post, hrest, hy⟩
        have h2 : U.NbStatesUpdated
            ≤ (UpdateCachedStates.body NewState U x).NbStatesUpdated := by
          rw [UpdateCachedStates.body_count]
          exact Nat.le_add_right _ _
        omega

/-- One visit of `UpdateCachedStates` keeps every entry of the cache, with its
file name, changeset numbers, lock owner and lock location, and leaves the
keys other than the one visited as they are. -/
theorem UpdateCachedStates.body_frame (NewState : FString → FPlasticSourceControlState)
    (U : FCacheUpdate) (InState : FPlasticSourceControlState) :
    (∀ Key S, U.StateCache Key = some S →
      ∃ T, (UpdateCachedStates.body NewState U InState).StateCache Key = some T ∧
        T.LocalFilename = S.LocalFilename ∧
        T.LocalRevisionChangeset = S.LocalRevisionChangeset ∧
        T.DepotRevisionChangeset = S.DepotRevisionChangeset ∧
        T.LockedBy = S.LockedBy ∧ T.LockedWhere = S.LockedWhere) ∧
    (∀ Key, Key ≠ CacheKey InState.LocalFilename →
      (UpdateCachedStates.body NewState U InState).StateCache Key = U.StateCache Key) := by
  constructor
  · intro Key S hS
    unfold UpdateCachedStates.body GetStateInternal
    dsimp only
    by_cases hk : Key = CacheKey InState.LocalFilename
    · subst hk
      rw [hS]
      dsimp only
      split_ifs
      · exact ⟨_, Function.update_same _ _ _, rfl, rfl, rfl, rfl, rfl⟩
      · exact ⟨S, hS, rfl, rfl, rfl, rfl, rfl⟩
    · cases hc : U.StateCache (CacheKey InState.LocalFilename) with
      | some C =>
        dsimp only
        split_ifs
        · exact ⟨S, by dsimp only; rw [Function.update_noteq hk]; exact hS, rfl, rfl, rfl, rfl, rfl⟩
        · exact ⟨S, hS, rfl, rfl, rfl, rfl, rfl⟩
      | none =>
        dsimp only
        split_ifs
        · exact ⟨S, by dsimp only; rw [Function.update_noteq hk, Function.update_noteq hk]; exact hS,
            rfl, rfl, rfl, rfl, rfl⟩
        · exact ⟨S, by dsimp only; rw [Function.update_noteq hk]; exact hS, rfl, rfl, rfl, rfl, rfl⟩
  · intro Key hk
    unfold UpdateCachedStates.body GetStateInternal
    dsimp only
    cases hc : U.StateCache (CacheKey InState.LocalFilename) with
    | some C =>
      dsimp only
      split_ifs
      · dsimp only; rw [Function.update_noteq hk]
      · rfl
    | none =>
      dsimp only
      split_ifs
      · dsimp only; rw [Function.update_noteq hk, Function.update_noteq hk]
      · dsimp only; rw [Function.update_noteq hk]

theorem UpdateCachedStates.foldl_frame (NewState : FString → FPlasticSourceControlState) :
    ∀ (InStates : List FPlasticSourceControlState) (U : FCacheUpdate),
      (∀ Key S, U.StateCache Key = some S →
        ∃ T, (InStates.foldl (UpdateCachedStates.body NewState) U).StateCache Key = some T ∧
          T.LocalFilename = S.LocalFilename ∧
          T.LocalRevisionChangeset = S.LocalRevisionChangeset ∧
          T.DepotRevisionChangeset = S.DepotRevisionChangeset ∧
          T.LockedBy = S.LockedBy ∧ T.LockedWhere = S.LockedWhere) ∧
      (∀ Key, (∀ InState ∈ InStates, Key ≠ CacheKey InState.LocalFilename) →
        (InStates.foldl (UpdateCachedStates.body NewState) U).StateCache Key
          = U.StateCache Key) := by
  intro InStates
  induction InStates with
  | nil =>
    intro U
    exact ⟨fun Key S hS => ⟨S, hS, rfl, rfl, rfl, rfl, rfl⟩, fun _ _ => rfl⟩
  | cons x rest ih =>
    intro U
    rw [List.foldl_cons]
    obtain ⟨hb1, hb2⟩ := UpdateCachedStates.body_frame NewState U x
    obtain ⟨hi1, hi2⟩ := ih (UpdateCachedStates.body NewState U x)
    constructor
    · intro Key S hS
      obtain ⟨T, hT, t1, t2, t3, t4, t5⟩ := hb1 Key S hS
      obtain ⟨T2, hT2, u1, u2, u3, u4, u5⟩ := hi1 Key T hT
      exact ⟨T2, hT2, u1.trans t1, u2.trans t2, u3.trans t3, u4.trans t4, u5.trans t5⟩
    · intro Key hKey
      rw [hi2 Key (fun y hy => hKey y (List.mem_cons_of_mem _ hy)),
        hb2 Key (hKey x (List.mem_cons_self _ _))]

/-- C15: for every cache and every list of new states, `UpdateCachedStates`
returns true exactly when some visit finds, for the path of its new state, a
cached workspace state that differs from the new one (the cache being the one
left by the visits before, a missing entry being created first). A visit
that finds the same workspace state leaves the cache as the look-up gave it,
so the entry is untouched; a visit that finds a different one replaces the
entry by itself with the new workspace state, merge-base hash and timestamp,
all its other fields kept. Every entry of the cache is still there at the
end with the same file name, changeset numbers, lock owner and lock location,
and a key that is the path of no new state holds what it held. -/
theorem C15_update_cached_states (NewState : FString → FPlasticSourceControlState)
    (StateCache : FStateCache) (InStates : List FPlasticSourceControlState) :
    ((UpdateCachedStates NewState StateCache InStates).1 = true ↔
      ∃ Pre InState Post, InStates = Pre ++ InState :: Post ∧
        (GetStateInternal NewState (UpdateCachedStates NewState StateCache Pre).2
          InState.LocalFilename).1.WorkspaceState ≠ InState.WorkspaceState) ∧
    (∀ Pre InState,
      ((GetStateInternal NewState (UpdateCachedStates NewState StateCache Pre).2
          InState.LocalFilename).1.WorkspaceState = InState.WorkspaceState →
        (UpdateCachedStates NewState StateCache (Pre ++ [InState])).2
          = (GetStateInternal NewState (UpdateCachedStates NewState StateCache Pre).2
              InState.LocalFilename).2) ∧
      ((GetStateInternal NewState (UpdateCachedStates NewState StateCache Pre).2
          InState.LocalFilename).1.WorkspaceState ≠ InState.WorkspaceState →
        (UpdateCachedStates NewState StateCache (Pre ++ [InState])).2
          = Function.update
              (GetStateInternal NewState (UpdateCachedStates NewState StateCache Pre).2
                InState.LocalFilename).2
              (CacheKey InState.LocalFilename)
              (some { (GetStateInternal NewState
                        (UpdateCachedStates NewState StateCache Pre).2
                        InState.LocalFilename).1 with
                WorkspaceState := InState.WorkspaceState
                PendingMergeBaseFileHash := InState.PendingMergeBaseFileHash
                TimeStamp := InState.TimeStamp })) ∧
      (∀ S, (UpdateCachedStates NewState StateCache Pre).2 (CacheKey InState.LocalFilename)
          = some S →
        GetStateInternal NewState (UpdateCachedStates NewState StateCache Pre).2
          InState.LocalFilename = (S, (UpdateCachedStates NewState StateCache Pre).2))) ∧
    (∀ Key S, StateCache Key = some S →
      ∃ T, (UpdateCachedStates NewState StateCache InStates).2 Key = some T ∧
        T.LocalFilename = S.LocalFilename ∧
        T.LocalRevisionChangeset = S.LocalRevisionChangeset ∧
        T.DepotRevisionChangeset = S.DepotRevisionChangeset ∧
        T.LockedBy = S.LockedBy ∧ T.LockedWhere = S.LockedWhere) ∧
    (∀ Key, (∀ InState ∈ InStates, Key ≠ CacheKey InState.LocalFilename) →
      (UpdateCachedStates NewState StateCache InStates).2 Key = StateCache Key) := by
  refine ⟨?_, ?_, ?_, ?_⟩
  · have h := UpdateCachedStates.foldl_count NewState InStates
      { NbStatesUpdated := 0, StateCache := StateCache }
    unfold UpdateCachedStates
    dsimp only
    rw [decide_eq_true_iff]
    exact h
  · intro Pre InState
    have hsnoc : (UpdateCachedStates NewState StateCache (Pre ++ [InState])).2
        = (UpdateCachedStates.body NewState
            (Pre.foldl (UpdateCachedStates.body NewState)
              { NbStatesUpdated := 0, StateCache := StateCache }) InState).StateCache := by
      unfold UpdateCachedStates
      dsimp only
      rw [List.foldl_append]
      rfl
    have hpre : (UpdateCachedStates NewState StateCache Pre).2
        = (Pre.foldl (UpdateCachedStates.body NewState)
            { NbStatesUpdated := 0, StateCache := StateCache }).StateCache := rfl
    refine ⟨?_, ?_, ?_⟩
    · intro hsame
      rw [hsnoc]
      exact UpdateCachedStates.body_cache_of_same NewState _ InState hsame
    · intro hdiff
      rw [hsnoc]
      exact UpdateCachedStates.body_cache_of_differs NewState _ InState hdiff
    · intro S hS
      unfold GetStateInternal
      rw [hS]
  · exact (UpdateCachedStates.foldl_frame NewState InStates
      { NbStatesUpdated := 0, StateCache := StateCache }).1
  · exact (UpdateCachedStates.foldl_frame NewState InStates
      { NbStatesUpdated := 0, StateCache := StateCache }).2

/-! ### The background shell -/

/-- C16 (failing input): the process handle is valid at entry, the process is
seen stopped, and the restart fails to launch it. `RunCommandInternal` returns
false with empty results, but the error text is what the result buffer held
(empty for the empty buffers every caller passes), not the text
`<command>: Plastic SCM shell not running!`, and `WritePipe` is still called
with the command line, on the input pipe that the failed restart has closed.
The fixed text is produced on the other path only, when the handle is not
valid at entry. -/
theorem C16_failed_restart_gives_no_diagnostic (bPlatformWindows : Bool)
    (Reads : List FString) (Seconds : Nat → Int) (InCommand : FString)
    (InParameters InFiles : List FString) :
    (RunCommandInternal bPlatformWindows true
      { bProcRunningAtEntry := false, bRestartLaunches := false
        Reads := Reads, Seconds := Seconds }
      InCommand InParameters InFiles [] []).bResult = false ∧
    (RunCommandInternal bPlatformWindows true
      { bProcRunningAtEntry := false, bRestartLaunches := false
        Reads := Reads, Seconds := Seconds }
      InCommand InParameters InFiles [] []).OutResults = [] ∧
    (RunCommandInternal bPlatformWindows true
      { bProcRunningAtEntry := false, bRestartLaunches := false
        Reads := Reads, Seconds := Seconds }
      InCommand InParameters InFiles [] []).OutErrors = [] ∧
    (RunCommandInternal bPlatformWindows true
      { bProcRunningAtEntry := false, bRestartLaunches := false
        Reads := Reads, Seconds := Seconds }
      InCommand InParameters InFiles [] []).OutErrors
      ≠ InCommand ++ ": Plastic SCM shell not running!".toList ∧
    (RunCommandInternal bPlatformWindows true
      { bProcRunningAtEntry := false, bRestartLaunches := false
        Reads := Reads, Seconds := Seconds }
      InCommand InParameters InFiles [] []).Writes
      = [{ bPipeOpen := false
           Message := RunCommandInternal.FullCommand InCommand InParameters InFiles }] ∧
    (RunCommandInternal bPlatformWindows true
      { bProcRunningAtEntry := false, bRestartLaunches := false
        Reads := Reads, Seconds := Seconds }
      InCommand InParameters InFiles [] []).bRestarted = true ∧
    (RunCommandInternal bPlatformWindows true
      { bProcRunningAtEntry := false, bRestartLaunches := false
        Reads := Reads, Seconds := Seconds }
      InCommand InParameters InFiles [] []).bHandleValid = false ∧
    RunCommandInternal bPlatformWindows false
      { bProcRunningAtEntry := false, bRestartLaunches := false
        Reads := Reads, Seconds := Seconds }
      InCommand InParameters InFiles [] []
      = { bResult := false, OutResults := []
          OutErrors := InCommand ++ ": Plastic SCM shell not running!".toList
          Writes := [], bRestarted := false, bHandleValid := false } := by
  refine ⟨rfl, rfl, rfl, ?_, rfl, rfl, rfl, rfl⟩
  show ([] : FString) ≠ InCommand ++ ": Plastic SCM shell not running!".toList
  intro h
  have := congrArg List.length h
  simp at this

/-- C19: calling `LaunchBackgroundPlasticShell` while the process handle is
valid returns true and changes nothing: no pipe and no process is asked of
the platform, the pipe and process variables are as before. So when a first
call succeeds, a second call returns true and leaves everything as the first
left it; and when the first call started without a valid handle, the
two calls together have created exactly one process. -/
theorem C19_launch_while_alive (Platform : FPlatformProcess) (S S1 : FBackgroundShell)
    (hfirst : LaunchBackgroundPlasticShell Platform S = some (true, S1)) :
    (∀ T : FBackgroundShell, T.ShellProcessHandle.isSome = true →
      LaunchBackgroundPlasticShell Platform T = some (true, T)) ∧
    S1.ShellProcessHandle.isSome = true ∧
    LaunchBackgroundPlasticShell Platform S1 = some (true, S1) ∧
    (S.ShellProcessHandle = none →
      S1.NbProcesses = S.NbProcesses + 1 ∧ S1.NbCreateProc = S.NbCreateProc + 1 ∧
        S1.NbCreatePipe = S.NbCreatePipe + 2) := by
  have halive : ∀ T : FBackgroundShell, T.ShellProcessHandle.isSome = true →
      LaunchBackgroundPlasticShell Platform T = some (true, T) := by
    intro T hT
    unfold LaunchBackgroundPlasticShell
    simp [hT]
  have hS1 : S1.ShellProcessHandle.isSome = true := by
    unfold LaunchBackgroundPlasticShell at hfirst
    dsimp only at hfirst
    split_ifs at hfirst with h1 h2 h3 h4 h5 <;>
      simp only [Option.some.injEq, Prod.mk.injEq] at hfirst <;>
      obtain ⟨hb, hs⟩ := hfirst <;> rw [← hs] <;> exact hb
  refine ⟨halive, hS1, halive S1 hS1, ?_⟩
  intro hnone
  unfold LaunchBackgroundPlasticShell at hfirst
  dsimp only at hfirst
  cases h2 : Platform.bCreatePipe S.NbCreatePipe
  · simp [hnone, h2] at hfirst
  · cases h3 : Platform.bCreatePipe (S.NbCreatePipe + 1)
    · simp [hnone, h2, h3] at hfirst
    · cases h4 : Platform.bCreateProc S.NbCreateProc
      · simp [hnone, h2, h3, h4, CleanupBackgroundCommandLineShell] at hfirst
      · simp only [hnone, h2, h3, h4, Option.isSome_none, Option.isSome_some, Bool.not_false,
          Bool.not_true, if_true, Bool.false_eq_true, if_false, Option.some.injEq,
          Prod.mk.injEq, true_and] at hfirst
        subst hfirst
        exact ⟨rfl, rfl, rfl⟩

/-- Witness of C19: the first launch, from the initial variables, on a platform
that creates every pipe and process asked for; the second launch changes
nothing, and one process has been created. -/
theorem C19_launch_while_alive_witness :
    LaunchBackgroundPlasticShell { bCreatePipe := fun _ => true, bCreateProc := fun _ => true }
        { ShellOutputPipeRead := none, ShellOutputPipeWrite := none
          ShellInputPipeRead := none, ShellInputPipeWrite := none
          ShellProcessHandle := none
          NbCreatePipe := 0, NbClosePipe := 0, NbCreateProc := 0, NbProcesses := 0 }
      = some (true,
        { ShellOutputPipeRead := some 0, ShellOutputPipeWrite := some 0
          ShellInputPipeRead := some 1, ShellInputPipeWrite := some 1
          ShellProcessHandle := some 0
          NbCreatePipe := 2, NbClosePipe := 0, NbCreateProc := 1, NbProcesses := 1 }) ∧
    LaunchBackgroundPlasticShell { bCreatePipe := fun _ => true, bCreateProc := fun _ => true }
        { ShellOutputPipeRead := some 0, ShellOutputPipeWrite := some 0
          ShellInputPipeRead := some 1, ShellInputPipeWrite := some 1
          ShellProcessHandle := some 0
          NbCreatePipe := 2, NbClosePipe := 0, NbCreateProc := 1, NbProcesses := 1 }
      = some (true,
        { ShellOutputPipeRead := some 0, ShellOutputPipeWrite := some 0
          ShellInputPipeRead := some 1, ShellInputPipeWrite := some 1
          ShellProcessHandle := some 0
          NbCreatePipe := 2, NbClosePipe := 0, NbCreateProc := 1, NbProcesses := 1 }) :=
  ⟨rfl, (C19_launch_while_alive
    { bCreatePipe := fun _ => true, bCreateProc := fun _ => true }
    { ShellOutputPipeRead := none, ShellOutputPipeWrite := none
      ShellInputPipeRead := none, ShellInputPipeWrite := none
      ShellProcessHandle := none
      NbCreatePipe := 0, NbClosePipe := 0, NbCreateProc := 0, NbProcesses := 0 }
    { ShellOutputPipeRead := some 0, ShellOutputPipeWrite := some 0
      ShellInputPipeRead := some 1, ShellInputPipeWrite := some 1
      ShellProcessHandle := some 0
      NbCreatePipe := 2, NbClosePipe := 0, NbCreateProc := 1, NbProcesses := 1 }
    rfl).2.2.1⟩

/-! ### Status of files -/

theorem FStringEq_iff (a b : FString) :
    FStringEq a b = true ↔ a.map Char.toLower = b.map Char.toLower := by
  unfold FStringEq
  exact beq_iff_eq

theorem GroupOfFiles.Add_perm (Path File : FString) :
    ∀ Groups : List (FString × List FString),
      ((GroupOfFiles.Add Path File Groups).map Prod.snd).flatten.Perm
        (File :: (Groups.map Prod.snd).flatten) := by
  intro Groups
  induction Groups with
  | nil => simp [GroupOfFiles.Add]
  | cons G Rest ih =>
    rw [GroupOfFiles.Add]
    split_ifs
    · simp only [List.map_cons, List.flatten_cons, List.append_assoc, List.singleton_append]
      exact List.perm_middle
    · simp only [List.map_cons, List.flatten_cons]
      exact (List.Perm.append_left G.2 ih).trans List.perm_middle

theorem GroupOfFiles.Add_keys (File : FString) :
    ∀ Groups : List (FString × List FString),
      (∀ G ∈ Groups, ∀ x ∈ G.2, FStringEq G.1 (GetPath x) = true) →
      ∀ G ∈ GroupOfFiles.Add (GetPath File) File Groups, ∀ x ∈ G.2,
        FStringEq G.1 (GetPath x) = true := by
  intro Groups
  induction Groups with
  | nil =>
    intro _ G hG x hx
    simp only [GroupOfFiles.Add, List.mem_singleton] at hG
    subst hG
    have hxf : x = File := by simpa using hx
    rw [hxf, FStringEq_iff]
  | cons G0 Rest ih =>
    intro hK G hG x hx
    rw [GroupOfFiles.Add] at hG
    split_ifs at hG with hE
    · rcases List.mem_cons.mp hG with hG | hG
      · subst hG
        rcases List.mem_append.mp hx with hx | hx
        · exact hK G0 (List.mem_cons_self _ _) x hx
        · have hxf : x = File := by simpa using hx
          rw [hxf]
          exact hE
      · exact hK G (List.mem_cons_of_mem _ hG) x hx
    · rcases List.mem_cons.mp hG with hG | hG
      · subst hG
        exact hK G (List.mem_cons_self _ _) x hx
      · exact ih (fun G1 hG1 => hK G1 (List.mem_cons_of_mem _ hG1)) G hG x hx

theorem RunUpdateStatus.GroupOfFiles_foldl (InFiles : List FString) :
    ∀ Groups : List (FString × List FString),
      (∀ G ∈ Groups, ∀ x ∈ G.2, FStringEq G.1 (GetPath x) = true) →
      (∀ G ∈ InFiles.foldl
          (fun Groups File => GroupOfFiles.Add (GetPath File) File Groups) Groups,
        ∀ x ∈ G.2, FStringEq G.1 (GetPath x) = true) ∧
      (((InFiles.foldl
          (fun Groups File => GroupOfFiles.Add (GetPath File) File Groups) Groups).map
            Prod.snd).flatten).Perm ((Groups.map Prod.snd).flatten ++ InFiles) := by
  induction InFiles with
  | nil =>
    intro Groups hK
    exact ⟨hK, by simp⟩
  | cons File Rest ih =>
    intro Groups hK
    rw [List.foldl_cons]
    obtain ⟨h1, h2⟩ := ih _ (GroupOfFiles.Add_keys File Groups hK)
    refine ⟨h1, h2.trans ?_⟩
    exact (List.Perm.append_right Rest (GroupOfFiles.Add_perm (GetPath File) File Groups)).trans
      List.perm_middle.symm

/-- A file whose directory is the directory of no other file of the list is
alone in its group. -/
theorem RunUpdateStatus.GroupOfFiles_lone (Pre Post : List FString) (File : FString)
    (halone : ∀ Other ∈ Pre ++ Post, FStringEq (GetPath Other) (GetPath File) = false) :
    ∀ G ∈ RunUpdateStatus.GroupOfFiles (Pre ++ File :: Post), File ∈ G.2 → G.2 = [File] := by
  intro G hG hFile
  obtain ⟨hK0, hP0⟩ := RunUpdateStatus.GroupOfFiles_foldl (Pre ++ File :: Post) []
    (fun G hG => absurd hG (List.not_mem_nil _))
  simp only [List.map_nil, List.flatten_nil, List.nil_append] at hP0
  have hK : ∀ G ∈ RunUpdateStatus.GroupOfFiles (Pre ++ File :: Post), ∀ x ∈ G.2,
      FStringEq G.1 (GetPath x) = true := hK0
  have hP : (((RunUpdateStatus.GroupOfFiles (Pre ++ File :: Post)).map
      Prod.snd).flatten).Perm (Pre ++ File :: Post) := hP0
  have hrefl : FStringEq (GetPath File) (GetPath File) = true := (FStringEq_iff _ _).mpr rfl
  have hnot : File ∉ Pre ++ Post := fun h => by
    have := halone File h
    rw [hrefl] at this
    exact absurd this (by decide)
  have hcount : (Pre ++ File :: Post).countP (fun x => decide (x = File)) = 1 := by
    have h1 : Pre.countP (fun x => decide (x = File)) = 0 :=
      List.countP_eq_zero.mpr (fun a ha hp =>
        hnot (List.mem_append_left _ (by rw [← of_decide_eq_true hp]; exact ha)))
    have h2 : Post.countP (fun x => decide (x = File)) = 0 :=
      List.countP_eq_zero.mpr (fun a ha hp =>
        hnot (List.mem_append_right _ (by rw [← of_decide_eq_true hp]; exact ha)))
    have h3 : (File :: Post).countP (fun x => decide (x = File)) = 1 := by
      rw [List.countP_cons, h2]
      simp
    rw [List.countP_append, h1, h3]
  have hsub : List.Sublist G.2 ((RunUpdateStatus.GroupOfFiles (Pre ++ File :: Post)).map
      Prod.snd).flatten :=
    List.sublist_flatten_of_mem (List.mem_map_of_mem Prod.snd hG)
  have hle : G.2.countP (fun x => decide (x = File)) ≤ 1 := by
    have h1 := hsub.countP_le (fun x => decide (x = File))
    have h2 := hP.countP_eq (fun x => decide (x = File))
    omega
  have hall : ∀ x ∈ G.2, x = File := by
    intro x hx
    have hxin : x ∈ Pre ++ File :: Post := hP.mem_iff.mp (hsub.subset hx)
    rcases List.mem_append.mp hxin with h | h
    · exfalso
      have h1 := (FStringEq_iff _ _).mp (hK G hG x hx)
      have h2 := (FStringEq_iff _ _).mp (hK G hG File hFile)
      have h3 := halone x (List.mem_append_left _ h)
      rw [(FStringEq_iff _ _).mpr (h1.symm.trans h2)] at h3
      exact absurd h3 (by decide)
    · rcases List.mem_cons.mp h with h | h
      · exact h
      · exfalso
        have h1 := (FStringEq_iff _ _).mp (hK G hG x hx)
        have h2 := (FStringEq_iff _ _).mp (hK G hG File hFile)
        have h3 := halone x (List.mem_append_right _ h)
        rw [(FStringEq_iff _ _).mpr (h1.symm.trans h2)] at h3
        exact absurd h3 (by decide)
  have hlen : G.2.length ≤ 1 := by
    have h1 : G.2.countP (fun x => decide (x = File)) = G.2.length :=
      List.countP_eq_length.mpr (fun a ha => decide_eq_true (hall a ha))
    omega
  cases hg : G.2 with
  | nil =>
    rw [hg] at hFile
    exact absurd hFile (List.not_mem_nil _)
  | cons a t =>
    rw [hg] at hlen hall
    have ha : a = File := hall a (List.mem_cons_self _ _)
    have ht : t = [] := by
      cases t with
      | nil => rfl
      | cons b u => simp at hlen
    rw [ha, ht]

theorem RunStatus.body_recorded {σ : Type} (RunCommand : FRunCommand σ)
    (NewState : FString → FPlasticSourceControlState)
    (R : FStatusRun (σ × List FCommandCall)) (File : FString) :
    ∃ Calls, (RunStatus.body (Recorded RunCommand) NewState R File).Shell.2
        = R.Shell.2 ++ Calls ∧
      (∀ c ∈ Calls, c.InCommand = "status".toList ∧ c.InFiles = [File]) ∧
      (RunStatus.body (Recorded RunCommand) NewState R File).OutStates.length
        = R.OutStates.length + 1 := by
  unfold RunStatus.body
  dsimp only
  by_cases hb : R.bResult = true
  · rw [if_pos hb]
    refine ⟨[{ InCommand := "status".toList, InParameters := RunStatus.Status
               InFiles := [File]
               bResult := (RunCommand R.Shell.1 "status".toList RunStatus.Status [File]).1 }],
      rfl, ?_, ?_⟩
    · intro c hc
      have e : c = _ := List.mem_singleton.mp hc
      rw [e]
      exact ⟨rfl, rfl⟩
    · simp
  · rw [if_neg hb]
    refine ⟨[], by simp, fun c hc => absurd hc (List.not_mem_nil _), by simp⟩

theorem RunStatus.foldl_recorded {σ : Type} (RunCommand : FRunCommand σ)
    (NewState : FString → FPlasticSourceControlState) :
    ∀ (InFiles : List FString) (R : FStatusRun (σ × List FCommandCall)),
      ∃ Calls, (InFiles.foldl (RunStatus.body (Recorded RunCommand) NewState) R).Shell.2
          = R.Shell.2 ++ Calls ∧
        (∀ c ∈ Calls, c.InCommand = "status".toList ∧ ∀ f ∈ c.InFiles, f ∈ InFiles) ∧
        (InFiles.foldl (RunStatus.body (Recorded RunCommand) NewState) R).OutStates.length
          = R.OutStates.length + InFiles.length := by
  intro InFiles
  induction InFiles with
  | nil =>
    intro R
    exact ⟨[], by simp, fun c hc => absurd hc (List.not_mem_nil _), rfl⟩
  | cons File Rest ih =>
    intro R
    obtain ⟨C1, h1, k1, l1⟩ := RunStatus.body_recorded RunCommand NewState R File
    obtain ⟨C2, h2, k2, l2⟩ := ih (RunStatus.body (Recorded RunCommand) NewState R File)
    rw [List.foldl_cons]
    refine ⟨C1 ++ C2, ?_, ?_, ?_⟩
    · rw [h2, h1, List.append_assoc]
    · intro c hc
      rcases List.mem_append.mp hc with hc | hc
      · obtain ⟨a, b⟩ := k1 c hc
        refine ⟨a, fun f hf => ?_⟩
        rw [b] at hf
        have e : f = File := by simpa using hf
        rw [e]
        exact List.mem_cons_self _ _
      · obtain ⟨a, b⟩ := k2 c hc
        exact ⟨a, fun f hf => List.mem_cons_of_mem _ (b f hf)⟩
    · rw [l2, l1, List.length_cons]
      omega

/-- The calls made by `RunStatus` are `status` commands on files of its list,
none is made when the list is one file that does not exist, and one state is
added for each file. -/
theorem RunStatus_recorded {σ : Type} (FileExists : FString → Bool)
    (RunCommand : FRunCommand σ) (NewState : FString → FPlasticSourceControlState)
    (Shell : σ × List FCommandCall) (InFiles OutErrorMessages : List FString)
    (OutStates : List FPlasticSourceControlState) :
    ∃ Calls, (RunStatus FileExists (Recorded RunCommand) NewState Shell InFiles
          OutErrorMessages OutStates).Shell.2 = Shell.2 ++ Calls ∧
      (∀ c ∈ Calls, c.InCommand = "status".toList ∧ (∀ f ∈ c.InFiles, f ∈ InFiles) ∧
        (1 == InFiles.length && !(FileExists (InFiles.headD []))) = false) ∧
      (RunStatus FileExists (Recorded RunCommand) NewState Shell InFiles
          OutErrorMessages OutStates).OutStates.length = OutStates.length + InFiles.length := by
  unfold RunStatus
  cases hsp : (1 == InFiles.length && !(FileExists (InFiles.headD [])))
  · simp only [Bool.false_eq_true, if_false]
    obtain ⟨Calls, h, k, l⟩ := RunStatus.foldl_recorded RunCommand NewState InFiles
      { bResult := true, OutErrorMessages := OutErrorMessages, OutStates := OutStates
        Shell := Shell }
    exact ⟨Calls, h, fun c hc => ⟨(k c hc).1, (k c hc).2, trivial⟩, l⟩
  · simp only [if_true]
    refine ⟨[], by simp, fun c hc => absurd hc (List.not_mem_nil _), ?_⟩
    have hlen : InFiles.length = 1 := by
      simp only [Bool.and_eq_true, beq_iff_eq] at hsp
      exact hsp.1.symm
    simp [hlen]

theorem ParseFileinfoResults.loop_some (bPlatformWindows : Bool)
    (GetUserName GetWorkspaceName : FString)
    (Indeterminate : Nat → Int × Int) (InFiles : List FString) :
    ∀ (InResults : List FString) (IdxResult : Nat)
      (InOutStates : List FPlasticSourceControlState),
      IdxResult + InResults.length ≤ InFiles.length →
      IdxResult + InResults.length ≤ InOutStates.length →
      ∃ States, ParseFileinfoResults.loop bPlatformWindows GetUserName GetWorkspaceName
          Indeterminate InFiles
          InResults IdxResult InOutStates = some States ∧
        States.length = InOutStates.length := by
  intro InResults
  induction InResults with
  | nil =>
    intro IdxResult InOutStates _ _
    exact ⟨InOutStates, rfl, rfl⟩
  | cons Fileinfo Rest ih =>
    intro IdxResult InOutStates h1 h2
    simp only [List.length_cons] at h1 h2
    have hf : IdxResult < InFiles.length := by omega
    have hs : IdxResult < InOutStates.length := by omega
    rw [ParseFileinfoResults.loop, List.get?_eq_get hf, List.get?_eq_get hs]
    dsimp only
    obtain ⟨States, hS, hL⟩ := ih (IdxResult + 1)
      (InOutStates.set IdxResult
        (ParseFileinfoResults.body bPlatformWindows GetUserName GetWorkspaceName
            (Indeterminate IdxResult)
          Fileinfo (InOutStates.get ⟨IdxResult, hs⟩)))
      (by omega) (by rw [List.length_set]; omega)
    exact ⟨States, hS, by rw [hL, List.length_set]⟩

/-- The function `RunFileinfo` returns, and makes exactly one call, the `fileinfo`
command on its files, when the reply has at most one line per file and
there is a state for each file. -/
theorem RunFileinfo_recorded {σ : Type} (bPlatformWindows : Bool)
    (GetUserName GetWorkspaceName : FString)
    (Indeterminate : Nat → Int × Int) (RunCommand : FRunCommand σ)
    (Shell : σ × List FCommandCall) (InFiles OutErrorMessages : List FString)
    (OutStates : List FPlasticSourceControlState)
    (hlines : ∀ s p f, (RunCommand s "fileinfo".toList p f).2.1.length ≤ f.length)
    (hstates : InFiles.length ≤ OutStates.length) :
    ∃ R, RunFileinfo bPlatformWindows GetUserName GetWorkspaceName Indeterminate
        (Recorded RunCommand) Shell
        InFiles OutErrorMessages OutStates = some R ∧
      R.Shell.2 = Shell.2 ++ [{ InCommand := "fileinfo".toList
                                InParameters := RunFileinfo.Parameters
                                InFiles := InFiles, bResult := R.bResult }] ∧
      R.OutStates.length = OutStates.length := by
  have hl := hlines Shell.1 RunFileinfo.Parameters InFiles
  unfold RunFileinfo
  dsimp only
  cases hrun : (Recorded RunCommand Shell "fileinfo".toList RunFileinfo.Parameters InFiles).1
  · simp only [Bool.false_eq_true, if_false]
    refine ⟨_, rfl, ?_, rfl⟩
    show Shell.2 ++ [_] = Shell.2 ++ [_]
    have hrun2 : (RunCommand Shell.1 "fileinfo".toList RunFileinfo.Parameters InFiles).1
        = false := hrun
    rw [hrun2]
  · simp only [if_true]
    obtain ⟨States, hS, hL⟩ := ParseFileinfoResults.loop_some bPlatformWindows GetUserName
        GetWorkspaceName
      Indeterminate InFiles
      (RunCommand Shell.1 "fileinfo".toList RunFileinfo.Parameters InFiles).2.1 0 OutStates
      (by omega) (by omega)
    have hparse : ParseFileinfoResults bPlatformWindows GetUserName GetWorkspaceName
        Indeterminate InFiles
        (Recorded RunCommand Shell "fileinfo".toList RunFileinfo.Parameters InFiles).2.1
        OutStates = some States := hS
    rw [hparse]
    refine ⟨_, rfl, ?_, hL⟩
    show Shell.2 ++ [_] = Shell.2 ++ [_]
    have hrun2 : (RunCommand Shell.1 "fileinfo".toList RunFileinfo.Parameters InFiles).1
        = true := hrun
    rw [hrun2]

theorem RunStatus_special {σ : Type} (FileExists : FString → Bool)
    (RunCommand : FRunCommand σ) (NewState : FString → FPlasticSourceControlState)
    (Shell : σ) (InFiles OutErrorMessages : List FString)
    (OutStates : List FPlasticSourceControlState)
    (h : (1 == InFiles.length && !(FileExists (InFiles.headD []))) = true) :
    RunStatus FileExists RunCommand NewState Shell InFiles OutErrorMessages OutStates
      = { bResult := false
          OutErrorMessages := OutErrorMessages
          OutStates := OutStates ++
            [{ NewState (InFiles.headD []) with WorkspaceState := EWorkspaceState.Private }]
          Shell := Shell } := by
  unfold RunStatus
  rw [if_pos h]

/-- The second loop of `RunUpdateStatus` returns when every `fileinfo` reply has
at most one line per file. Its result is true exactly when it started true
and every `fileinfo` command made succeeded; every call made lists files of
one group, which is not a group of one file that does not exist. -/
theorem RunUpdateStatus.loop_recorded {σ : Type} (bPlatformWindows : Bool)
    (FileExists : FString → Bool)
    (RunCommand : FRunCommand σ) (NewState : FString → FPlasticSourceControlState)
    (GetUserName GetWorkspaceName : FString) (Indeterminate : Nat → Nat → Int × Int)
    (hlines : ∀ s p f, (RunCommand s "fileinfo".toList p f).2.1.length ≤ f.length) :
    ∀ (Groups : List (FString × List FString)) (IdxGroup : Nat)
      (U : FStatusRun (σ × List FCommandCall)),
      ∃ R, RunUpdateStatus.loop bPlatformWindows FileExists (Recorded RunCommand)
          NewState GetUserName
          GetWorkspaceName Indeterminate Groups IdxGroup U = some R ∧
        ∃ Calls, R.Shell.2 = U.Shell.2 ++ Calls ∧
          (R.bResult = true ↔ U.bResult = true ∧
            ∀ c ∈ Calls, c.InCommand = "fileinfo".toList → c.bResult = true) ∧
          (∀ c ∈ Calls, ∃ G ∈ Groups, (∀ f ∈ c.InFiles, f ∈ G.2) ∧
            (1 == G.2.length && !(FileExists (G.2.headD []))) = false) := by
  intro Groups
  induction Groups with
  | nil =>
    intro IdxGroup U
    refine ⟨U, rfl, [], by simp, ?_, fun c hc => absurd hc (List.not_mem_nil _)⟩
    constructor
    · intro h
      exact ⟨h, fun c hc => absurd hc (List.not_mem_nil _)⟩
    · intro h
      exact h.1
  | cons G Rest ih =>
    intro IdxGroup U
    obtain ⟨C1, hs1, k1, l1⟩ := RunStatus_recorded FileExists RunCommand NewState U.Shell G.2
      U.OutErrorMessages U.OutStates
    have hstatus : ∀ c ∈ C1, c.InCommand ≠ "fileinfo".toList := by
      intro c hc e
      rw [(k1 c hc).1] at e
      exact absurd e (by decide)
    rw [RunUpdateStatus.loop]
    by_cases hok : (RunStatus FileExists (Recorded RunCommand) NewState U.Shell G.2
        U.OutErrorMessages U.OutStates).bResult = true
    · rw [if_pos hok]
      have hnotspecial : (1 == G.2.length && !(FileExists (G.2.headD []))) = false := by
        cases hsp : (1 == G.2.length && !(FileExists (G.2.headD [])))
        · rfl
        · rw [RunStatus_special FileExists (Recorded RunCommand) NewState U.Shell G.2
            U.OutErrorMessages U.OutStates hsp] at hok
          exact absurd hok Bool.false_ne_true
      obtain ⟨F, hF, hFs, _⟩ := RunFileinfo_recorded bPlatformWindows GetUserName GetWorkspaceName
        (Indeterminate IdxGroup) RunCommand
        (RunStatus FileExists (Recorded RunCommand) NewState U.Shell G.2
          U.OutErrorMessages U.OutStates).Shell G.2
        (RunStatus FileExists (Recorded RunCommand) NewState U.Shell G.2
          U.OutErrorMessages U.OutStates).OutErrorMessages
        (RunStatus FileExists (Recorded RunCommand) NewState U.Shell G.2
          U.OutErrorMessages U.OutStates).OutStates hlines (by rw [l1]; omega)
      rw [hF]
      dsimp only
      obtain ⟨R, hR, C3, hs3, hiff3, hk3⟩ := ih (IdxGroup + 1)
        { F with bResult := U.bResult && F.bResult }
      refine ⟨R, hR, C1 ++ [{ InCommand := "fileinfo".toList
                              InParameters := RunFileinfo.Parameters
                              InFiles := G.2, bResult := F.bResult }] ++ C3, ?_, ?_, ?_⟩
      · rw [hs3]
        show F.Shell.2 ++ C3 = _
        rw [hFs, hs1]
        simp only [List.append_assoc]
      · rw [hiff3]
        show ((U.bResult && F.bResult) = true ∧ _) ↔ _
        constructor
        · rintro ⟨hb, hall⟩
          rw [Bool.and_eq_true] at hb
          refine ⟨hb.1, fun c hc hcmd => ?_⟩
          rcases List.mem_append.mp hc with hc | hc
          · rcases List.mem_append.mp hc with hc | hc
            · exact absurd hcmd (hstatus c hc)
            · have e : c = _ := List.mem_singleton.mp hc
              rw [e]
              exact hb.2
          · exact hall c hc hcmd
        · rintro ⟨hb, hall⟩
          refine ⟨?_, fun c hc hcmd =>
            hall c (List.mem_append_right _ hc) hcmd⟩
          rw [Bool.and_eq_true]
          exact ⟨hb, hall _ (List.mem_append_left _ (List.mem_append_right _
            (List.mem_singleton.mpr rfl))) rfl⟩
      · intro c hc
        rcases List.mem_append.mp hc with hc | hc
        · rcases List.mem_append.mp hc with hc | hc
          · exact ⟨G, List.mem_cons_self _ _, (k1 c hc).2.1, (k1 c hc).2.2⟩
          · have e : c = _ := List.mem_singleton.mp hc
            rw [e]
            exact ⟨G, List.mem_cons_self _ _, fun f hf => hf, hnotspecial⟩
        · obtain ⟨G1, hG1, h1, h2⟩ := hk3 c hc
          exact ⟨G1, List.mem_cons_of_mem _ hG1, h1, h2⟩
    · rw [if_neg hok]
      obtain ⟨R, hR, C3, hs3, hiff3, hk3⟩ := ih (IdxGroup + 1)
        { RunStatus FileExists (Recorded RunCommand) NewState U.Shell G.2
            U.OutErrorMessages U.OutStates with bResult := U.bResult }
      refine ⟨R, hR, C1 ++ C3, ?_, ?_, ?_⟩
      · rw [hs3]
        show (RunStatus FileExists (Recorded RunCommand) NewState U.Shell G.2
            U.OutErrorMessages U.OutStates).Shell.2 ++ C3 = _
        rw [hs1, List.append_assoc]
      · rw [hiff3]
        show (U.bResult = true ∧ _) ↔ _
        constructor
        · rintro ⟨hb, hall⟩
          refine ⟨hb, fun c hc hcmd => ?_⟩
          rcases List.mem_append.mp hc with hc | hc
          · exact absurd hcmd (hstatus c hc)
          · exact hall c hc hcmd
        · rintro ⟨hb, hall⟩
          exact ⟨hb, fun c hc hcmd => hall c (List.mem_append_right _ hc) hcmd⟩
      · intro c hc
        rcases List.mem_append.mp hc with hc | hc
        · exact ⟨G, List.mem_cons_self _ _, (k1 c hc).2.1, (k1 c hc).2.2⟩
        · obtain ⟨G1, hG1, h1, h2⟩ := hk3 c hc
          exact ⟨G1, List.mem_cons_of_mem _ hG1, h1, h2⟩

theorem ParseFileinfoResults.loop_keeps_index (bPlatformWindows : Bool)
    (GetUserName GetWorkspaceName : FString) (Indeterminate : Nat → Int × Int)
    (InFiles : List FString)
    (Q : FPlasticSourceControlState → FPlasticSourceControlState → Prop)
    (hrefl : ∀ S, Q S S) (htrans : ∀ S T V, Q S T → Q T V → Q S V) :
    ∀ (InResults : List FString) (IdxResult : Nat)
      (InOutStates States : List FPlasticSourceControlState),
      (∀ Fileinfo ∈ InResults, ∀ ind S,
        Q S (ParseFileinfoResults.body bPlatformWindows GetUserName GetWorkspaceName ind
          Fileinfo S)) →
      ParseFileinfoResults.loop bPlatformWindows GetUserName GetWorkspaceName Indeterminate
        InFiles InResults IdxResult InOutStates = some States →
      States.length = InOutStates.length ∧
      ∀ k S, InOutStates.get? k = some S → ∃ T, States.get? k = some T ∧ Q S T := by
  intro InResults
  induction InResults with
  | nil =>
    intro IdxResult InOutStates States _ h
    rw [ParseFileinfoResults.loop] at h
    cases h
    exact ⟨rfl, fun k S hS => ⟨S, hS, hrefl S⟩⟩
  | cons Fileinfo Rest ih =>
    intro IdxResult InOutStates States hQ h
    rw [ParseFileinfoResults.loop] at h
    cases hf : InFiles.get? IdxResult with
    | none =>
      rw [hf] at h
      exact absurd h (by simp)
    | some F =>
      cases hs : InOutStates.get? IdxResult with
      | none =>
        rw [hf, hs] at h
        exact absurd h (by simp)
      | some FileState =>
        rw [hf, hs] at h
        dsimp only at h
        obtain ⟨hlen, hpt⟩ := ih _ _ _ (fun L hL => hQ L (List.mem_cons_of_mem _ hL)) h
        refine ⟨by rw [hlen, List.length_set], ?_⟩
        intro k S hS
        by_cases hk : k = IdxResult
        · subst hk
          have hSF : FileState = S := by
            rw [hs] at hS
            exact Option.some.inj hS
          subst hSF
          have hlt : k < InOutStates.length := by
            have := List.get?_eq_some.mp hs
            exact this.1
          obtain ⟨T, hT, hQT⟩ := hpt k
            (ParseFileinfoResults.body bPlatformWindows GetUserName GetWorkspaceName
              (Indeterminate k) Fileinfo FileState)
            (by simp [List.getElem?_set, hlt])
          exact ⟨T, hT, htrans _ _ _ (hQ Fileinfo (List.mem_cons_self _ _) _ _) hQT⟩
        · obtain ⟨T, hT, hQT⟩ := hpt k S
            (by
              have hne : IdxResult ≠ k := fun e => hk e.symm
              simpa [List.getElem?_set, hne] using hS)
          exact ⟨T, hT, hQT⟩

theorem RunStatus.body_states {σ : Type} (RunCommand : FRunCommand σ)
    (NewState : FString → FPlasticSourceControlState) (R : FStatusRun σ) (File : FString) :
    R.OutStates <+: (RunStatus.body RunCommand NewState R File).OutStates := by
  unfold RunStatus.body
  dsimp only
  by_cases hb : R.bResult = true
  · rw [if_pos hb]
    exact List.prefix_append _ _
  · rw [if_neg hb]
    exact List.prefix_append _ _

theorem RunStatus.foldl_states {σ : Type} (RunCommand : FRunCommand σ)
    (NewState : FString → FPlasticSourceControlState) :
    ∀ (InFiles : List FString) (R : FStatusRun σ),
      R.OutStates <+: (InFiles.foldl (RunStatus.body RunCommand NewState) R).OutStates := by
  intro InFiles
  induction InFiles with
  | nil => intro R; exact List.prefix_refl _
  | cons File Rest ih =>
    intro R
    rw [List.foldl_cons]
    exact (RunStatus.body_states RunCommand NewState R File).trans (ih _)

/-- The function `RunStatus` only adds states after those it is given. -/
theorem RunStatus_states {σ : Type} (FileExists : FString → Bool)
    (RunCommand : FRunCommand σ) (NewState : FString → FPlasticSourceControlState)
    (Shell : σ) (InFiles OutErrorMessages : List FString)
    (OutStates : List FPlasticSourceControlState) :
    OutStates <+: (RunStatus FileExists RunCommand NewState Shell InFiles OutErrorMessages
      OutStates).OutStates := by
  unfold RunStatus
  split_ifs
  · exact List.prefix_append _ _
  · exact RunStatus.foldl_states RunCommand NewState InFiles
      { bResult := true, OutErrorMessages := OutErrorMessages, OutStates := OutStates
        Shell := Shell }

theorem List.get?_mono {α : Type} {l l2 : List α} (h : l <+: l2) (k : Nat) (a : α)
    (hk : l.get? k = some a) : l2.get? k = some a := by
  obtain ⟨t, rfl⟩ := h
  have hlt : k < l.length := (List.get?_eq_some.mp hk).1
  simpa [List.getElem?_append_left hlt] using hk

/-- The function `RunFileinfo` keeps every state at its index, each related to what
it was by a relation that every file-info line of the reply respects. -/
theorem RunFileinfo_pointwise {σ : Type} (bPlatformWindows : Bool)
    (GetUserName GetWorkspaceName : FString) (Indeterminate : Nat → Int × Int)
    (RunCommand : FRunCommand σ)
    (Q : FPlasticSourceControlState → FPlasticSourceControlState → Prop)
    (hrefl : ∀ S, Q S S) (htrans : ∀ S T V, Q S T → Q T V → Q S V)
    (hQ : ∀ s p f, ∀ Fileinfo ∈ (RunCommand s "fileinfo".toList p f).2.1, ∀ ind S,
      Q S (ParseFileinfoResults.body bPlatformWindows GetUserName GetWorkspaceName ind
        Fileinfo S))
    (Shell : σ) (InFiles OutErrorMessages : List FString)
    (OutStates : List FPlasticSourceControlState) (F : FStatusRun σ)
    (h : RunFileinfo bPlatformWindows GetUserName GetWorkspaceName Indeterminate RunCommand
      Shell InFiles OutErrorMessages OutStates = some F) :
    F.OutStates.length = OutStates.length ∧
    ∀ k S, OutStates.get? k = some S → ∃ T, F.OutStates.get? k = some T ∧ Q S T := by
  unfold RunFileinfo at h
  dsimp only at h
  by_cases hrun : (RunCommand Shell "fileinfo".toList RunFileinfo.Parameters InFiles).1 = true
  · rw [if_pos hrun] at h
    cases hp : ParseFileinfoResults bPlatformWindows GetUserName GetWorkspaceName Indeterminate
        InFiles (RunCommand Shell "fileinfo".toList RunFileinfo.Parameters InFiles).2.1
        OutStates with
    | none =>
      rw [hp] at h
      exact absurd h (by simp)
    | some States =>
      rw [hp] at h
      cases h
      exact ParseFileinfoResults.loop_keeps_index bPlatformWindows GetUserName GetWorkspaceName
        Indeterminate InFiles Q hrefl htrans _ 0 OutStates States
        (hQ Shell RunFileinfo.Parameters InFiles) hp
  · rw [if_neg hrun] at h
    cases h
    exact ⟨rfl, fun k S hS => ⟨S, hS, hrefl S⟩⟩

/-- The second loop of `RunUpdateStatus` keeps every state it is given at its
index, each related to what it was by a relation that every file-info line
respects. -/
theorem RunUpdateStatus.loop_keeps_states {σ : Type} (bPlatformWindows : Bool)
    (FileExists : FString → Bool) (RunCommand : FRunCommand σ)
    (NewState : FString → FPlasticSourceControlState)
    (GetUserName GetWorkspaceName : FString) (Indeterminate : Nat → Nat → Int × Int)
    (Q : FPlasticSourceControlState → FPlasticSourceControlState → Prop)
    (hrefl : ∀ S, Q S S) (htrans : ∀ S T V, Q S T → Q T V → Q S V)
    (hQ : ∀ s p f, ∀ Fileinfo ∈ (RunCommand s "fileinfo".toList p f).2.1, ∀ ind S,
      Q S (ParseFileinfoResults.body bPlatformWindows GetUserName GetWorkspaceName ind
        Fileinfo S)) :
    ∀ (Groups : List (FString × List FString)) (IdxGroup : Nat) (U R : FStatusRun σ),
      RunUpdateStatus.loop bPlatformWindows FileExists RunCommand NewState GetUserName
        GetWorkspaceName Indeterminate Groups IdxGroup U = some R →
      U.OutStates.length ≤ R.OutStates.length ∧
      ∀ k S, U.OutStates.get? k = some S → ∃ T, R.OutStates.get? k = some T ∧ Q S T := by
  intro Groups
  induction Groups with
  | nil =>
    intro IdxGroup U R h
    rw [RunUpdateStatus.loop] at h
    cases h
    exact ⟨Nat.le_refl _, fun k S hS => ⟨S, hS, hrefl S⟩⟩
  | cons G Rest ih =>
    intro IdxGroup U R h
    have hpre := RunStatus_states FileExists RunCommand NewState U.Shell G.2
      U.OutErrorMessages U.OutStates
    rw [RunUpdateStatus.loop] at h
    by_cases hok : (RunStatus FileExists RunCommand NewState U.Shell G.2
        U.OutErrorMessages U.OutStates).bResult = true
    · rw [if_pos hok] at h
      cases hF : RunFileinfo bPlatformWindows GetUserName GetWorkspaceName
          (Indeterminate IdxGroup) RunCommand
          (RunStatus FileExists RunCommand NewState U.Shell G.2
            U.OutErrorMessages U.OutStates).Shell G.2
          (RunStatus FileExists RunCommand NewState U.Shell G.2
            U.OutErrorMessages U.OutStates).OutErrorMessages
          (RunStatus FileExists RunCommand NewState U.Shell G.2
            U.OutErrorMessages U.OutStates).OutStates with
      | none =>
        rw [hF] at h
        exact absurd h (by simp)
      | some F =>
        rw [hF] at h
        dsimp only at h
        obtain ⟨hlenF, hptF⟩ := RunFileinfo_pointwise bPlatformWindows GetUserName
          GetWorkspaceName (Indeterminate IdxGroup) RunCommand Q hrefl htrans hQ _ _ _ _ F hF
        obtain ⟨hlenR, hptR⟩ := ih _ _ _ h
        refine ⟨?_, ?_⟩
        · have := hpre.length_le
          have e : ({ F with bResult := U.bResult && F.bResult } : FStatusRun σ).OutStates
              = F.OutStates := rfl
          rw [e] at hlenR
          omega
        · intro k S hS
          obtain ⟨T1, hT1, hQ1⟩ := hptF k S (List.get?_mono hpre k S hS)
          obtain ⟨T2, hT2, hQ2⟩ := hptR k T1 hT1
          exact ⟨T2, hT2, htrans _ _ _ hQ1 hQ2⟩
    · rw [if_neg hok] at h
      obtain ⟨hlenR, hptR⟩ := ih _ _ _ h
      refine ⟨?_, ?_⟩
      · have := hpre.length_le
        have e : ({ RunStatus FileExists RunCommand NewState U.Shell G.2
            U.OutErrorMessages U.OutStates with bResult := U.bResult } : FStatusRun σ).OutStates
            = (RunStatus FileExists RunCommand NewState U.Shell G.2
                U.OutErrorMessages U.OutStates).OutStates := rfl
        rw [e] at hlenR
        omega
      · intro k S hS
        exact hptR k S (List.get?_mono hpre k S hS)

/-- The state of a file that does not exist and is alone in its group: the second
loop of `RunUpdateStatus` adds it as `Private`, after the states it was given,
and it stays at its index, related to what it was by a relation that every
file-info line respects. -/
theorem RunUpdateStatus.loop_lone_state {σ : Type} (bPlatformWindows : Bool)
    (FileExists : FString → Bool) (RunCommand : FRunCommand σ)
    (NewState : FString → FPlasticSourceControlState)
    (GetUserName GetWorkspaceName : FString) (Indeterminate : Nat → Nat → Int × Int)
    (Q : FPlasticSourceControlState → FPlasticSourceControlState → Prop)
    (hrefl : ∀ S, Q S S) (htrans : ∀ S T V, Q S T → Q T V → Q S V)
    (hQ : ∀ s p f, ∀ Fileinfo ∈ (RunCommand s "fileinfo".toList p f).2.1, ∀ ind S,
      Q S (ParseFileinfoResults.body bPlatformWindows GetUserName GetWorkspaceName ind
        Fileinfo S))
    (File : FString) (hmissing : FileExists File = false) :
    ∀ (Groups : List (FString × List FString)) (IdxGroup : Nat) (U R : FStatusRun σ),
      RunUpdateStatus.loop bPlatformWindows FileExists RunCommand NewState GetUserName
        GetWorkspaceName Indeterminate Groups IdxGroup U = some R →
      (∃ G ∈ Groups, G.2 = [File]) →
      ∃ k T, U.OutStates.length ≤ k ∧ R.OutStates.get? k = some T ∧
        Q { NewState File with WorkspaceState := EWorkspaceState.Private } T := by
  intro Groups
  induction Groups with
  | nil =>
    intro IdxGroup U R _ hG
    obtain ⟨G, hG, _⟩ := hG
    exact absurd hG (List.not_mem_nil _)
  | cons G0 Rest ih =>
    intro IdxGroup U R h hG
    by_cases h0 : G0.2 = [File]
    · have hsp : (1 == G0.2.length && !(FileExists (G0.2.headD []))) = true := by
        rw [h0]
        simp [hmissing]
      rw [RunUpdateStatus.loop] at h
      rw [RunStatus_special FileExists RunCommand NewState U.Shell G0.2 U.OutErrorMessages
        U.OutStates hsp] at h
      simp only [Bool.false_eq_true, if_false] at h
      obtain ⟨_, hpt⟩ := RunUpdateStatus.loop_keeps_states bPlatformWindows FileExists RunCommand
        NewState GetUserName GetWorkspaceName Indeterminate Q hrefl htrans hQ _ _ _ _ h
      obtain ⟨T, hT, hQT⟩ := hpt U.OutStates.length
        { NewState (G0.2.headD []) with WorkspaceState := EWorkspaceState.Private }
        (by simp)
      rw [h0] at hQT
      exact ⟨U.OutStates.length, T, Nat.le_refl _, hT, hQT⟩
    · have hRest : ∃ G ∈ Rest, G.2 = [File] := by
        obtain ⟨G, hG, hG2⟩ := hG
        rcases List.mem_cons.mp hG with e | hG
        · rw [e] at hG2
          exact absurd hG2 h0
        · exact ⟨G, hG, hG2⟩
      have hpre := RunStatus_states FileExists RunCommand NewState U.Shell G0.2
        U.OutErrorMessages U.OutStates
      rw [RunUpdateStatus.loop] at h
      by_cases hok : (RunStatus FileExists RunCommand NewState U.Shell G0.2
          U.OutErrorMessages U.OutStates).bResult = true
      · rw [if_pos hok] at h
        cases hF : RunFileinfo bPlatformWindows GetUserName GetWorkspaceName
            (Indeterminate IdxGroup) RunCommand
            (RunStatus FileExists RunCommand NewState U.Shell G0.2
              U.OutErrorMessages U.OutStates).Shell G0.2
            (RunStatus FileExists RunCommand NewState U.Shell G0.2
              U.OutErrorMessages U.OutStates).OutErrorMessages
            (RunStatus FileExists RunCommand NewState U.Shell G0.2
              U.OutErrorMessages U.OutStates).OutStates with
        | none =>
          rw [hF] at h
          exact absurd h (by simp)
        | some F =>
          rw [hF] at h
          dsimp only at h
          obtain ⟨hlenF, _⟩ := RunFileinfo_pointwise bPlatformWindows GetUserName
            GetWorkspaceName (Indeterminate IdxGroup) RunCommand Q hrefl htrans hQ _ _ _ _ F hF
          obtain ⟨k, T, hk, hT, hQT⟩ := ih _ _ _ h hRest
          refine ⟨k, T, ?_, hT, hQT⟩
          have := hpre.length_le
          have e : ({ F with bResult := U.bResult && F.bResult } : FStatusRun σ).OutStates
              = F.OutStates := rfl
          rw [e] at hk
          omega
      · rw [if_neg hok] at h
        obtain ⟨k, T, hk, hT, hQT⟩ := ih _ _ _ h hRest
        refine ⟨k, T, ?_, hT, hQT⟩
        have := hpre.length_le
        have e : ({ RunStatus FileExists RunCommand NewState U.Shell G0.2
            U.OutErrorMessages U.OutStates with bResult := U.bResult } : FStatusRun σ).OutStates
            = (RunStatus FileExists RunCommand NewState U.Shell G0.2
                U.OutErrorMessages U.OutStates).OutStates := rfl
        rw [e] at hk
        omega

/-- C17 (as stated, refuted): the files `Content/a.uasset` and `Content/b.uasset`
of one directory, neither of which exists on disk, with a shell that answers
every command with success and no line. `RunUpdateStatus` issues a `status`
command for each file and one `fileinfo` command for both, and the two states
are `Controlled`, not `Private` : the special case is only taken for a group
of exactly one file. And the file `a/missing`, not on disk and alone in its
directory, listed before the existing file `b/x`, with the current user
`alice` in the workspace `wkA` and a `fileinfo` line that names a lock of `bob`
in `wkB` : no command lists `a/missing`, and its state, added as `Private`, ends
as `LockedByOther`, the `fileinfo` line of `b/x` being written over the first
state. -/
theorem C17_counterexample :
    (RunUpdateStatus false (fun _ => false)
      (Recorded (fun (s : Unit) _ _ _ => (true, [], [], s)))
      (fun f =>
        { LocalFilename := f, WorkspaceState := EWorkspaceState.Unknown
          LocalRevisionChangeset := -1, DepotRevisionChangeset := -1, LockedBy := []
          LockedWhere := [], PendingMergeBaseFileHash := [], TimeStamp := 0 })
      [] [] (fun _ _ => (0, 0)) ((), [])
      ["Content/a.uasset".toList, "Content/b.uasset".toList] [] []).map
        (fun R => (R.OutStates.map (fun S => (S.LocalFilename, S.WorkspaceState)),
          R.Shell.2.map (fun c => (c.InCommand, c.InFiles))))
      = some
        ([("Content/a.uasset".toList, EWorkspaceState.Controlled),
          ("Content/b.uasset".toList, EWorkspaceState.Controlled)],
         [("status".toList, ["Content/a.uasset".toList]),
          ("status".toList, ["Content/b.uasset".toList]),
          ("fileinfo".toList, ["Content/a.uasset".toList, "Content/b.uasset".toList])]) ∧
    (RunUpdateStatus false (fun f => f != "a/missing".toList)
      (Recorded (fun (s : Unit) c _ f =>
        (true, if c == "fileinfo".toList then f.map (fun _ => "17;18;bob;wkB".toList)
          else [" CO f".toList], [], s)))
      (fun f =>
        { LocalFilename := f, WorkspaceState := EWorkspaceState.Unknown
          LocalRevisionChangeset := -1, DepotRevisionChangeset := -1, LockedBy := []
          LockedWhere := [], PendingMergeBaseFileHash := [], TimeStamp := 0 })
      "alice".toList "wkA".toList (fun _ _ => (0, 0)) ((), [])
      ["a/missing".toList, "b/x".toList] [] []).map
        (fun R => (R.OutStates.map (fun S => (S.LocalFilename, S.WorkspaceState)),
          R.Shell.2.map (fun c => (c.InCommand, c.InFiles))))
      = some
        ([("a/missing".toList, EWorkspaceState.LockedByOther),
          ("b/x".toList, EWorkspaceState.CheckedOut)],
         [("status".toList, ["b/x".toList]),
          ("fileinfo".toList, ["b/x".toList])]) := by
  constructor <;> rfl

/-- C17 (amended): for every list of files passed to `RunUpdateStatus` and every
file of it that does not exist on disk and whose directory is the directory of
no other file of the list, provided every `fileinfo` reply has at most one line
per file: `RunUpdateStatus` returns, and no command it issued, `status` or
`fileinfo`, lists that file; its output holds, after the states it was given,
a state for that file (the file name, merge hash and time stamp of a new state
of the file), whose workspace state is `Private` or `LockedByOther`, and is
`Private` when no `fileinfo` line names a lock owner other than the current
user in the current workspace. The file is alone in its group, and
`RunStatus`, called on that group, adds for it one state whose workspace state
is `Private`, returns false and leaves the shell and the error messages as
they were. -/
theorem C17_lone_missing_file {σ : Type} (bPlatformWindows : Bool)
    (FileExists : FString → Bool)
    (RunCommand : FRunCommand σ) (NewState : FString → FPlasticSourceControlState)
    (GetUserName GetWorkspaceName : FString) (Indeterminate : Nat → Nat → Int × Int)
    (Shell : σ) (Pre Post : List FString) (File : FString)
    (OutErrorMessages : List FString) (OutStates : List FPlasticSourceControlState)
    (hmissing : FileExists File = false)
    (halone : ∀ Other ∈ Pre ++ Post, FStringEq (GetPath Other) (GetPath File) = false)
    (hlines : ∀ s p f, (RunCommand s "fileinfo".toList p f).2.1.length ≤ f.length) :
    (∃ R, RunUpdateStatus bPlatformWindows FileExists (Recorded RunCommand) NewState
        GetUserName GetWorkspaceName Indeterminate (Shell, []) (Pre ++ File :: Post)
        OutErrorMessages OutStates = some R ∧
      (∀ Call ∈ R.Shell.2, File ∉ Call.InFiles) ∧
      ∃ k S, OutStates.length ≤ k ∧ R.OutStates.get? k = some S ∧
        S.LocalFilename = (NewState File).LocalFilename ∧
        S.PendingMergeBaseFileHash = (NewState File).PendingMergeBaseFileHash ∧
        S.TimeStamp = (NewState File).TimeStamp ∧
        (S.WorkspaceState = EWorkspaceState.Private ∨
          S.WorkspaceState = EWorkspaceState.LockedByOther) ∧
        ((∀ s p f, ∀ Fileinfo ∈ (RunCommand s "fileinfo".toList p f).2.1, ∀ ind,
            (FPlasticFileinfoParser.construct bPlatformWindows ind Fileinfo).LockedBy = [] ∨
            (FStringEq (FPlasticFileinfoParser.construct bPlatformWindows ind Fileinfo).LockedBy
                GetUserName = true ∧
              FStringEq (FPlasticFileinfoParser.construct bPlatformWindows ind
                Fileinfo).LockedWhere GetWorkspaceName = true)) →
          S.WorkspaceState = EWorkspaceState.Private)) ∧
    (∀ G ∈ RunUpdateStatus.GroupOfFiles (Pre ++ File :: Post), File ∈ G.2 → G.2 = [File]) ∧
    (∃ G ∈ RunUpdateStatus.GroupOfFiles (Pre ++ File :: Post), File ∈ G.2) ∧
    (∀ (Sh : σ) (Errors : List FString) (States : List FPlasticSourceControlState),
      RunStatus FileExists RunCommand NewState Sh [File] Errors States
        = { bResult := false
            OutErrorMessages := Errors
            OutStates := States ++
              [{ NewState File with WorkspaceState := EWorkspaceState.Private }]
            Shell := Sh }) := by
  have hlone := RunUpdateStatus.GroupOfFiles_lone Pre Post File halone
  have hgroup : ∃ G ∈ RunUpdateStatus.GroupOfFiles (Pre ++ File :: Post), File ∈ G.2 := by
    obtain ⟨_, hP⟩ := RunUpdateStatus.GroupOfFiles_foldl (Pre ++ File :: Post) []
      (fun G hG => absurd hG (List.not_mem_nil _))
    simp only [List.map_nil, List.flatten_nil, List.nil_append] at hP
    have hmem : File ∈ ((RunUpdateStatus.GroupOfFiles (Pre ++ File :: Post)).map
        Prod.snd).flatten :=
      hP.mem_iff.mpr (List.mem_append_right _ (List.mem_cons_self _ _))
    obtain ⟨l, hl, hfl⟩ := List.mem_flatten.mp hmem
    obtain ⟨G, hG, hGl⟩ := List.mem_map.mp hl
    exact ⟨G, hG, by rw [hGl]; exact hfl⟩
  refine ⟨?_, hlone, hgroup, ?_⟩
  · obtain ⟨R, hR, Calls, hs, _, hk⟩ := RunUpdateStatus.loop_recorded bPlatformWindows
      FileExists RunCommand NewState GetUserName GetWorkspaceName Indeterminate hlines
      (RunUpdateStatus.GroupOfFiles (Pre ++ File :: Post)) 0
      { bResult := true, OutErrorMessages := OutErrorMessages, OutStates := OutStates
        Shell := (Shell, []) }
    refine ⟨R, hR, ?_, ?_⟩
    · intro Call hCall hin
      rw [hs] at hCall
      have hCall2 : Call ∈ Calls := by simpa using hCall
      obtain ⟨G, hG, hfiles, hnotspecial⟩ := hk Call hCall2
      have hG2 := hlone G hG (hfiles File hin)
      rw [hG2] at hnotspecial
      simp [hmissing] at hnotspecial
    · obtain ⟨G, hG, hFile⟩ := hgroup
      obtain ⟨k, T, hk1, hT, h1, h2, h3, h4, h5⟩ := RunUpdateStatus.loop_lone_state
        bPlatformWindows FileExists (Recorded RunCommand) NewState GetUserName
        GetWorkspaceName Indeterminate
        (fun S T => T.LocalFilename = S.LocalFilename ∧
          T.PendingMergeBaseFileHash = S.PendingMergeBaseFileHash ∧
          T.TimeStamp = S.TimeStamp ∧
          (T.WorkspaceState = S.WorkspaceState ∨
            T.WorkspaceState = EWorkspaceState.LockedByOther) ∧
          ((∀ s p f, ∀ Fileinfo ∈ (RunCommand s "fileinfo".toList p f).2.1, ∀ ind,
              (FPlasticFileinfoParser.construct bPlatformWindows ind Fileinfo).LockedBy = [] ∨
              (FStringEq (FPlasticFileinfoParser.construct bPlatformWindows ind
                  Fileinfo).LockedBy GetUserName = true ∧
                FStringEq (FPlasticFileinfoParser.construct bPlatformWindows ind
                  Fileinfo).LockedWhere GetWorkspaceName = true)) →
            T.WorkspaceState = S.WorkspaceState))
        (fun S => ⟨rfl, rfl, rfl, Or.inl rfl, fun _ => rfl⟩)
        (fun S T V hST hTV => by
          obtain ⟨a1, a2, a3, a4, a5⟩ := hST
          obtain ⟨b1, b2, b3, b4, b5⟩ := hTV
          refine ⟨b1.trans a1, b2.trans a2, b3.trans a3, ?_, fun hno => (b5 hno).trans (a5 hno)⟩
          rcases b4 with b4 | b4
          · rcases a4 with a4 | a4
            · exact Or.inl (b4.trans a4)
            · exact Or.inr (b4.trans a4)
          · exact Or.inr b4)
        (fun s p f Fileinfo hmem ind S => by
          have hmem2 : Fileinfo ∈ (RunCommand s.1 "fileinfo".toList p f).2.1 := hmem
          unfold ParseFileinfoResults.body
          dsimp only
          split_ifs with hc
          · refine ⟨rfl, rfl, rfl, Or.inr rfl, fun hno => ?_⟩
            exfalso
            simp only [Bool.and_eq_true, decide_eq_true_eq, Bool.or_eq_true, FStringNe,
              Bool.not_eq_true'] at hc
            rcases hno s.1 p f Fileinfo hmem2 ind with hE | ⟨hU, hW⟩
            · rw [hE] at hc
              simp at hc
            · rcases hc.2 with hc2 | hc2
              · rw [hU] at hc2
                exact absurd hc2 (by decide)
              · rw [hW] at hc2
                exact absurd hc2 (by decide)
          · exact ⟨rfl, rfl, rfl, Or.inl rfl, fun _ => rfl⟩)
        File hmissing (RunUpdateStatus.GroupOfFiles (Pre ++ File :: Post)) 0
        { bResult := true, OutErrorMessages := OutErrorMessages, OutStates := OutStates
          Shell := (Shell, []) } R hR ⟨G, hG, hlone G hG hFile⟩
      exact ⟨k, T, hk1, hT, h1, h2, h3, h4, h5⟩
  · intro Sh Errors States
    exact RunStatus_special FileExists RunCommand NewState Sh [File] Errors States
      (by simp [hmissing])

/-- Witness of C17 (amended): the file `a/missing` does not exist, the files `b/x`
and `B/y` do; the current user is `bob` in the workspace `ws`, and the shell
answers a `fileinfo` command with one line per file, each naming a lock of
`bob` in `ws`. The two lines of the reply for `b/x` and `B/y` are written over
the first two states, the first of which is the state of `a/missing` : it is
still `Private`. -/
theorem C17_lone_missing_file_witness :
    (∃ R, RunUpdateStatus false (fun f => f != "a/missing".toList)
        (Recorded (fun (s : Unit) c _ f =>
          (true, if c == "fileinfo".toList then f.map (fun _ => "16;16;bob;ws".toList)
            else [" CO f".toList], [], s)))
        (fun f =>
        { LocalFilename := f, WorkspaceState := EWorkspaceState.Unknown
          LocalRevisionChangeset := -1, DepotRevisionChangeset := -1, LockedBy := []
          LockedWhere := [], PendingMergeBaseFileHash := [], TimeStamp := 0 })
        "bob".toList "ws".toList (fun _ _ => (0, 0)) ((), [])
        ([] ++ "a/missing".toList :: ["b/x".toList, "B/y".toList]) [] [] = some R ∧
      (∀ Call ∈ R.Shell.2, "a/missing".toList ∉ Call.InFiles) ∧
      ∃ k S, R.OutStates.get? k = some S ∧ S.LocalFilename = "a/missing".toList ∧
        S.WorkspaceState = EWorkspaceState.Private) ∧
    RunStatus (fun f => f != "a/missing".toList)
        (fun (s : Unit) c _ f =>
          (true, if c == "fileinfo".toList then f.map (fun _ => "16;16;bob;ws".toList)
            else [" CO f".toList], [], s))
        (fun f =>
        { LocalFilename := f, WorkspaceState := EWorkspaceState.Unknown
          LocalRevisionChangeset := -1, DepotRevisionChangeset := -1, LockedBy := []
          LockedWhere := [], PendingMergeBaseFileHash := [], TimeStamp := 0 })
        () ["a/missing".toList] [] []
      = { bResult := false
          OutErrorMessages := []
          OutStates := [] ++
            [{ LocalFilename := "a/missing".toList, WorkspaceState := EWorkspaceState.Private
               LocalRevisionChangeset := -1, DepotRevisionChangeset := -1, LockedBy := []
               LockedWhere := [], PendingMergeBaseFileHash := [], TimeStamp := 0 }]
          Shell := () } := by
  have h := C17_lone_missing_file false (fun f => f != "a/missing".toList)
    (fun (s : Unit) c _ f =>
      (true, if c == "fileinfo".toList then f.map (fun _ => "16;16;bob;ws".toList)
        else [" CO f".toList], [], s))
    (fun f =>
        { LocalFilename := f, WorkspaceState := EWorkspaceState.Unknown
          LocalRevisionChangeset := -1, DepotRevisionChangeset := -1, LockedBy := []
          LockedWhere := [], PendingMergeBaseFileHash := [], TimeStamp := 0 })
    "bob".toList "ws".toList (fun _ _ => (0, 0)) () [] ["b/x".toList, "B/y".toList]
    "a/missing".toList [] []
    (by decide) (by decide)
    (by
      intro s p f
      simp)
  obtain ⟨⟨R, hR, hcalls, k, S, _, hS, hname, _, _, _, hprivate⟩, _, _, hstatus⟩ := h
  refine ⟨⟨R, hR, hcalls, k, S, hS, hname, hprivate ?_⟩, hstatus () [] []⟩
  intro s p f Fileinfo hmem ind
  have hline : Fileinfo = "16;16;bob;ws".toList := by
    simp only [beq_self_eq_true, if_true, List.mem_map] at hmem
    obtain ⟨_, _, e⟩ := hmem
    exact e.symm
  rw [hline]
  exact Or.inr ⟨rfl, rfl⟩

/-- C18 (as stated, refuted): for the single file `Content/new.uasset`, which does
not exist on disk, `RunUpdateStatus` issues no command, gives the state
`Private` and returns true; and for the single existing file
`Content/a.uasset` with a shell whose every command fails, the one `status`
command issued fails and `RunUpdateStatus` still returns true. -/
theorem C18_counterexample :
    (RunUpdateStatus false (fun _ => false)
      (Recorded (fun (s : Unit) _ _ _ => (true, [], [], s)))
      (fun f =>
        { LocalFilename := f, WorkspaceState := EWorkspaceState.Unknown
          LocalRevisionChangeset := -1, DepotRevisionChangeset := -1, LockedBy := []
          LockedWhere := [], PendingMergeBaseFileHash := [], TimeStamp := 0 })
      [] [] (fun _ _ => (0, 0)) ((), [])
      ["Content/new.uasset".toList] [] []).map
        (fun R => (R.bResult, R.OutStates.map (fun S => (S.LocalFilename, S.WorkspaceState)),
          R.Shell.2))
      = some (true, [("Content/new.uasset".toList, EWorkspaceState.Private)], []) ∧
    (RunUpdateStatus false (fun _ => true)
      (Recorded (fun (s : Unit) _ _ _ => (false, [], ["error".toList], s)))
      (fun f =>
        { LocalFilename := f, WorkspaceState := EWorkspaceState.Unknown
          LocalRevisionChangeset := -1, DepotRevisionChangeset := -1, LockedBy := []
          LockedWhere := [], PendingMergeBaseFileHash := [], TimeStamp := 0 })
      [] [] (fun _ _ => (0, 0)) ((), [])
      ["Content/a.uasset".toList] [] []).map
        (fun R => (R.bResult, R.OutErrorMessages,
          R.Shell.2.map (fun c => (c.InCommand, c.InFiles, c.bResult))))
      = some (true, ["error".toList],
          [("status".toList, ["Content/a.uasset".toList], false)]) := by
  constructor <;> rfl

/-- C18 (amended): for every list of files, provided every `fileinfo` reply has
at most one line per file, `RunUpdateStatus` returns; it returns true only if
every `fileinfo` command it issued succeeded, and it returns true if every
command it issued succeeded. A file special-cased as not found does not make
it return false: called on one file that does not exist, it issues no
command, adds the state `Private` and returns true. -/
theorem C18_result_follows_fileinfo {σ : Type} (bPlatformWindows : Bool)
    (FileExists : FString → Bool)
    (RunCommand : FRunCommand σ) (NewState : FString → FPlasticSourceControlState)
    (GetUserName GetWorkspaceName : FString) (Indeterminate : Nat → Nat → Int × Int)
    (Shell : σ) (InFiles OutErrorMessages : List FString)
    (OutStates : List FPlasticSourceControlState)
    (hlines : ∀ s p f, (RunCommand s "fileinfo".toList p f).2.1.length ≤ f.length) :
    (∃ R, RunUpdateStatus bPlatformWindows FileExists (Recorded RunCommand) NewState GetUserName
        GetWorkspaceName Indeterminate (Shell, []) InFiles OutErrorMessages OutStates
        = some R ∧
      (R.bResult = true →
        ∀ Call ∈ R.Shell.2, Call.InCommand = "fileinfo".toList → Call.bResult = true) ∧
      ((∀ Call ∈ R.Shell.2, Call.bResult = true) → R.bResult = true)) ∧
    (∀ File, FileExists File = false →
      RunUpdateStatus bPlatformWindows FileExists (Recorded RunCommand) NewState GetUserName
        GetWorkspaceName Indeterminate (Shell, []) [File] OutErrorMessages OutStates
        = some { bResult := true
                 OutErrorMessages := OutErrorMessages
                 OutStates := OutStates ++
                   [{ NewState File with WorkspaceState := EWorkspaceState.Private }]
                 Shell := (Shell, []) }) := by
  constructor
  · obtain ⟨R, hR, Calls, hs, hiff, _⟩ := RunUpdateStatus.loop_recorded bPlatformWindows
      FileExists RunCommand
      NewState GetUserName GetWorkspaceName Indeterminate hlines
      (RunUpdateStatus.GroupOfFiles InFiles) 0
      { bResult := true, OutErrorMessages := OutErrorMessages, OutStates := OutStates
        Shell := (Shell, []) }
    have hCalls : R.Shell.2 = Calls := by
      rw [hs]
      exact List.nil_append _
    refine ⟨R, hR, ?_, ?_⟩
    · intro hb Call hCall hcmd
      rw [hCalls] at hCall
      exact (hiff.mp hb).2 Call hCall hcmd
    · intro hall
      rw [hCalls] at hall
      exact hiff.mpr ⟨rfl, fun c hc _ => hall c hc⟩
  · intro File hmissing
    have hsp : (1 == [File].length && !(FileExists ([File].headD []))) = true := by
      simp [hmissing]
    have hgroup : RunUpdateStatus.GroupOfFiles [File] = [(GetPath File, [File])] := rfl
    unfold RunUpdateStatus
    rw [hgroup, RunUpdateStatus.loop]
    simp only [RunStatus_special FileExists (Recorded RunCommand) NewState (Shell, []) [File]
      OutErrorMessages OutStates hsp, Bool.false_eq_true, if_false, RunUpdateStatus.loop]
    rfl

/-- Witness of C18 (amended): two existing files of one directory and a shell
whose `fileinfo` command fails; `RunUpdateStatus` returns false. -/
theorem C18_result_follows_fileinfo_witness :
    ∃ R, RunUpdateStatus false (fun _ => true)
        (Recorded (fun (s : Unit) c _ _ => (!(c == "fileinfo".toList), [], [], s)))
        (fun f =>
        { LocalFilename := f, WorkspaceState := EWorkspaceState.Unknown
          LocalRevisionChangeset := -1, DepotRevisionChangeset := -1, LockedBy := []
          LockedWhere := [], PendingMergeBaseFileHash := [], TimeStamp := 0 })
        [] [] (fun _ _ => (0, 0)) ((), []) ["b/x".toList, "b/y".toList] [] [] = some R ∧
      (R.bResult = true →
        ∀ Call ∈ R.Shell.2, Call.InCommand = "fileinfo".toList → Call.bResult = true) ∧
      ((∀ Call ∈ R.Shell.2, Call.bResult = true) → R.bResult = true) :=
  (C18_result_follows_fileinfo false (fun _ => true)
    (fun (s : Unit) c _ _ => (!(c == "fileinfo".toList), [], [], s))
    (fun f =>
        { LocalFilename := f, WorkspaceState := EWorkspaceState.Unknown
          LocalRevisionChangeset := -1, DepotRevisionChangeset := -1, LockedBy := []
          LockedWhere := [], PendingMergeBaseFileHash := [], TimeStamp := 0 })
    [] [] (fun _ _ => (0, 0)) () ["b/x".toList, "b/y".toList] [] []
    (by
      intro s p f
      simp)).1

/-! ### History in reverse order -/

/-- C21 (failing input): the files `A/x` and `B/y` of two directories, both on
disk; every command succeeds, a `status` reply is the line ` CO f`, a
`fileinfo` reply has one line per file, `16;16;alice;wkA` for `A/x` and
`17;18;bob;wkB` for `B/y` ; the user is `alice` in the workspace `wkA`. After
`RunUpdateStatus` the state of `A/x` holds the changesets 17 and 18, the lock
owner `bob`, the lock location `wkB` and is `LockedByOther`, all of which come
from the line returned for `B/y` ; the state of `B/y` holds no changeset and
no lock, and is not promoted. -/
theorem C21_fileinfo_lands_on_first_states :
    (RunUpdateStatus false (fun _ => true)
      (fun (s : Unit) c _ f =>
        (true,
          if c == "fileinfo".toList then
            f.map (fun p => if p == "A/x".toList then "16;16;alice;wkA".toList
              else "17;18;bob;wkB".toList)
          else [" CO f".toList],
          [], s))
      (fun f =>
        { LocalFilename := f, WorkspaceState := EWorkspaceState.Unknown
          LocalRevisionChangeset := -1, DepotRevisionChangeset := -1, LockedBy := []
          LockedWhere := [], PendingMergeBaseFileHash := [], TimeStamp := 0 })
      "alice".toList "wkA".toList (fun _ _ => (0, 0)) ()
      ["A/x".toList, "B/y".toList] [] []).map
        (fun R => (R.bResult, R.OutStates.map (fun S =>
          (S.LocalFilename, S.WorkspaceState, S.LocalRevisionChangeset,
            S.DepotRevisionChangeset, S.LockedBy, S.LockedWhere))))
      = some (true,
          [("A/x".toList, EWorkspaceState.LockedByOther, 17, 18, "bob".toList, "wkB".toList),
           ("B/y".toList, EWorkspaceState.CheckedOut, -1, -1, [], [])]) := by
  rfl

/-! ### Changeset log -/

/-- C23 (failing input): a `LogList` document whose `Changeset` has an `Owner`
element (`dev`) and no `Comment` element. `ParseLogResults` leaves the revision
as it was: the author is not set to `dev`, because the assignment of the
author is made under the test that the `Comment` node is present. With both
elements present, description and author are both set. -/
theorem C23_owner_without_comment_is_dropped (bPlatformWindows : Bool)
    (ParseIso8601 : FString → Option FString)
    (Revision : FPlasticSourceControlRevision) :
    ParseLogResults bPlatformWindows ParseIso8601
        (some (FXmlNode.mk "LogList".toList []
          [FXmlNode.mk "Changeset".toList []
            [FXmlNode.mk "Owner".toList "dev".toList []]]))
        Revision
      = some Revision ∧
    ParseLogResults bPlatformWindows ParseIso8601
        (some (FXmlNode.mk "LogList".toList []
          [FXmlNode.mk "Changeset".toList []
            [FXmlNode.mk "Comment".toList "Ignore Collections".toList [],
             FXmlNode.mk "Owner".toList "dev".toList []]]))
        Revision
      = some { Revision with
          Description := "Ignore Collections".toList
          UserName := "dev".toList } := by
  constructor <;> rfl

/-- C25 (as stated, refuted): the date text `2016-4-18T10:44:49.0000000+02:00`
carries 7 fractional digits followed by the 6-character offset `+02:00`. The
text handed to the timestamp parsing is `2016-4-18T10:44:49.00002:00`, not
`2016-4-18T10:44:49.000+02:00` : the offset is taken from position 27 of the
text, which is where it starts only when 19 characters precede the point. -/
theorem C25_counterexample :
    "2016-4-18T10:44:49.0000000+02:00".toList
      = "2016-4-18T10:44:49".toList ++ '.' :: ("000".toList ++ "0000".toList ++ "+02:00".toList) ∧
    ParseLogResults.DateIso "2016-4-18T10:44:49.0000000+02:00".toList
      = "2016-4-18T10:44:49.00002:00".toList ∧
    ParseLogResults.DateIso "2016-4-18T10:44:49.0000000+02:00".toList
      ≠ "2016-4-18T10:44:49".toList ++ '.' :: ("000".toList ++ "+02:00".toList) := by
  refine ⟨rfl, rfl, ?_⟩
  decide

/-- C25 (amended): for every date text made of 19 characters (as
`2016-04-18T10:44:49`), a point, 7 fractional digits and a 6-character
timezone offset, the text handed to the timestamp parsing is the input
without its last 4 fractional digits: everything up to and including the third
fractional digit, followed by the unchanged offset. It is the text that
`ParseLogResults` gives to `ParseIso8601` for the `Date` element of the
changeset. -/
theorem C25_date_keeps_three_fractional_digits (bPlatformWindows : Bool)
    (Seconds Kept Dropped Offset : FString)
    (hSeconds : Seconds.length = 19) (hKept : Kept.length = 3) (hDropped : Dropped.length = 4)
    (hOffset : Offset.length = 6) :
    ParseLogResults.DateIso (Seconds ++ '.' :: (Kept ++ Dropped ++ Offset))
      = Seconds ++ '.' :: (Kept ++ Offset) ∧
    ∀ (ParseIso8601 : FString → Option FString) (Revision : FPlasticSourceControlRevision),
      ParseLogResults bPlatformWindows ParseIso8601
          (some (FXmlNode.mk "LogList".toList []
            [FXmlNode.mk "Changeset".toList []
              [FXmlNode.mk "Date".toList (Seconds ++ '.' :: (Kept ++ Dropped ++ Offset)) []]]))
          Revision
        = some (match ParseIso8601 (Seconds ++ '.' :: (Kept ++ Offset)) with
          | some Date => { Revision with Date := Date }
          | none => Revision) := by
  have hiso : ParseLogResults.DateIso (Seconds ++ '.' :: (Kept ++ Dropped ++ Offset))
      = Seconds ++ '.' :: (Kept ++ Offset) := by
    have hlen : (Seconds ++ '.' :: (Kept ++ Dropped ++ Offset)).length = 33 := by
      simp only [List.length_append, List.length_cons, hSeconds, hKept, hDropped, hOffset]
    have hleft : (Seconds ++ '.' :: (Kept ++ Dropped ++ Offset)).take 23
        = Seconds ++ '.' :: Kept := by
      have e : Seconds ++ '.' :: (Kept ++ Dropped ++ Offset)
          = (Seconds ++ '.' :: Kept) ++ (Dropped ++ Offset) := by simp
      rw [e]
      exact List.take_left' (by simp [hSeconds, hKept])
    have hright : (Seconds ++ '.' :: (Kept ++ Dropped ++ Offset)).drop 27 = Offset := by
      have e : Seconds ++ '.' :: (Kept ++ Dropped ++ Offset)
          = (Seconds ++ '.' :: (Kept ++ Dropped)) ++ Offset := by simp
      rw [e]
      exact List.drop_left' (by simp [hSeconds, hKept, hDropped])
    unfold ParseLogResults.DateIso LeftChop RightChop Left
    rw [hlen, hright]
    show (Seconds ++ '.' :: (Kept ++ Dropped ++ Offset)).take 23 ++ Offset = _
    rw [hleft]
    simp
  refine ⟨hiso, ?_⟩
  intro ParseIso8601 Revision
  have hrun : ParseLogResults bPlatformWindows ParseIso8601
      (some (FXmlNode.mk "LogList".toList []
        [FXmlNode.mk "Changeset".toList []
          [FXmlNode.mk "Date".toList (Seconds ++ '.' :: (Kept ++ Dropped ++ Offset)) []]]))
      Revision
      = some (match ParseIso8601
          (ParseLogResults.DateIso (Seconds ++ '.' :: (Kept ++ Dropped ++ Offset))) with
        | some Date => { Revision with Date := Date }
        | none => Revision) := rfl
  rw [hrun, hiso]

/-- Witness of C25 (amended): the date of the example of the source. -/
theorem C25_date_keeps_three_fractional_digits_witness :
    ParseLogResults.DateIso "2016-04-18T10:44:49.0000000+02:00".toList
      = "2016-04-18T10:44:49.000+02:00".toList :=
  (C25_date_keeps_three_fractional_digits false "2016-04-18T10:44:49".toList "000".toList
    "0000".toList "+02:00".toList rfl rfl rfl rfl).1

/-- C26: `TranslateAction` maps `Added` to `add`, `Moved` to `branch`, `Deleted` to
`delete`, and every other text to `edit`, among them `Changed`, the empty
text and `added` (the comparison respects case); its result is always one of
`add`, `branch`, `delete`, `edit`. -/
theorem C26_translate_action :
    TranslateAction "Added".toList = "add".toList ∧
    TranslateAction "Moved".toList = "branch".toList ∧
    TranslateAction "Deleted".toList = "delete".toList ∧
    TranslateAction "Changed".toList = "edit".toList ∧
    TranslateAction [] = "edit".toList ∧
    TranslateAction "added".toList = "edit".toList ∧
    (∀ InAction : FString, InAction ≠ "Added".toList → InAction ≠ "Moved".toList →
      InAction ≠ "Deleted".toList → TranslateAction InAction = "edit".toList) ∧
    (∀ InAction : FString, TranslateAction InAction ∈
      ["add".toList, "branch".toList, "delete".toList, "edit".toList]) := by
  refine ⟨rfl, rfl, rfl, rfl, rfl, rfl, ?_, ?_⟩
  · intro InAction h1 h2 h3
    simp only [TranslateAction, Equals, decide_eq_true_eq, if_neg h1, if_neg h2, if_neg h3]
  · intro InAction
    unfold TranslateAction
    split_ifs <;> simp

/-- C28 (failing input): a `LogList` document whose `Changeset` has a `Comment`
element and no `Owner` element. `ParseLogResults` reads the content of the
`Owner` node, which is the null pointer: the read is made under the test that
the `Comment` node is present, not the `Owner` node. -/
theorem C28_owner_read_without_owner (bPlatformWindows : Bool)
    (ParseIso8601 : FString → Option FString)
    (Revision : FPlasticSourceControlRevision) :
    (FXmlNode.mk "Changeset".toList []
      [FXmlNode.mk "Comment".toList "Ignore Collections".toList []]).FindChildNode
        "Owner".toList = none ∧
    ParseLogResults bPlatformWindows ParseIso8601
        (some (FXmlNode.mk "LogList".toList []
          [FXmlNode.mk "Changeset".toList []
            [FXmlNode.mk "Comment".toList "Ignore Collections".toList []]]))
        Revision
      = none := by
  constructor <;> rfl

/-! ### Repository specification -/

/-- C29 (failing input): the workspace status command succeeds and its first
line is `cs:41@rep:UE4PlasticPlugin`, which has 2 fields. The test
`3 >= RepositorySpecification.Num()` holds, so `GetRepositorySpecification`
reads the fields at positions 1 and 2, the second of which is past the end of
the list; it does not return false. On the 4 fields of
`cs:41@rep:UE4@repserver:h@x` it returns false and assigns nothing, although
the positions 1 and 2 exist; on the 3 fields of the example of the source it
assigns both names. -/
theorem C29_two_fields_read_past_the_end :
    ParseIntoArray "cs:41@rep:UE4PlasticPlugin".toList ['@'] true
      = ["cs:41".toList, "rep:UE4PlasticPlugin".toList] ∧
    GetRepositorySpecification
        (fun (s : Unit) _ _ _ => (true, ["cs:41@rep:UE4PlasticPlugin".toList], [], s))
        () "C:/Workspace".toList [] []
      = none ∧
    GetRepositorySpecification
        (fun (s : Unit) _ _ _ => (true, ["cs:41@rep:UE4@repserver:h@x".toList], [], s))
        () "C:/Workspace".toList "old".toList "old".toList
      = some (false, "old".toList, "old".toList, ()) ∧
    GetRepositorySpecification
        (fun (s : Unit) _ _ _ =>
          (true, ["cs:41@rep:UE4PlasticPlugin@repserver:localhost:8087".toList], [], s))
        () "C:/Workspace".toList [] []
      = some (true, "UE4PlasticPlugin".toList, "localhost:8087".toList, ()) := by
  refine ⟨rfl, rfl, rfl, rfl⟩

/-! ### The clock -/

/-- The result flag and the accumulated output of the read loop do not depend
on the clock, nor on the activity timestamp and the counters it starts with. -/
theorem RunCommandInternal.readLoop_clock (bPlatformWindows : Bool)
    (Seconds1 Seconds2 : Nat → Int) :
    ∀ (Reads : List FString) (L1 L2 : FReadLoop), L1.bResult = L2.bResult →
      L1.OutResults = L2.OutResults →
      (RunCommandInternal.readLoop bPlatformWindows Seconds1 Reads L1).bResult
        = (RunCommandInternal.readLoop bPlatformWindows Seconds2 Reads L2).bResult ∧
      (RunCommandInternal.readLoop bPlatformWindows Seconds1 Reads L1).OutResults
        = (RunCommandInternal.readLoop bPlatformWindows Seconds2 Reads L2).OutResults := by
  intro Reads
  induction Reads with
  | nil =>
    intro L1 L2 hb ho
    exact ⟨hb, ho⟩
  | cons Output Rest ih =>
    intro L1 L2 hb ho
    rw [RunCommandInternal.readLoop, RunCommandInternal.readLoop]
    by_cases hpos : 0 < Output.length
    · rw [if_pos hpos, if_pos hpos, ho]
      dsimp only
      cases hfind : RunCommandInternal.findResult bPlatformWindows (L2.OutResults ++ Output) with
      | none => exact ih _ _ hb rfl
      | some Found => exact ⟨rfl, rfl⟩
    · rw [if_neg hpos, if_neg hpos]
      split_ifs
      · exact ih _ _ hb ho
      · exact ih _ _ hb ho
      · exact ih _ _ hb ho
      · exact ih _ _ hb ho

/-- C27: for every sequence of pipe reads and every state of the process, what
`RunCommandInternal` returns and leaves (result flag, results text, errors
text, the write made, whether it restarted, the handle) is the same for any
two clocks. In the read loop an empty read, whether or not the 60-second
threshold is exceeded at that moment, changes neither the result flag nor the
accumulated output, and the loop goes on with the reads that follow. -/
theorem C27_clock_does_not_change_the_outcome (bPlatformWindows bHandleValid : Bool)
    (bProcRunningAtEntry bRestartLaunches : Bool) (Reads : List FString)
    (Seconds1 Seconds2 : Nat → Int) (InCommand : FString)
    (InParameters InFiles : List FString) (OutResults OutErrors : FString) :
    ((RunCommandInternal bPlatformWindows bHandleValid
        { bProcRunningAtEntry := bProcRunningAtEntry, bRestartLaunches := bRestartLaunches
          Reads := Reads, Seconds := Seconds1 }
        InCommand InParameters InFiles OutResults OutErrors).bResult
      = (RunCommandInternal bPlatformWindows bHandleValid
        { bProcRunningAtEntry := bProcRunningAtEntry, bRestartLaunches := bRestartLaunches
          Reads := Reads, Seconds := Seconds2 }
        InCommand InParameters InFiles OutResults OutErrors).bResult ∧
    (RunCommandInternal bPlatformWindows bHandleValid
        { bProcRunningAtEntry := bProcRunningAtEntry, bRestartLaunches := bRestartLaunches
          Reads := Reads, Seconds := Seconds1 }
        InCommand InParameters InFiles OutResults OutErrors).OutResults
      = (RunCommandInternal bPlatformWindows bHandleValid
        { bProcRunningAtEntry := bProcRunningAtEntry, bRestartLaunches := bRestartLaunches
          Reads := Reads, Seconds := Seconds2 }
        InCommand InParameters InFiles OutResults OutErrors).OutResults ∧
    (RunCommandInternal bPlatformWindows bHandleValid
        { bProcRunningAtEntry := bProcRunningAtEntry, bRestartLaunches := bRestartLaunches
          Reads := Reads, Seconds := Seconds1 }
        InCommand InParameters InFiles OutResults OutErrors).OutErrors
      = (RunCommandInternal bPlatformWindows bHandleValid
        { bProcRunningAtEntry := bProcRunningAtEntry, bRestartLaunches := bRestartLaunches
          Reads := Reads, Seconds := Seconds2 }
        InCommand InParameters InFiles OutResults OutErrors).OutErrors ∧
    (RunCommandInternal bPlatformWindows bHandleValid
        { bProcRunningAtEntry := bProcRunningAtEntry, bRestartLaunches := bRestartLaunches
          Reads := Reads, Seconds := Seconds1 }
        InCommand InParameters InFiles OutResults OutErrors).Writes
      = (RunCommandInternal bPlatformWindows bHandleValid
        { bProcRunningAtEntry := bProcRunningAtEntry, bRestartLaunches := bRestartLaunches
          Reads := Reads, Seconds := Seconds2 }
        InCommand InParameters InFiles OutResults OutErrors).Writes ∧
    (RunCommandInternal bPlatformWindows bHandleValid
        { bProcRunningAtEntry := bProcRunningAtEntry, bRestartLaunches := bRestartLaunches
          Reads := Reads, Seconds := Seconds1 }
        InCommand InParameters InFiles OutResults OutErrors).bRestarted
      = (RunCommandInternal bPlatformWindows bHandleValid
        { bProcRunningAtEntry := bProcRunningAtEntry, bRestartLaunches := bRestartLaunches
          Reads := Reads, Seconds := Seconds2 }
        InCommand InParameters InFiles OutResults OutErrors).bRestarted ∧
    (RunCommandInternal bPlatformWindows bHandleValid
        { bProcRunningAtEntry := bProcRunningAtEntry, bRestartLaunches := bRestartLaunches
          Reads := Reads, Seconds := Seconds1 }
        InCommand InParameters InFiles OutResults OutErrors).bHandleValid
      = (RunCommandInternal bPlatformWindows bHandleValid
        { bProcRunningAtEntry := bProcRunningAtEntry, bRestartLaunches := bRestartLaunches
          Reads := Reads, Seconds := Seconds2 }
        InCommand InParameters InFiles OutResults OutErrors).bHandleValid) ∧
    (∀ (Later : List FString) (L : FReadLoop),
      (RunCommandInternal.readLoop bPlatformWindows Seconds1 ([] :: Later) L).bResult
        = (RunCommandInternal.readLoop bPlatformWindows Seconds1 Later L).bResult ∧
      (RunCommandInternal.readLoop bPlatformWindows Seconds1 ([] :: Later) L).OutResults
        = (RunCommandInternal.readLoop bPlatformWindows Seconds1 Later L).OutResults) := by
  constructor
  · have key := RunCommandInternal.readLoop_clock bPlatformWindows Seconds1 Seconds2 Reads
      { bResult := false, OutResults := OutResults, LastActivity := Seconds1 0
        PreviousLogLen := 0, Ticks := 1 }
      { bResult := false, OutResults := OutResults, LastActivity := Seconds2 0
        PreviousLogLen := 0, Ticks := 1 } rfl rfl
    unfold RunCommandInternal
    dsimp only
    cases bHandleValid
    · simp
    · simp only [if_true]
      by_cases hv : (if (!bProcRunningAtEntry) = true then bRestartLaunches else true) = true
      · rw [if_pos hv, if_pos hv, key.1, key.2]
        split_ifs <;> exact ⟨rfl, rfl, rfl, rfl, rfl, rfl⟩
      · rw [if_neg hv, if_neg hv]
        exact ⟨rfl, rfl, rfl, rfl, rfl, rfl⟩
  · intro Later L
    rw [RunCommandInternal.readLoop, if_neg (by simp)]
    split_ifs
    · exact RunCommandInternal.readLoop_clock bPlatformWindows Seconds1 Seconds1 Later _ L
        rfl rfl
    · exact RunCommandInternal.readLoop_clock bPlatformWindows Seconds1 Seconds1 Later _ L
        rfl rfl

/-! ### History after a failed lookup -/

theorem ParseHistoryResults.foldl_length_of_success {σ : Type} (bPlatformWindows : Bool)
    (RunLogCommand : σ → FString → FPlasticSourceControlRevision →
      Bool × FPlasticSourceControlRevision × σ)
    (New : FPlasticSourceControlRevision) :
    ∀ (Lines : List FString) (H : FHistoryLoop σ),
      (Lines.foldl (fun H Result => ParseHistoryResults.body bPlatformWindows RunLogCommand
          New Result H)
        H).bResult = true →
      (Lines.foldl (fun H Result => ParseHistoryResults.body bPlatformWindows RunLogCommand
          New Result H)
        H).OutHistory.length = H.OutHistory.length + Lines.length := by
  intro Lines
  induction Lines with
  | nil => intro H _; rfl
  | cons r rs ih =>
    intro H h
    rw [List.foldl_cons] at h ⊢
    by_cases hb : (ParseHistoryResults.body bPlatformWindows RunLogCommand New r H).bResult = true
    · rw [ih _ h]
      have hone : (ParseHistoryResults.body bPlatformWindows RunLogCommand New r
          H).OutHistory.length
          = H.OutHistory.length + 1 := by
        unfold ParseHistoryResults.body at hb ⊢
        by_cases hH : H.bResult = true
        · rw [if_pos hH] at hb ⊢
          split at hb
          · simp
          · exact absurd hb Bool.false_ne_true
        · rw [if_neg hH] at hb
          exact absurd hb hH
      rw [hone, List.length_cons]
      omega
    · have hf : (ParseHistoryResults.body bPlatformWindows RunLogCommand New r H).bResult
        = false := by
        simpa using hb
      rw [ParseHistoryResults.foldl_of_failed bPlatformWindows _ _ _ _ hf] at h
      exact absurd h hb

/-- The function `RunLogCommand` leaves the revision as it received it when it
returns false. -/
theorem RunLogCommand_of_failed {σ : Type} (bPlatformWindows : Bool)
    (RunCommandInternal : σ → FString → List FString → List FString →
      Bool × FString × FString × σ)
    (LoadFile : FString → Bool × Option FXmlNode)
    (ParseIso8601 : FString → Option FString)
    (GetRepositoryName GetServerUrl : FString) (Shell Shell1 : σ) (InChangeset : FString)
    (Revision Revision1 : FPlasticSourceControlRevision)
    (h : RunLogCommand bPlatformWindows RunCommandInternal LoadFile ParseIso8601 GetRepositoryName
      GetServerUrl Shell InChangeset Revision = some (false, Revision1, Shell1)) :
    Revision1 = Revision := by
  unfold RunLogCommand at h
  dsimp only at h
  split_ifs at h
  · split at h
    · simp at h
    · simp at h
  · simp only [Option.some.injEq, Prod.mk.injEq, true_and] at h
    exact h.1.symm
  · simp only [Option.some.injEq, Prod.mk.injEq, true_and] at h
    exact h.1.symm

/-- C30 (as stated, refuted): the line `17;;220` has 3 semicolon-delimited fields,
the second one empty, so it is not a line of exactly 2 fields. With a log
lookup that succeeds, `ParseHistoryResults` returns success on it and appends
one revision, of changeset 17 and revision 220: a line is accepted when its
fields that are not empty are exactly 2. -/
theorem C30_counterexample :
    semicolonFields "17;;220".toList = ["17".toList, [], "220".toList] ∧
    (semicolonFields "17;;220".toList).length ≠ 2 ∧
    (ParseHistoryResults false (fun (s : Nat) _ r => (true, r, s + 1))
      { ChangesetNumber := 0, RevisionNumber := 0, Revision := [], Filename := [],
        Description := [], UserName := [], Action := [], Date := [], BranchSource := none }
      0 ["17;;220".toList] []).bResult = true ∧
    (ParseHistoryResults false (fun (s : Nat) _ r => (true, r, s + 1))
      { ChangesetNumber := 0, RevisionNumber := 0, Revision := [], Filename := [],
        Description := [], UserName := [], Action := [], Date := [], BranchSource := none }
      0 ["17;;220".toList] []).OutHistory
      = [{ ChangesetNumber := 17, RevisionNumber := 220, Revision := "220".toList
           Filename := [], Description := [], UserName := [], Action := [], Date := []
           BranchSource := none }] := by
  refine ⟨?_, ?_, ?_, ?_⟩
  · rfl
  · decide
  · rfl
  · rfl

/-- C30 (amended): fields are counted after the empty ones are dropped. When the
history lines are `earlier ++ Line :: later`, the lines after `Line` were all
processed with success, the non-empty semicolon-delimited fields of `Line` are
exactly 2 and its log lookup fails (leaving, as `RunLogCommand` does when it
fails, the revision as it received it), `ParseHistoryResults` returns failure
and its history is the one reached before `Line` followed by the revision
built from `Line` : the changeset number, revision number and label of the
line, everything else as in a new revision. Its length is the number of lines
processed, the failing one included. A line in the place of `Line` whose
non-empty fields are not exactly 2 appends nothing: the history is the one
reached before it. -/
theorem C30_failed_lookup_is_still_appended {σ : Type} (bPlatformWindows : Bool)
    (RunLogCommand : σ → FString → FPlasticSourceControlRevision →
      Bool × FPlasticSourceControlRevision × σ)
    (New : FPlasticSourceControlRevision) (Shell : σ)
    (OutHistory : List FPlasticSourceControlRevision)
    (earlier later : List FString) (Line Changeset RevisionId : FString)
    (hkeep : ∀ s c r, (RunLogCommand s c r).1 = false → (RunLogCommand s c r).2.1 = r)
    (hlater : (ParseHistoryResults bPlatformWindows RunLogCommand New Shell later
        OutHistory).bResult = true)
    (hsplit : nonEmptyFields Line = [Changeset, RevisionId])
    (hlog : (RunLogCommand (ParseHistoryResults bPlatformWindows RunLogCommand New Shell later
        OutHistory).Shell
      Changeset
      { New with
        ChangesetNumber := Atoi bPlatformWindows Changeset
        RevisionNumber := Atoi bPlatformWindows RevisionId
        Revision := RevisionId }).1 = false) :
    (ParseHistoryResults bPlatformWindows RunLogCommand New Shell (earlier ++ Line :: later)
      OutHistory).bResult = false ∧
    (ParseHistoryResults bPlatformWindows RunLogCommand New Shell (earlier ++ Line :: later)
      OutHistory).OutHistory
      = (ParseHistoryResults bPlatformWindows RunLogCommand New Shell later
          OutHistory).OutHistory ++
        [{ New with
          ChangesetNumber := Atoi bPlatformWindows Changeset
          RevisionNumber := Atoi bPlatformWindows RevisionId
          Revision := RevisionId }] ∧
    (ParseHistoryResults bPlatformWindows RunLogCommand New Shell (earlier ++ Line :: later)
      OutHistory).OutHistory.length = OutHistory.length + (later.length + 1) ∧
    (∀ Malformed : FString, (nonEmptyFields Malformed).length ≠ 2 →
      (ParseHistoryResults bPlatformWindows RunLogCommand New Shell (earlier ++ Malformed :: later)
        OutHistory).bResult = false ∧
      (ParseHistoryResults bPlatformWindows RunLogCommand New Shell (earlier ++ Malformed :: later)
        OutHistory).OutHistory
        = (ParseHistoryResults bPlatformWindows RunLogCommand New Shell later
            OutHistory).OutHistory ∧
      (ParseHistoryResults bPlatformWindows RunLogCommand New Shell (earlier ++ Malformed :: later)
        OutHistory).OutHistory.length = OutHistory.length + later.length) := by
  rw [← ParseIntoArray_semicolon] at hsplit
  have hlen : (ParseHistoryResults bPlatformWindows RunLogCommand New Shell later
      OutHistory).OutHistory.length
      = OutHistory.length + later.length := by
    rw [ParseHistoryResults_eq_foldl] at hlater ⊢
    rw [ParseHistoryResults.foldl_length_of_success bPlatformWindows RunLogCommand New
        later.reverse _ hlater]
    simp
  have hstep : ∀ L : FString,
      (ParseHistoryResults.body bPlatformWindows RunLogCommand New L
        (ParseHistoryResults bPlatformWindows RunLogCommand New Shell later
            OutHistory)).bResult = false →
      ParseHistoryResults bPlatformWindows RunLogCommand New Shell
          (earlier ++ L :: later) OutHistory
        = ParseHistoryResults.body bPlatformWindows RunLogCommand New L
            (ParseHistoryResults bPlatformWindows RunLogCommand New Shell later OutHistory) := by
    intro L hL
    rw [ParseHistoryResults_eq_foldl, ParseHistoryResults_eq_foldl] at *
    simp only [List.reverse_append, List.reverse_cons, List.foldl_append, List.foldl_cons,
      List.foldl_nil, List.append_assoc, List.singleton_append]
    exact ParseHistoryResults.foldl_of_failed bPlatformWindows _ _ _ _ hL
  have hbody := ParseHistoryResults.body_of_two_fields bPlatformWindows RunLogCommand New
      Line Changeset
    RevisionId (ParseHistoryResults bPlatformWindows RunLogCommand New Shell later OutHistory)
        hlater hsplit
  have hfailed : (ParseHistoryResults.body bPlatformWindows RunLogCommand New Line
      (ParseHistoryResults bPlatformWindows RunLogCommand New Shell later OutHistory)).bResult
          = false := by
    rw [hbody]
    exact hlog
  refine ⟨?_, ?_, ?_, ?_⟩
  · rw [hstep Line hfailed]
    exact hfailed
  · rw [hstep Line hfailed, hbody, hkeep _ _ _ hlog]
  · rw [hstep Line hfailed, hbody]
    simp only [List.length_append, List.length_singleton]
    omega
  · intro Malformed hbad
    rw [← ParseIntoArray_semicolon] at hbad
    have hmal : ParseHistoryResults.body bPlatformWindows RunLogCommand New Malformed
        (ParseHistoryResults bPlatformWindows RunLogCommand New Shell later OutHistory)
        = { ParseHistoryResults bPlatformWindows RunLogCommand New Shell later OutHistory with
            bResult := false } := by
      unfold ParseHistoryResults.body
      rw [if_pos hlater]
      split
      · rename_i heq
        rw [heq] at hbad
        simp at hbad
      · rfl
    have hf2 : (ParseHistoryResults.body bPlatformWindows RunLogCommand New Malformed
        (ParseHistoryResults bPlatformWindows RunLogCommand New Shell later OutHistory)).bResult
            = false := by
      rw [hmal]
    rw [hstep Malformed hf2, hmal]
    exact ⟨rfl, rfl, hlen⟩

/-- Witness of C30: the lines `14;176`, `17;220`, `18;223` with a log lookup that
fails on changeset 17 and leaves the revision alone; the history holds the
revisions of the changesets 18 and 17. -/
theorem C30_failed_lookup_is_still_appended_witness :
    (ParseHistoryResults false (fun (s : Nat) c r => (!(c == "17".toList), r, s + 1))
      { ChangesetNumber := 0, RevisionNumber := 0, Revision := [], Filename := [],
        Description := [], UserName := [], Action := [], Date := [], BranchSource := none }
      0 (["14;176".toList] ++ "17;220".toList :: ["18;223".toList]) []).bResult = false ∧
    (ParseHistoryResults false (fun (s : Nat) c r => (!(c == "17".toList), r, s + 1))
      { ChangesetNumber := 0, RevisionNumber := 0, Revision := [], Filename := [],
        Description := [], UserName := [], Action := [], Date := [], BranchSource := none }
      0 (["14;176".toList] ++ "17;220".toList :: ["18;223".toList]) []).OutHistory.map
        (fun r => (r.ChangesetNumber, r.RevisionNumber, r.Revision))
      = [(18, 223, "223".toList), (17, 220, "220".toList)] := by
  have h := C30_failed_lookup_is_still_appended false
    (fun (s : Nat) c r => (!(c == "17".toList), r, s + 1))
    { ChangesetNumber := 0, RevisionNumber := 0, Revision := [], Filename := [],
        Description := [], UserName := [], Action := [], Date := [], BranchSource := none }
    0 [] ["14;176".toList] ["18;223".toList] "17;220".toList "17".toList "220".toList
    (fun _ _ _ _ => rfl) rfl rfl rfl
  refine ⟨h.1, ?_⟩
  rw [h.2.1]
  rfl

/-! ### Status within one group -/

theorem RunStatus.foldl_after_failure {σ : Type} (RunCommand : FRunCommand σ)
    (NewState : FString → FPlasticSourceControlState) :
    ∀ (InFiles : List FString) (R : FStatusRun σ), R.bResult = false →
      InFiles.foldl (RunStatus.body RunCommand NewState) R
        = { R with OutStates := R.OutStates ++ InFiles.map NewState } := by
  intro InFiles
  induction InFiles with
  | nil =>
    intro R _
    simp
  | cons File Rest ih =>
    intro R hR
    have hbody : RunStatus.body RunCommand NewState R File
        = { R with OutStates := R.OutStates ++ [NewState File] } := by
      unfold RunStatus.body
      dsimp only
      rw [if_neg (by rw [hR]; exact Bool.false_ne_true)]
    rw [List.foldl_cons, hbody,
      ih { R with OutStates := R.OutStates ++ [NewState File] } hR]
    simp

theorem RunStatus.foldl_of_success {σ : Type} (RunCommand : FRunCommand σ)
    (NewState : FString → FPlasticSourceControlState) :
    ∀ (InFiles : List FString) (R : FStatusRun (σ × List FCommandCall)),
      R.bResult = true →
      (InFiles.foldl (RunStatus.body (Recorded RunCommand) NewState) R).bResult = true →
      ∃ Calls, (InFiles.foldl (RunStatus.body (Recorded RunCommand) NewState) R).Shell.2
          = R.Shell.2 ++ Calls ∧
        Calls.map (fun c => (c.InCommand, c.InFiles, c.bResult))
          = InFiles.map (fun f => ("status".toList, [f], true)) := by
  intro InFiles
  induction InFiles with
  | nil =>
    intro R _ _
    exact ⟨[], by simp, rfl⟩
  | cons File Rest ih =>
    intro R hR hfinal
    rw [List.foldl_cons] at hfinal ⊢
    have hbody : RunStatus.body (Recorded RunCommand) NewState R File
        = { bResult := (RunCommand R.Shell.1 "status".toList RunStatus.Status [File]).1
            OutErrorMessages := R.OutErrorMessages ++
              (RunCommand R.Shell.1 "status".toList RunStatus.Status [File]).2.2.1
            OutStates := R.OutStates ++
              [if (RunCommand R.Shell.1 "status".toList RunStatus.Status [File]).1 then
                ParseStatusResult File
                  (RunCommand R.Shell.1 "status".toList RunStatus.Status [File]).2.1
                  (NewState File)
               else NewState File]
            Shell := ((RunCommand R.Shell.1 "status".toList RunStatus.Status [File]).2.2.2,
              R.Shell.2 ++ [{ InCommand := "status".toList, InParameters := RunStatus.Status
                              InFiles := [File]
                              bResult := (RunCommand R.Shell.1 "status".toList
                                RunStatus.Status [File]).1 }]) } := by
      unfold RunStatus.body
      dsimp only
      rw [if_pos hR]
      rfl
    have hrun : (RunCommand R.Shell.1 "status".toList RunStatus.Status [File]).1 = true := by
      cases hc : (RunCommand R.Shell.1 "status".toList RunStatus.Status [File]).1
      · exfalso
        have hf : (RunStatus.body (Recorded RunCommand) NewState R File).bResult = false := by
          rw [hbody]
          exact hc
        rw [RunStatus.foldl_after_failure _ _ _ _ hf] at hfinal
        rw [hf] at hfinal
        exact Bool.false_ne_true hfinal
      · rfl
    have hB : (RunStatus.body (Recorded RunCommand) NewState R File).bResult = true := by
      rw [hbody]
      exact hrun
    obtain ⟨Calls, hs, hm⟩ := ih _ hB hfinal
    refine ⟨{ InCommand := "status".toList, InParameters := RunStatus.Status
              InFiles := [File], bResult := true } :: Calls, ?_, ?_⟩
    · rw [hs, hbody, hrun]
      simp
    · rw [List.map_cons, List.map_cons, hm]

/-- One group of `RunUpdateStatus` : one state is added for each file, and when
a `fileinfo` command is made, the commands made are one successful `status`
command for each file, in order, then the `fileinfo` command on the files. -/
theorem RunUpdateStatus.loop_one_group {σ : Type} (bPlatformWindows : Bool)
    (FileExists : FString → Bool)
    (RunCommand : FRunCommand σ) (NewState : FString → FPlasticSourceControlState)
    (GetUserName GetWorkspaceName : FString) (Indeterminate : Nat → Nat → Int × Int)
    (hlines : ∀ s p f, (RunCommand s "fileinfo".toList p f).2.1.length ≤ f.length)
    (G : FString × List FString) (IdxGroup : Nat) (U : FStatusRun (σ × List FCommandCall)) :
    ∃ R, RunUpdateStatus.loop bPlatformWindows FileExists (Recorded RunCommand) NewState GetUserName
        GetWorkspaceName Indeterminate [G] IdxGroup U = some R ∧
      R.OutStates.length = U.OutStates.length + G.2.length ∧
      ∃ Calls, R.Shell.2 = U.Shell.2 ++ Calls ∧
        ((∃ c ∈ Calls, c.InCommand = "fileinfo".toList) →
          Calls.map (fun c => (c.InCommand, c.InFiles))
              = G.2.map (fun f => ("status".toList, [f])) ++ [("fileinfo".toList, G.2)] ∧
            ∀ c ∈ Calls, c.InCommand = "status".toList → c.bResult = true) := by
  obtain ⟨C1, hs1, k1, l1⟩ := RunStatus_recorded FileExists RunCommand NewState U.Shell G.2
    U.OutErrorMessages U.OutStates
  rw [RunUpdateStatus.loop]
  by_cases hok : (RunStatus FileExists (Recorded RunCommand) NewState U.Shell G.2
      U.OutErrorMessages U.OutStates).bResult = true
  · rw [if_pos hok]
    have hnotspecial : (1 == G.2.length && !(FileExists (G.2.headD []))) = false := by
      cases hsp : (1 == G.2.length && !(FileExists (G.2.headD [])))
      · rfl
      · rw [RunStatus_special FileExists (Recorded RunCommand) NewState U.Shell G.2
          U.OutErrorMessages U.OutStates hsp] at hok
        exact absurd hok Bool.false_ne_true
    have hloop : RunStatus FileExists (Recorded RunCommand) NewState U.Shell G.2
        U.OutErrorMessages U.OutStates
        = G.2.foldl (RunStatus.body (Recorded RunCommand) NewState)
            { bResult := true, OutErrorMessages := U.OutErrorMessages
              OutStates := U.OutStates, Shell := U.Shell } := by
      unfold RunStatus
      rw [if_neg (by rw [hnotspecial]; exact Bool.false_ne_true)]
    obtain ⟨C2, hs2, hm2⟩ := RunStatus.foldl_of_success RunCommand NewState G.2
      { bResult := true, OutErrorMessages := U.OutErrorMessages
        OutStates := U.OutStates, Shell := U.Shell } rfl (by rw [← hloop]; exact hok)
    rw [← hloop] at hs2
    obtain ⟨F, hF, hFs, hFl⟩ := RunFileinfo_recorded bPlatformWindows GetUserName GetWorkspaceName
      (Indeterminate IdxGroup) RunCommand
      (RunStatus FileExists (Recorded RunCommand) NewState U.Shell G.2
        U.OutErrorMessages U.OutStates).Shell G.2
      (RunStatus FileExists (Recorded RunCommand) NewState U.Shell G.2
        U.OutErrorMessages U.OutStates).OutErrorMessages
      (RunStatus FileExists (Recorded RunCommand) NewState U.Shell G.2
        U.OutErrorMessages U.OutStates).OutStates hlines (by rw [l1]; omega)
    rw [hF]
    refine ⟨_, rfl, ?_, C2 ++ [{ InCommand := "fileinfo".toList
                                 InParameters := RunFileinfo.Parameters
                                 InFiles := G.2, bResult := F.bResult }], ?_, ?_⟩
    · show F.OutStates.length = _
      rw [hFl, l1]
    · show F.Shell.2 = _
      rw [hFs, hs2]
      simp only [List.append_assoc]
    · intro _
      constructor
      · rw [List.map_append, List.map_singleton]
        have h3 : C2.map (fun c => (c.InCommand, c.InFiles))
            = G.2.map (fun f => ("status".toList, [f])) := by
          have := congrArg (List.map (fun t : FString × List FString × Bool => (t.1, t.2.1))) hm2
          simpa [List.map_map, Function.comp] using this
        rw [h3]
      · intro c hc hcmd
        rcases List.mem_append.mp hc with hc | hc
        · have hin : (c.InCommand, c.InFiles, c.bResult)
              ∈ C2.map (fun c => (c.InCommand, c.InFiles, c.bResult)) :=
            List.mem_map_of_mem _ hc
          rw [hm2] at hin
          obtain ⟨f, _, hf⟩ := List.mem_map.mp hin
          have := congrArg (fun t : FString × List FString × Bool => t.2.2) hf
          exact this.symm
        · have e : c = _ := List.mem_singleton.mp hc
          rw [e] at hcmd
          have hcmd2 : "fileinfo".toList = "status".toList := hcmd
          exact absurd hcmd2 (by decide)
  · rw [if_neg hok]
    refine ⟨_, rfl, l1, C1, hs1, ?_⟩
    rintro ⟨c, hc, hcmd⟩
    rw [(k1 c hc).1] at hcmd
    exact absurd hcmd (by decide)

/-- C22: within one group `Pre ++ File :: Post` of `RunUpdateStatus` that is not
the special case of a lone missing file, when the `status` commands of the
files of `Pre` succeed and the one of `File` fails: `RunStatus` returns false;
the last command made is the failed `status` command of `File`, none is made
for the files of `Post` ; the states added are those of `Pre`, one for each of
its files, then for `File` and for each file of `Post` the state as
constructed for the file, left as it is; and `RunUpdateStatus` goes on to the
next group without a `fileinfo` command. For every group, provided a
`fileinfo` reply has at most one line per file, one state is added for each
file, and a `fileinfo` command is made only after one successful `status`
command for each file of the group. -/
theorem C22_status_stops_after_failure {σ : Type} (bPlatformWindows : Bool)
    (FileExists : FString → Bool)
    (RunCommand : FRunCommand σ) (NewState : FString → FPlasticSourceControlState)
    (GetUserName GetWorkspaceName : FString) (Indeterminate : Nat → Nat → Int × Int)
    (U : FStatusRun (σ × List FCommandCall)) (Path : FString) (Pre Post : List FString)
    (File : FString) (Rest : List (FString × List FString)) (IdxGroup : Nat)
    (hlines : ∀ s p f, (RunCommand s "fileinfo".toList p f).2.1.length ≤ f.length)
    (hgeneral : (1 == (Pre ++ File :: Post).length &&
      !(FileExists ((Pre ++ File :: Post).headD []))) = false)
    (hpre : (Pre.foldl (RunStatus.body (Recorded RunCommand) NewState)
      { bResult := true, OutErrorMessages := U.OutErrorMessages, OutStates := U.OutStates
        Shell := U.Shell }).bResult = true)
    (hfail : (RunCommand
      (Pre.foldl (RunStatus.body (Recorded RunCommand) NewState)
        { bResult := true, OutErrorMessages := U.OutErrorMessages, OutStates := U.OutStates
          Shell := U.Shell }).Shell.1
      "status".toList RunStatus.Status [File]).1 = false) :
    RunStatus FileExists (Recorded RunCommand) NewState U.Shell (Pre ++ File :: Post)
        U.OutErrorMessages U.OutStates
      = { bResult := false
          OutErrorMessages :=
            (Pre.foldl (RunStatus.body (Recorded RunCommand) NewState)
              { bResult := true, OutErrorMessages := U.OutErrorMessages
                OutStates := U.OutStates, Shell := U.Shell }).OutErrorMessages ++
            (RunCommand
              (Pre.foldl (RunStatus.body (Recorded RunCommand) NewState)
                { bResult := true, OutErrorMessages := U.OutErrorMessages
                  OutStates := U.OutStates, Shell := U.Shell }).Shell.1
              "status".toList RunStatus.Status [File]).2.2.1
          OutStates :=
            (Pre.foldl (RunStatus.body (Recorded RunCommand) NewState)
              { bResult := true, OutErrorMessages := U.OutErrorMessages
                OutStates := U.OutStates, Shell := U.Shell }).OutStates ++
            NewState File :: Post.map NewState
          Shell :=
            ((RunCommand
              (Pre.foldl (RunStatus.body (Recorded RunCommand) NewState)
                { bResult := true, OutErrorMessages := U.OutErrorMessages
                  OutStates := U.OutStates, Shell := U.Shell }).Shell.1
              "status".toList RunStatus.Status [File]).2.2.2,
             (Pre.foldl (RunStatus.body (Recorded RunCommand) NewState)
              { bResult := true, OutErrorMessages := U.OutErrorMessages
                OutStates := U.OutStates, Shell := U.Shell }).Shell.2 ++
              [{ InCommand := "status".toList, InParameters := RunStatus.Status
                 InFiles := [File], bResult := false }]) } ∧
    (Pre.foldl (RunStatus.body (Recorded RunCommand) NewState)
        { bResult := true, OutErrorMessages := U.OutErrorMessages, OutStates := U.OutStates
          Shell := U.Shell }).OutStates.length = U.OutStates.length + Pre.length ∧
    RunUpdateStatus.loop bPlatformWindows FileExists (Recorded RunCommand) NewState GetUserName
        GetWorkspaceName Indeterminate ((Path, Pre ++ File :: Post) :: Rest) IdxGroup U
      = RunUpdateStatus.loop bPlatformWindows FileExists (Recorded RunCommand) NewState GetUserName
          GetWorkspaceName Indeterminate Rest (IdxGroup + 1)
          { RunStatus FileExists (Recorded RunCommand) NewState U.Shell (Pre ++ File :: Post)
              U.OutErrorMessages U.OutStates with bResult := U.bResult } ∧
    (∀ (G : FString × List FString) (Idx : Nat) (V : FStatusRun (σ × List FCommandCall)),
      ∃ R, RunUpdateStatus.loop bPlatformWindows FileExists (Recorded RunCommand)
          NewState GetUserName
          GetWorkspaceName Indeterminate [G] Idx V = some R ∧
        R.OutStates.length = V.OutStates.length + G.2.length ∧
        ∃ Calls, R.Shell.2 = V.Shell.2 ++ Calls ∧
          ((∃ c ∈ Calls, c.InCommand = "fileinfo".toList) →
            Calls.map (fun c => (c.InCommand, c.InFiles))
                = G.2.map (fun f => ("status".toList, [f])) ++ [("fileinfo".toList, G.2)] ∧
              ∀ c ∈ Calls, c.InCommand = "status".toList → c.bResult = true)) := by
  have hstatus : RunStatus FileExists (Recorded RunCommand) NewState U.Shell
      (Pre ++ File :: Post) U.OutErrorMessages U.OutStates
      = { bResult := false
          OutErrorMessages :=
            (Pre.foldl (RunStatus.body (Recorded RunCommand) NewState)
              { bResult := true, OutErrorMessages := U.OutErrorMessages
                OutStates := U.OutStates, Shell := U.Shell }).OutErrorMessages ++
            (RunCommand
              (Pre.foldl (RunStatus.body (Recorded RunCommand) NewState)
                { bResult := true, OutErrorMessages := U.OutErrorMessages
                  OutStates := U.OutStates, Shell := U.Shell }).Shell.1
              "status".toList RunStatus.Status [File]).2.2.1
          OutStates :=
            (Pre.foldl (RunStatus.body (Recorded RunCommand) NewState)
              { bResult := true, OutErrorMessages := U.OutErrorMessages
                OutStates := U.OutStates, Shell := U.Shell }).OutStates ++
            NewState File :: Post.map NewState
          Shell :=
            ((RunCommand
              (Pre.foldl (RunStatus.body (Recorded RunCommand) NewState)
                { bResult := true, OutErrorMessages := U.OutErrorMessages
                  OutStates := U.OutStates, Shell := U.Shell }).Shell.1
              "status".toList RunStatus.Status [File]).2.2.2,
             (Pre.foldl (RunStatus.body (Recorded RunCommand) NewState)
              { bResult := true, OutErrorMessages := U.OutErrorMessages
                OutStates := U.OutStates, Shell := U.Shell }).Shell.2 ++
              [{ InCommand := "status".toList, InParameters := RunStatus.Status
                 InFiles := [File], bResult := false }]) } := by
    unfold RunStatus
    rw [if_neg (by rw [hgeneral]; exact Bool.false_ne_true), List.foldl_append,
      List.foldl_cons]
    generalize Pre.foldl (RunStatus.body (Recorded RunCommand) NewState)
      { bResult := true, OutErrorMessages := U.OutErrorMessages, OutStates := U.OutStates
        Shell := U.Shell } = A at hpre hfail ⊢
    have hbody : RunStatus.body (Recorded RunCommand) NewState A File
        = { bResult := false
            OutErrorMessages := A.OutErrorMessages ++
              (RunCommand A.Shell.1 "status".toList RunStatus.Status [File]).2.2.1
            OutStates := A.OutStates ++ [NewState File]
            Shell := ((RunCommand A.Shell.1 "status".toList RunStatus.Status [File]).2.2.2,
              A.Shell.2 ++ [{ InCommand := "status".toList, InParameters := RunStatus.Status
                              InFiles := [File], bResult := false }]) } := by
      unfold RunStatus.body
      dsimp only
      rw [if_pos hpre]
      simp only [Recorded, hfail, Bool.false_eq_true, if_false]
    rw [hbody, RunStatus.foldl_after_failure _ _ _ _ rfl]
    simp
  refine ⟨hstatus, ?_, ?_, ?_⟩
  · obtain ⟨_, _, _, l⟩ := RunStatus.foldl_recorded RunCommand NewState Pre
      { bResult := true, OutErrorMessages := U.OutErrorMessages, OutStates := U.OutStates
        Shell := U.Shell }
    exact l
  · rw [RunUpdateStatus.loop]
    have hb : (RunStatus FileExists (Recorded RunCommand) NewState U.Shell
        (Pre ++ File :: Post) U.OutErrorMessages U.OutStates).bResult = false := by
      rw [hstatus]
    rw [if_neg (by rw [hb]; exact Bool.false_ne_true)]
  · intro G Idx V
    exact RunUpdateStatus.loop_one_group bPlatformWindows FileExists RunCommand NewState GetUserName
      GetWorkspaceName Indeterminate hlines G Idx V

/-- Witness of C22: the files `d/a`, `d/b`, `d/c` of one directory, all on disk,
with a shell whose `status` command fails for `d/b` : two `status` commands
are made, for `d/a` and `d/b`, and three states are added, the last two as
constructed. -/
theorem C22_status_stops_after_failure_witness :
    (RunStatus (fun _ => true)
      (Recorded (fun (s : Unit) c _ f =>
        (!(f == ["d/b".toList]),
          if c == "fileinfo".toList then [] else [" CO f".toList], [], s)))
      (fun f =>
      { LocalFilename := f, WorkspaceState := EWorkspaceState.Unknown,
        LocalRevisionChangeset := -1, DepotRevisionChangeset := -1, LockedBy := [],
        LockedWhere := [], PendingMergeBaseFileHash := [], TimeStamp := 0 })
      ((), []) (["d/a".toList] ++ "d/b".toList :: ["d/c".toList]) [] []).bResult = false ∧
    (RunStatus (fun _ => true)
      (Recorded (fun (s : Unit) c _ f =>
        (!(f == ["d/b".toList]),
          if c == "fileinfo".toList then [] else [" CO f".toList], [], s)))
      (fun f =>
      { LocalFilename := f, WorkspaceState := EWorkspaceState.Unknown,
        LocalRevisionChangeset := -1, DepotRevisionChangeset := -1, LockedBy := [],
        LockedWhere := [], PendingMergeBaseFileHash := [], TimeStamp := 0 })
      ((), []) (["d/a".toList] ++ "d/b".toList :: ["d/c".toList]) [] []).Shell.2.map
        (fun c => (c.InCommand, c.InFiles, c.bResult))
      = [("status".toList, ["d/a".toList], true), ("status".toList, ["d/b".toList], false)] ∧
    (RunStatus (fun _ => true)
      (Recorded (fun (s : Unit) c _ f =>
        (!(f == ["d/b".toList]),
          if c == "fileinfo".toList then [] else [" CO f".toList], [], s)))
      (fun f =>
      { LocalFilename := f, WorkspaceState := EWorkspaceState.Unknown,
        LocalRevisionChangeset := -1, DepotRevisionChangeset := -1, LockedBy := [],
        LockedWhere := [], PendingMergeBaseFileHash := [], TimeStamp := 0 })
      ((), []) (["d/a".toList] ++ "d/b".toList :: ["d/c".toList]) [] []).OutStates.map
        (fun S => (S.LocalFilename, S.WorkspaceState))
      = [("d/a".toList, EWorkspaceState.CheckedOut), ("d/b".toList, EWorkspaceState.Unknown),
         ("d/c".toList, EWorkspaceState.Unknown)] := by
  have h := C22_status_stops_after_failure false (fun _ => true)
    (fun (s : Unit) c _ f =>
        (!(f == ["d/b".toList]),
          if c == "fileinfo".toList then [] else [" CO f".toList], [], s))
    (fun f =>
      { LocalFilename := f, WorkspaceState := EWorkspaceState.Unknown,
        LocalRevisionChangeset := -1, DepotRevisionChangeset := -1, LockedBy := [],
        LockedWhere := [], PendingMergeBaseFileHash := [], TimeStamp := 0 })
    [] [] (fun _ _ => (0, 0))
    { bResult := true, OutErrorMessages := [], OutStates := [], Shell := ((), []) }
    "d".toList ["d/a".toList] ["d/c".toList] "d/b".toList [] 0
    (by
      intro s p f
      simp)
    rfl rfl rfl
  rw [h.1]
  exact ⟨rfl, rfl, rfl⟩

/-! ### Change entries -/

/-- The `if` chain of `FPlasticStatusParser` never takes the branch of the text
`conflited` on a text of at most 2 characters. -/
theorem FPlasticStatusParser.ofFileStatus_short (FileStatus : FString)
    (hshort : FileStatus.length ≤ 2) :
    FStringEq FileStatus "conflited".toList = false ∧
    FPlasticStatusParser.ofFileStatus FileStatus ∈
      [EWorkspaceState.Changed, EWorkspaceState.CheckedOut, EWorkspaceState.Copied,
       EWorkspaceState.Replaced, EWorkspaceState.Added, EWorkspaceState.Private,
       EWorkspaceState.Ignored, EWorkspaceState.Deleted, EWorkspaceState.Moved,
       EWorkspaceState.Unknown] := by
  have hconf : FStringEq FileStatus "conflited".toList = false := by
    cases h : FStringEq FileStatus "conflited".toList
    · rfl
    · have hlen := FStringEq_length h
      have h9 : "conflited".toList.length = 9 := rfl
      omega
  refine ⟨hconf, ?_⟩
  unfold FPlasticStatusParser.ofFileStatus
  rw [hconf]
  simp only [Bool.false_eq_true, if_false]
  split_ifs <;> simp only [List.mem_cons, true_or, or_true]

theorem EWorkspaceState.of_parser_range (State : EWorkspaceState)
    (h : State ∈
      [EWorkspaceState.Changed, EWorkspaceState.CheckedOut, EWorkspaceState.Copied,
       EWorkspaceState.Replaced, EWorkspaceState.Added, EWorkspaceState.Private,
       EWorkspaceState.Ignored, EWorkspaceState.Deleted, EWorkspaceState.Moved,
       EWorkspaceState.Unknown]) :
    State ≠ EWorkspaceState.Conflicted ∧ State ≠ EWorkspaceState.Controlled ∧
      State ≠ EWorkspaceState.LockedByOther := by
  simp only [List.mem_cons, List.mem_nil_iff, or_false] at h
  rcases h with h | h | h | h | h | h | h | h | h | h <;> subst h <;>
    refine ⟨?_, ?_, ?_⟩ <;> intro e <;> cases e

/-- C31: for every input line, the state given by `FPlasticStatusParser` is one of
`Changed`, `CheckedOut`, `Copied`, `Replaced`, `Added`, `Private`, `Ignored`,
`Deleted`, `Moved`, `Unknown`. It is never `Conflicted` : the code read by
`Mid(1, 2)` has at most 2 characters, so it never equals the 9-character text
`conflited` it is compared with; nor is it `Controlled` or `LockedByOther`. -/
theorem C31_status_parser_range (InResult : FString) :
    FPlasticStatusParser InResult ∈
      [EWorkspaceState.Changed, EWorkspaceState.CheckedOut, EWorkspaceState.Copied,
       EWorkspaceState.Replaced, EWorkspaceState.Added, EWorkspaceState.Private,
       EWorkspaceState.Ignored, EWorkspaceState.Deleted, EWorkspaceState.Moved,
       EWorkspaceState.Unknown] ∧
    FPlasticStatusParser InResult ≠ EWorkspaceState.Conflicted ∧
    FPlasticStatusParser InResult ≠ EWorkspaceState.Controlled ∧
    FPlasticStatusParser InResult ≠ EWorkspaceState.LockedByOther ∧
    (Mid InResult 1 2).length ≤ 2 ∧
    "conflited".toList.length = 9 ∧
    FStringEq (Mid InResult 1 2) "conflited".toList = false := by
  have hshort := Mid_length_le InResult 1 2
  obtain ⟨hconf, hmem⟩ := FPlasticStatusParser.ofFileStatus_short (Mid InResult 1 2) hshort
  have hmem2 : FPlasticStatusParser InResult ∈
      [EWorkspaceState.Changed, EWorkspaceState.CheckedOut, EWorkspaceState.Copied,
       EWorkspaceState.Replaced, EWorkspaceState.Added, EWorkspaceState.Private,
       EWorkspaceState.Ignored, EWorkspaceState.Deleted, EWorkspaceState.Moved,
       EWorkspaceState.Unknown] := hmem
  obtain ⟨h1, h2, h3⟩ := EWorkspaceState.of_parser_range _ hmem2
  exact ⟨hmem2, h1, h2, h3, hshort, rfl, hconf⟩

end PlasticSourceControlUtils
